import Mathlib

/-!
# Mean value coordinates parameterization (CGAL, `Mean_value_coordinates_parametizer_3.h`)

A shallow embedding of `Mean_value_coordinates_parametizer_3::compute_wij` and
`Mean_value_coordinates_parametizer_3::is_one_to_one_mapping`.

Conventions of the embedding.

* The number type `NT` (`double` in the source) is a parameter carrying the operations the
  code uses (`+`, `-`, `*`, `/`, `<`, `!=`, decimal literals), and the `<cmath>` functions
  `std::sqrt`, `std::tan` (and the arc cosine used by the angle helper) are explicit
  parameters.  Two instances are used.  `Double` is IEEE 754 binary64 with rounding to
  nearest, ties to even, gradual underflow, infinities and a NaN (the two zeros are
  identified); its operations are executable.  `ℝ` with `Real.sqrt` and `Real.arccos` is
  exact arithmetic, the setting of the statements that say so.
* What is stated for every `tan` holds whatever `std::tan` returns, also where the tangent
  has no value.
* `assert` is the macro of `<cassert>`: it aborts the program when its condition is false,
  and it expands to nothing when `NDEBUG` is defined.  The flag `ndebug` selects the build.
* A circulator around a vertex is a position in the cyclic list of its neighbours.
-/

namespace CGAL

/-- Kernel point `Point_3`: three Cartesian coordinates. -/
structure Point_3 (NT : Type) where
  x : NT
  y : NT
  z : NT

/-- Kernel vector `Vector_3`: three Cartesian coordinates. -/
structure Vector_3 (NT : Type) where
  x : NT
  y : NT
  z : NT

/-- Difference of two points, `operator-(Point_3, Point_3)`, a vector. -/
def Point_3.sub {NT : Type} [Sub NT] (p q : Point_3 NT) : Vector_3 NT :=
  ⟨p.x - q.x, p.y - q.y, p.z - q.z⟩

/-- Scalar product of two vectors, `operator*(Vector_3, Vector_3)`. -/
def Vector_3.dot {NT : Type} [Add NT] [Mul NT] (u v : Vector_3 NT) : NT :=
  u.x * v.x + u.y * v.y + u.z * v.z

/-- Vertices are identified by their index. -/
abbrev Vertex := Nat

/-- The part of the `MeshAdaptor_3` concept read by the weight strategy: the 3D position of
a vertex, the cyclic sequence of the vertices around a vertex, and the border flag. -/
structure MeshAdaptor_3 (NT : Type) where
  get_vertex_position : Vertex → Point_3 NT
  vertices_around_vertex : Vertex → List Vertex
  is_vertex_on_border : Vertex → Bool

/-- A `Vertex_around_vertex_const_circulator`: the cyclic sequence it walks on and the
current position in it. -/
structure Vertex_around_vertex_const_circulator where
  ring : List Vertex
  pos : Nat

namespace Vertex_around_vertex_const_circulator

/-- Dereference, `*circ`: the vertex at the current position. -/
def deref (c : Vertex_around_vertex_const_circulator) : Vertex :=
  c.ring.getD c.pos 0

/-- Step backwards, `circ --`, wrapping from the first position to the last. -/
def decrement (c : Vertex_around_vertex_const_circulator) :
    Vertex_around_vertex_const_circulator :=
  { c with pos := (c.pos + c.ring.length - 1) % c.ring.length }

/-- Step forwards, `circ ++`, wrapping from the last position to the first. -/
def increment (c : Vertex_around_vertex_const_circulator) :
    Vertex_around_vertex_const_circulator :=
  { c with pos := (c.pos + 1) % c.ring.length }

end Vertex_around_vertex_const_circulator

/-- The circulator on the `p`-th neighbour of vertex `v`. -/
def MeshAdaptor_3.circulator {NT : Type} (mesh : MeshAdaptor_3 NT) (v : Vertex) (p : Nat) :
    Vertex_around_vertex_const_circulator :=
  ⟨mesh.vertices_around_vertex v, p⟩

/-- What a call does: it returns a value, or an `assert` stops the program. -/
inductive Outcome (α : Type) where
  | returned (value : α)
  | assertion_failed
deriving DecidableEq

/-- Apply a function to the returned value, if any. -/
def Outcome.map {α β : Type} (f : α → β) : Outcome α → Outcome β
  | .returned a => .returned (f a)
  | .assertion_failed => .assertion_failed

/-- Source: `Mean_value_coordinates_parametizer_3::compute_wij` (lines 82-110).
`sqrt` and `tan` stand for `std::sqrt` and `std::tan`; `compute_angle_rad` is the helper
inherited from `Fixed_border_parametizer_3`; `ndebug` tells whether `assert` is compiled
out. -/
def compute_wij {NT : Type} [Zero NT] [Add NT] [Sub NT] [Mul NT] [Div NT] [OfScientific NT]
    [LT NT] [DecidableEq NT] [DecidableRel (fun a b : NT => a < b)] (sqrt tan : NT → NT)
    (compute_angle_rad : Point_3 NT → Point_3 NT → Point_3 NT → NT) (ndebug : Bool)
    (mesh : MeshAdaptor_3 NT) (main_vertex_Vi : Vertex)
    (neighbor_vertex_Vj : Vertex_around_vertex_const_circulator) : Outcome NT :=
  let position_Vi := mesh.get_vertex_position main_vertex_Vi
  let position_Vj := mesh.get_vertex_position neighbor_vertex_Vj.deref
  -- Compute the norm of Vj -> Vi vector
  let edge := position_Vi.sub position_Vj
  let len := sqrt (edge.dot edge)
  -- corner Vj,Vi,Vk with Vk the vertex before Vj when circulating around Vi
  let previous_vertex_Vk := neighbor_vertex_Vj.decrement
  let position_Vk := mesh.get_vertex_position previous_vertex_Vk.deref
  let gamma_ij := compute_angle_rad position_Vj position_Vi position_Vk
  -- corner Vl,Vi,Vj with Vl the vertex after Vj when circulating around Vi
  let next_vertex_Vl := neighbor_vertex_Vj.increment
  let position_Vl := mesh.get_vertex_position next_vertex_Vl.deref
  let delta_ij := compute_angle_rad position_Vl position_Vi position_Vj
  let weight0 : NT := 0
  -- assert(len != 0.0)
  if ndebug = false ∧ ¬ (len ≠ 0) then Outcome.assertion_failed
  else
    let weight := if len ≠ 0 then (tan (0.5 * gamma_ij) + tan (0.5 * delta_ij)) / len
      else weight0
    -- assert(weight > 0)
    if ndebug = false ∧ ¬ (weight > 0) then Outcome.assertion_failed
    else Outcome.returned weight

/-- Modelled from the spec: `compute_angle_rad` of `Fixed_border_parametizer_3.h`, a file
that is not among the sources.  The spec calls its result the angle at vertex `i` in the
triangle `(Pj, Pi, Pk)`: for the corner `(P, Q, R)` it is the angle at `Q` between `QP`
and `QR`, the arc cosine of the normalised scalar product. -/
def compute_angle_rad {NT : Type} [Add NT] [Sub NT] [Mul NT] [Div NT] (sqrt acos : NT → NT)
    (P Q R : Point_3 NT) : NT :=
  let u := P.sub Q
  let v := R.sub Q
  acos (u.dot v / (sqrt (u.dot u) * sqrt (v.dot v)))

/-- The `BorderParametizer_3` concept as far as the checker uses it: the answer of
`is_border_convex ()`, and the 2D point given to each border vertex. -/
structure BorderParametizer_3 (NT : Type) where
  is_border_convex : Bool
  border_uv : MeshAdaptor_3 NT → Vertex → NT × NT

/-- The parametizer object: the two constructor arguments kept by the base class. -/
structure Mean_value_coordinates_parametizer_3 (NT LA : Type) where
  borderParametizer : BorderParametizer_3 NT
  linearAlgebra : LA

/-- Accessor `get_border_parametizer ()` of the base class. -/
def Mean_value_coordinates_parametizer_3.get_border_parametizer {NT LA : Type}
    (self : Mean_value_coordinates_parametizer_3 NT LA) : BorderParametizer_3 NT :=
  self.borderParametizer

/-- Source: `Mean_value_coordinates_parametizer_3::is_one_to_one_mapping` (lines 113-120). -/
def Mean_value_coordinates_parametizer_3.is_one_to_one_mapping {NT LA Solver : Type}
    (self : Mean_value_coordinates_parametizer_3 NT LA) (_mesh : MeshAdaptor_3 NT)
    (_solver_u _solver_v : Solver) : Bool :=
  self.get_border_parametizer.is_border_convex

/-! ## Vocabulary of the specification -/

/-- The `p`-th neighbour `j` of vertex `i` in its cyclic neighbour order. -/
def MeshAdaptor_3.neighbor {NT : Type} (mesh : MeshAdaptor_3 NT) (i : Vertex) (p : Nat) :
    Vertex :=
  (mesh.vertices_around_vertex i).getD p 0

/-- The neighbour `k` immediately before the `p`-th one, wrapping around the cycle. -/
def MeshAdaptor_3.neighbor_before {NT : Type} (mesh : MeshAdaptor_3 NT) (i : Vertex)
    (p : Nat) : Vertex :=
  let n := (mesh.vertices_around_vertex i).length
  (mesh.vertices_around_vertex i).getD ((p + n - 1) % n) 0

/-- The neighbour `l` immediately after the `p`-th one, wrapping around the cycle. -/
def MeshAdaptor_3.neighbor_after {NT : Type} (mesh : MeshAdaptor_3 NT) (i : Vertex)
    (p : Nat) : Vertex :=
  let n := (mesh.vertices_around_vertex i).length
  (mesh.vertices_around_vertex i).getD ((p + 1) % n) 0

/-- Euclidean distance `|P - Q|`, written with the square root `sqrt`. -/
def distance {NT : Type} [LinearOrderedField NT] (sqrt : NT → NT) (P Q : Point_3 NT) : NT :=
  sqrt ((P.x - Q.x) ^ 2 + (P.y - Q.y) ^ 2 + (P.z - Q.z) ^ 2)

/-- Spec 4.2, the mean value weight of the ordered pair (vertex `i`, its `p`-th neighbour
`j`): `(tan(γ/2) + tan(δ/2)) / len`, with `len = |Pi - Pj|`, `γ` the angle at `Pi` between
`Pj` and `Pk`, `δ` the angle at `Pi` between `Pl` and `Pj`. -/
def mean_value_weight {NT : Type} [LinearOrderedField NT] (sqrt tan : NT → NT)
    (angle : Point_3 NT → Point_3 NT → Point_3 NT → NT) (mesh : MeshAdaptor_3 NT)
    (i : Vertex) (p : Nat) : NT :=
  let Pi := mesh.get_vertex_position i
  let Pj := mesh.get_vertex_position (mesh.neighbor i p)
  let Pk := mesh.get_vertex_position (mesh.neighbor_before i p)
  let Pl := mesh.get_vertex_position (mesh.neighbor_after i p)
  (tan (angle Pj Pi Pk / 2) + tan (angle Pl Pi Pj / 2)) / distance sqrt Pi Pj

/-- Vector product of two vectors, `cross_product(Vector_3, Vector_3)`. -/
def Vector_3.cross {NT : Type} [Sub NT] [Mul NT] (u v : Vector_3 NT) : Vector_3 NT :=
  ⟨u.y * v.z - u.z * v.y, u.z * v.x - u.x * v.z, u.x * v.y - u.y * v.x⟩

/-- The three points are not on one line: the vector product of `QP` and `QR` is not
zero. -/
def noncollinear {NT : Type} [LinearOrderedField NT] (P Q R : Point_3 NT) : Bool :=
  let w := (P.sub Q).cross (R.sub Q)
  decide (w.x ≠ 0 ∨ w.y ≠ 0 ∨ w.z ≠ 0)

/-- The point at distance `r` from `O` in the direction `c a + s b` of the plane through
`O` spanned by the orthonormal pair `a`, `b` (with `c`, `s` the cosine and the sine of the
polar angle). -/
def polar_point {NT : Type} [LinearOrderedField NT] (O : Point_3 NT) (a b : Vector_3 NT)
    (r c s : NT) : Point_3 NT :=
  ⟨O.x + r * (c * a.x + s * b.x), O.y + r * (c * a.y + s * b.y),
    O.z + r * (c * a.z + s * b.z)⟩

/-- The pair `a`, `b` is orthonormal. -/
def orthonormal {NT : Type} [LinearOrderedField NT] (a b : Vector_3 NT) : Prop :=
  a.dot a = 1 ∧ b.dot b = 1 ∧ a.dot b = 0

/-- An affine function of the position, `c0 + c . P`: a coordinate of an affine (for
instance a similarity) image of the surface. -/
def affine_coordinate {NT : Type} [LinearOrderedField NT] (c0 : NT) (c : Vector_3 NT)
    (P : Point_3 NT) : NT :=
  c0 + (c.x * P.x + c.y * P.y + c.z * P.z)

/-- Modelled from the spec: the row of an interior vertex `v` in the linear system that
`Fixed_border_parametizer_3` (not among the sources) assembles, applied to the unknowns
`X`.  Spec 4.3, step 3: "accumulate −weight(v,j) into matrix entry (v, j) and accumulate the
sum of weights into the diagonal entry (v, v)"; the right-hand side of the row is zero.
`w p` is the weight of the `p`-th neighbour of `v`. -/
def interior_row {NT : Type} [LinearOrderedField NT] (mesh : MeshAdaptor_3 NT)
    (w : Nat → NT) (v : Vertex) (X : Vertex → NT) : NT :=
  let n := (mesh.vertices_around_vertex v).length
  (∑ p in Finset.range n, w p) * X v + ∑ p in Finset.range n, (- w p) * X (mesh.neighbor v p)

/-- Modelled from the spec: what the linear system of `Fixed_border_parametizer_3` (not
among the sources) asks of a solution `(U, V)` on the vertices `0 .. nv - 1`.  Spec 4.3,
step 3: the row of a border vertex pins its unknown to the border coordinate, for both axes,
and the row of an interior vertex is `interior_row` with right-hand side zero. -/
def solves_system {NT : Type} [LinearOrderedField NT] (bp : BorderParametizer_3 NT)
    (mesh : MeshAdaptor_3 NT) (nv : Nat) (w : Vertex → Nat → NT) (U V : Vertex → NT) : Prop :=
  ∀ v, v < nv →
    if mesh.is_vertex_on_border v = true then (U v, V v) = bp.border_uv mesh v
    else interior_row mesh (w v) v U = 0 ∧ interior_row mesh (w v) v V = 0

/-- There is a path along neighbours from `v` to a border vertex below `nv`. -/
inductive reaches_border {NT : Type} (mesh : MeshAdaptor_3 NT) (nv : Nat) : Vertex → Prop where
  | border (v : Vertex) (hv : v < nv) (hb : mesh.is_vertex_on_border v = true) :
      reaches_border mesh nv v
  | step (v j : Vertex) (hj : j ∈ mesh.vertices_around_vertex v)
      (h : reaches_border mesh nv j) : reaches_border mesh nv v

/-! ## Triangulated discs -/

/-- A triangulated surface: the number of its vertices and its triangles, each listed
counter-clockwise. -/
structure Triangulation where
  nv : Nat
  faces : List (Vertex × Vertex × Vertex)

namespace Triangulation

/-- The three oriented edges of every face. -/
def halfedges (t : Triangulation) : List (Vertex × Vertex) :=
  (t.faces.map fun f => [(f.1, f.2.1), (f.2.1, f.2.2), (f.2.2, f.1)]).flatten

/-- The oriented edges whose opposite belongs to no face. -/
def border_halfedges (t : Triangulation) : List (Vertex × Vertex) :=
  t.halfedges.filter fun e => !(t.halfedges.contains (e.2, e.1))

/-- A vertex is on the border when a border edge starts at it. -/
def on_border (t : Triangulation) (v : Vertex) : Bool :=
  t.border_halfedges.any fun e => e.1 == v

/-- The vertex that follows `v` along the border (`v` itself off the border). -/
def border_next (t : Triangulation) (v : Vertex) : Vertex :=
  match t.border_halfedges.find? (fun e => e.1 == v) with
  | some e => e.2
  | none => v

/-- The border vertices met in `k` steps along the border from `v`. -/
def border_walk (t : Triangulation) : Nat → Vertex → List Vertex
  | 0, _ => []
  | k + 1, v => v :: border_walk t k (t.border_next v)

/-- The vertices reached from the set `s` in at most `k` steps along edges. -/
def reach (t : Triangulation) : Nat → List Vertex → List Vertex
  | 0, s => s
  | k + 1, s =>
    reach t k (List.dedup (s ++ ((t.halfedges.filter fun e => s.contains e.1).map fun e => e.2)))

/-- Whether `(a, b, c)` is a face, up to rotation. -/
def has_face (t : Triangulation) (a b c : Vertex) : Bool :=
  t.faces.contains (a, b, c) || t.faces.contains (b, c, a) || t.faces.contains (c, a, b)

/-- The faces are proper triangles on the vertices `0 .. nv - 1`, every oriented edge
belongs to one face only (an oriented manifold), the surface is connected, its border is
one loop through all border edges, and its Euler characteristic is 1: a triangulated
topological disc. -/
def is_disc (t : Triangulation) : Bool :=
  t.faces.all (fun f => f.1 != f.2.1 && f.2.1 != f.2.2 && f.2.2 != f.1 &&
      decide (f.1 < t.nv) && decide (f.2.1 < t.nv) && decide (f.2.2 < t.nv)) &&
  decide t.halfedges.Nodup &&
  (List.range t.nv).all (fun v => (t.reach t.nv [0]).contains v) &&
  (match t.border_halfedges with
   | [] => false
   | e :: _ =>
     decide (t.border_walk t.border_halfedges.length e.1).Nodup &&
     (t.border_walk (t.border_halfedges.length + 1) e.1).getLast? == some e.1) &&
  decide ((t.border_halfedges.map fun e => e.1).Nodup) &&
  decide (2 * (t.nv + t.faces.length) = t.halfedges.length + t.border_halfedges.length + 2)

/-- The adaptor describes the triangulation: its border flag is the border of the
triangulation, and around every interior vertex `v` its neighbour cycle lists, in order and
without repetition, the at least three faces `(v, j, j+)` that contain `v`. -/
def agrees {NT : Type} (t : Triangulation) (mesh : MeshAdaptor_3 NT) : Bool :=
  (List.range t.nv).all fun v =>
    let ring := mesh.vertices_around_vertex v
    (mesh.is_vertex_on_border v == t.on_border v) &&
    (t.on_border v ||
      (decide (3 ≤ ring.length) && decide ring.Nodup &&
       decide ((t.halfedges.filter fun e => e.1 == v).length = ring.length) &&
       (List.range ring.length).all fun p =>
         t.has_face v (ring.getD p 0) (ring.getD ((p + 1) % ring.length) 0)))

end Triangulation

/-! ## Concrete meshes -/

/-- One vertex with three neighbours on one ray from it: `P0` is the origin and
`P1, P2, P3` are at distances 1, 2, 3 on the first axis. -/
def rayMesh (NT : Type) [LinearOrderedField NT] : MeshAdaptor_3 NT where
  get_vertex_position := fun v => ⟨(v : NT), 0, 0⟩
  vertices_around_vertex := fun v => if v = 0 then [1, 2, 3] else []
  is_vertex_on_border := fun v => decide (v ≠ 0)

/-- Vertex 0 and its first neighbour, vertex 1, lie at the same point; the two other
neighbours are one unit away on the second and third axes. -/
def coincidentMesh (NT : Type) [LinearOrderedField NT] : MeshAdaptor_3 NT where
  get_vertex_position := fun v =>
    if v = 2 then ⟨0, 1, 0⟩ else if v = 3 then ⟨0, 0, 1⟩ else ⟨0, 0, 0⟩
  vertices_around_vertex := fun v => if v = 0 then [1, 2, 3] else []
  is_vertex_on_border := fun v => decide (v ≠ 0)

/-- A disc of five triangles.  The interior vertex `D = 0` sits at the origin and its three
neighbours `A = 1`, `B = 2`, `C = 3` are the unit points of the three axes; the triangles
`(A, C, E)` and `(A, E, F)`, with `E = 4` and `F = 5`, lie beyond the edge `A C`.  The border
is the loop `A, B, C, E, F`. -/
def foldMesh (NT : Type) [LinearOrderedField NT] : MeshAdaptor_3 NT where
  get_vertex_position := fun v =>
    if v = 0 then ⟨0, 0, 0⟩ else if v = 1 then ⟨1, 0, 0⟩ else if v = 2 then ⟨0, 1, 0⟩
    else if v = 3 then ⟨0, 0, 1⟩ else if v = 4 then ⟨1, 0, 2⟩ else ⟨2, 0, 1⟩
  vertices_around_vertex := fun v =>
    if v = 0 then [1, 2, 3] else if v = 1 then [2, 0, 3, 4, 5] else if v = 2 then [3, 0, 1]
    else if v = 3 then [4, 1, 0, 2] else if v = 4 then [5, 1, 3] else [1, 4]
  is_vertex_on_border := fun v => decide (v ≠ 0)

/-- The five triangles of `foldMesh`. -/
def foldTriangulation : Triangulation where
  nv := 6
  faces := [(0, 1, 2), (0, 2, 3), (0, 3, 1), (1, 3, 4), (1, 4, 5)]

/-- A border parametizer onto the unit square, a convex shape: the border loop
`A, B, C, E, F` of `foldMesh` goes to `(0,0), (1/2,0), (1,0), (1,1), (0,1)`, so that `A`, `B`
and `C` share the lower side. -/
def squareBorder (NT : Type) [LinearOrderedField NT] : BorderParametizer_3 NT where
  is_border_convex := true
  border_uv := fun _ v =>
    if v = 1 then (0, 0) else if v = 2 then (1 / 2, 0) else if v = 3 then (1, 0)
    else if v = 4 then (1, 1) else (0, 1)

/-- First coordinate of the solution of the system of `foldMesh` with `squareBorder`. -/
def foldU (NT : Type) [LinearOrderedField NT] (v : Vertex) : NT :=
  if v = 0 then 1 / 2 else ((squareBorder NT).border_uv (foldMesh NT) v).1

/-- Second coordinate of the solution of the system of `foldMesh` with `squareBorder`. -/
def foldV (NT : Type) [LinearOrderedField NT] (v : Vertex) : NT :=
  if v = 0 then 0 else ((squareBorder NT).border_uv (foldMesh NT) v).2

/-- A planar disc of six triangles with two adjacent interior vertices `i = 0`, at the
origin, and `j = 1`, at `(1, 0, 0)`.  Their common neighbours are `a = 2` at `(0, 1, 0)` and
`b = 3` at `(0, -1, 0)`; `c = 4` at `(-1, 0, 0)` closes the star of `i` and `d = 5` at
`(2, 0, 0)` the star of `j`. -/
def kiteMesh (NT : Type) [LinearOrderedField NT] : MeshAdaptor_3 NT where
  get_vertex_position := fun v =>
    if v = 0 then ⟨0, 0, 0⟩ else if v = 1 then ⟨1, 0, 0⟩ else if v = 2 then ⟨0, 1, 0⟩
    else if v = 3 then ⟨0, -1, 0⟩ else if v = 4 then ⟨-1, 0, 0⟩ else ⟨2, 0, 0⟩
  vertices_around_vertex := fun v =>
    if v = 0 then [1, 2, 4, 3] else if v = 1 then [5, 2, 0, 3]
    else if v = 2 then [4, 0, 1, 5] else if v = 3 then [5, 1, 0, 4]
    else if v = 4 then [3, 0, 2] else [2, 1, 3]
  is_vertex_on_border := fun v => decide (v ≠ 0 ∧ v ≠ 1)

/-- The six triangles of `kiteMesh`. -/
def kiteTriangulation : Triangulation where
  nv := 6
  faces := [(0, 1, 2), (0, 2, 4), (0, 4, 3), (0, 3, 1), (1, 5, 2), (1, 3, 5)]

/-- A fan of `n` triangles: the interior vertex 0 and around it the border vertices
`1 .. n`, at the positions `pos`. -/
def fanMesh {NT : Type} (n : Nat) (pos : Vertex → Point_3 NT) : MeshAdaptor_3 NT where
  get_vertex_position := pos
  vertices_around_vertex := fun v =>
    if v = 0 then List.range' 1 n else [v % n + 1, 0, (v + n - 2) % n + 1]
  is_vertex_on_border := fun v => decide (v ≠ 0)

/-- The `n` triangles of `fanMesh n`. -/
def fanTriangulation (n : Nat) : Triangulation where
  nv := n + 1
  faces := (List.range n).map fun p => (0, p + 1, (p + 1) % n + 1)

/-- The image of a mesh under the similarity `P ↦ s P + t` of space: the same vertices and
neighbour cycles, every position scaled by `s` and translated by `t`. -/
def MeshAdaptor_3.similarity_image {NT : Type} [Add NT] [Mul NT]
    (mesh : MeshAdaptor_3 NT) (s : NT) (t : Vector_3 NT) : MeshAdaptor_3 NT where
  get_vertex_position := fun v =>
    ⟨s * (mesh.get_vertex_position v).x + t.x, s * (mesh.get_vertex_position v).y + t.y,
      s * (mesh.get_vertex_position v).z + t.z⟩
  vertices_around_vertex := mesh.vertices_around_vertex
  is_vertex_on_border := mesh.is_vertex_on_border

/-- The polar angle with one full turn added after the last neighbour: `θ q` below `n`,
and `θ 0 + 2π` at `n`, so that `turn` of `q + 1` minus `turn` of `q` is the corner angle
between the `q`-th neighbour and the next one in the cycle (`twopi` stands for `2π`). -/
def turn {NT : Type} [LinearOrderedField NT] (twopi : NT) (n : Nat) (θ : Nat → NT)
    (q : Nat) : NT :=
  if q < n then θ q else θ 0 + twopi

/-- The neighbours of the vertex `v` are placed around it in one plane: they are the points
`polar_point Pv a b (r p) (cos (θ p)) (sin (θ p))` of the plane through `Pv` spanned by the
orthonormal pair `a`, `b`, at positive distances `r p`, there are at least three of them,
and the polar angle grows by more than `0` and less than `π` from each neighbour to the
next one in the cycle, the step from the last neighbour to the first closing one full turn
(so the corner angles at `Pv` sum to `2π`). -/
def placed_around (mesh : MeshAdaptor_3 ℝ) (v : Vertex) (a b : Vector_3 ℝ)
    (r θ : Nat → ℝ) : Prop :=
  orthonormal a b ∧ 3 ≤ (mesh.vertices_around_vertex v).length ∧
    (∀ p, p < (mesh.vertices_around_vertex v).length →
      0 < r p ∧ mesh.get_vertex_position (mesh.neighbor v p) =
        polar_point (mesh.get_vertex_position v) a b (r p) (Real.cos (θ p)) (Real.sin (θ p))) ∧
    (∀ q, q < (mesh.vertices_around_vertex v).length →
      0 < turn (2 * Real.pi) (mesh.vertices_around_vertex v).length θ (q + 1) -
          turn (2 * Real.pi) (mesh.vertices_around_vertex v).length θ q ∧
      turn (2 * Real.pi) (mesh.vertices_around_vertex v).length θ (q + 1) -
          turn (2 * Real.pi) (mesh.vertices_around_vertex v).length θ q < Real.pi)

/-- The neighbours of the vertex `v` surround it in one plane, in cyclic order, with every
consecutive corner angle at `Pv` strictly between `0` and `π`. -/
def surrounded_in_plane (mesh : MeshAdaptor_3 ℝ) (v : Vertex) : Prop :=
  ∃ (a b : Vector_3 ℝ) (r θ : Nat → ℝ), placed_around mesh v a b r θ

/-- A flat fan of four triangles: the interior vertex 0 at the origin and the border
vertices 1, 2, 3, 4 at `(1,0,0)`, `(0,1,0)`, `(-1,0,0)`, `(0,-1,0)`. -/
def squareFan (NT : Type) [LinearOrderedField NT] : MeshAdaptor_3 NT :=
  fanMesh 4 fun v =>
    if v = 1 then ⟨1, 0, 0⟩ else if v = 2 then ⟨0, 1, 0⟩ else if v = 3 then ⟨-1, 0, 0⟩
    else if v = 4 then ⟨0, -1, 0⟩ else ⟨0, 0, 0⟩

/-- A border parametizer that places every border vertex at the first two coordinates of
its position. -/
def flatBorder (NT : Type) [LinearOrderedField NT] : BorderParametizer_3 NT where
  is_border_convex := true
  border_uv := fun mesh v => ((mesh.get_vertex_position v).x, (mesh.get_vertex_position v).y)

/-- A fan of six triangles over a regular hexagon of radius one in the plane of the first
two axes: the interior vertex 0 at the centre and the border vertex `u` at the polar angle
`(u - 1) * third_pi` (`cos`, `sin` the circular functions, `third_pi` standing for `π/3`). -/
def hexagonFan {NT : Type} [LinearOrderedField NT] (cos sin : NT → NT) (third_pi : NT) :
    MeshAdaptor_3 NT :=
  fanMesh 6 fun u =>
    if u = 0 then ⟨0, 0, 0⟩
    else ⟨cos (((u - 1 : Nat) : NT) * third_pi), sin (((u - 1 : Nat) : NT) * third_pi), 0⟩

/-! ## The number type `double` -/

/-- A value of the IEEE 754 binary64 format, the `double` of the source: a finite number
(kept as the rational it stands for; the two zeros are not told apart), an infinity with
its sign, or a NaN. -/
inductive Double where
  | finite (q : ℚ)
  | inf (negative : Bool)
  | nan
deriving DecidableEq

namespace Double

/-- Rounding of a rational to the nearest integer, a tie going to the even one. -/
def round_half_even (x : ℚ) : ℤ :=
  let f := ⌊x⌋
  if x - f < 1 / 2 then f
  else if 1 / 2 < x - f then f + 1
  else if f % 2 = 0 then f else f + 1

/-- Rounding of an exact result to binary64, to nearest with ties to even: 53 significant
bits, exponents from `-1022` on (below, the spacing stays `2^-1074`: gradual underflow, down
to zero), and an infinity for a result that rounds to `2^1024` or beyond. -/
def round (q : ℚ) : Double :=
  if q = 0 then finite 0
  else
    let ulp : ℚ := 2 ^ (max (Int.log 2 |q|) (-1022) - 52)
    let r : ℚ := (round_half_even (|q| / ulp) : ℚ) * ulp
    if (2 : ℚ) ^ (1024 : ℤ) ≤ r then inf (decide (q < 0))
    else finite (if q < 0 then -r else r)

/-- Addition, `operator+` of `double`. -/
def add : Double → Double → Double
  | finite a, finite b => round (a + b)
  | finite _, inf s => inf s
  | inf s, finite _ => inf s
  | inf s, inf t => if s = t then inf s else nan
  | _, _ => nan

/-- Subtraction, `operator-` of `double`. -/
def sub : Double → Double → Double
  | finite a, finite b => round (a - b)
  | finite _, inf s => inf (!s)
  | inf s, finite _ => inf s
  | inf s, inf t => if s = t then nan else inf s
  | _, _ => nan

/-- Multiplication, `operator*` of `double`. -/
def mul : Double → Double → Double
  | finite a, finite b => round (a * b)
  | finite a, inf s => if a = 0 then nan else inf (s != decide (a < 0))
  | inf s, finite b => if b = 0 then nan else inf (s != decide (b < 0))
  | inf s, inf t => inf (s != t)
  | _, _ => nan

/-- Division, `operator/` of `double`; a zero divisor counts as `+0`. -/
def div : Double → Double → Double
  | finite a, finite b =>
    if b = 0 then (if a = 0 then nan else inf (decide (a < 0))) else round (a / b)
  | finite _, inf _ => finite 0
  | inf s, finite b => inf (s != decide (b < 0))
  | _, _ => nan

/-- The correctly rounded square root of a positive rational: the integer square root `s`
of `q * 4^k`, scaled to 61 bits, stands for the exact root, moved to `s + 1/2` when the
root is not exact, which rounds as the exact root does. -/
def round_sqrt (q : ℚ) : Double :=
  let k : ℤ := 60 - Int.log 2 q / 2
  let scaled : ℚ := q * 4 ^ k
  let s : ℕ := Nat.sqrt ⌊scaled⌋.toNat
  round (((s : ℚ) + (if (s : ℚ) * s = scaled then 0 else 1 / 2)) / 2 ^ k)

/-- Square root, `std::sqrt` of `double`. -/
def sqrt : Double → Double
  | finite q => if q < 0 then nan else if q = 0 then finite 0 else round_sqrt q
  | inf false => inf false
  | _ => nan

/-- Comparison `<` of `double`: false as soon as one side is a NaN. -/
def lt : Double → Double → Bool
  | finite a, finite b => decide (a < b)
  | finite _, inf s => !s
  | inf s, finite _ => s
  | inf s, inf t => s && !t
  | _, _ => false

instance : Zero Double := ⟨finite 0⟩

instance : Add Double := ⟨add⟩

instance : Sub Double := ⟨sub⟩

instance : Mul Double := ⟨mul⟩

instance : Div Double := ⟨div⟩

instance : LT Double := ⟨fun a b => lt a b = true⟩

instance (a b : Double) : Decidable (a < b) := inferInstanceAs (Decidable (lt a b = true))

/-- A decimal literal of the source is the `double` nearest to it. -/
instance : OfScientific Double := ⟨fun m s e => round (OfScientific.ofScientific m s e)⟩

end Double

/-- Three edges from a vertex along the three axes: the interior vertex `0` at the origin
and its neighbours `1`, `2`, `3` at the distance `a` on the first, second and third axis;
a disc of three triangles, with all corner angles at vertex `0` right angles. -/
def axisMesh {NT : Type} [Zero NT] (a : NT) : MeshAdaptor_3 NT where
  get_vertex_position := fun v =>
    if v = 1 then ⟨a, 0, 0⟩ else if v = 2 then ⟨0, a, 0⟩ else if v = 3 then ⟨0, 0, a⟩
    else ⟨0, 0, 0⟩
  vertices_around_vertex := fun v => if v = 0 then [1, 2, 3] else []
  is_vertex_on_border := fun v => decide (v ≠ 0)

/-- The value of the local variable `len` of `compute_wij` (source lines 88-89). -/
def computed_len {NT : Type} [Add NT] [Sub NT] [Mul NT] (sqrt : NT → NT)
    (mesh : MeshAdaptor_3 NT) (main_vertex_Vi : Vertex)
    (neighbor_vertex_Vj : Vertex_around_vertex_const_circulator) : NT :=
  let position_Vi := mesh.get_vertex_position main_vertex_Vi
  let position_Vj := mesh.get_vertex_position neighbor_vertex_Vj.deref
  let edge := position_Vi.sub position_Vj
  sqrt (edge.dot edge)

/-- The value of the expression assigned to `weight` on source line 106,
`(std::tan(0.5*gamma_ij) + std::tan(0.5*delta_ij)) / len`. -/
def computed_weight {NT : Type} [Add NT] [Sub NT] [Mul NT] [Div NT] [OfScientific NT]
    (sqrt tan : NT → NT) (compute_angle_rad : Point_3 NT → Point_3 NT → Point_3 NT → NT)
    (mesh : MeshAdaptor_3 NT) (main_vertex_Vi : Vertex)
    (neighbor_vertex_Vj : Vertex_around_vertex_const_circulator) : NT :=
  let position_Vi := mesh.get_vertex_position main_vertex_Vi
  let position_Vj := mesh.get_vertex_position neighbor_vertex_Vj.deref
  let position_Vk := mesh.get_vertex_position neighbor_vertex_Vj.decrement.deref
  let gamma_ij := compute_angle_rad position_Vj position_Vi position_Vk
  let position_Vl := mesh.get_vertex_position neighbor_vertex_Vj.increment.deref
  let delta_ij := compute_angle_rad position_Vl position_Vi position_Vj
  (tan (0.5 * gamma_ij) + tan (0.5 * delta_ij)) /
    computed_len sqrt mesh main_vertex_Vi neighbor_vertex_Vj

/-! ## Basic facts -/

section basic

theorem deref_circulator {NT : Type} (mesh : MeshAdaptor_3 NT) (i : Vertex) (p : Nat) :
    (mesh.circulator i p).deref = mesh.neighbor i p := rfl

theorem deref_decrement {NT : Type} (mesh : MeshAdaptor_3 NT) (i : Vertex) (p : Nat) :
    (mesh.circulator i p).decrement.deref = mesh.neighbor_before i p := rfl

theorem deref_increment {NT : Type} (mesh : MeshAdaptor_3 NT) (i : Vertex) (p : Nat) :
    (mesh.circulator i p).increment.deref = mesh.neighbor_after i p := rfl

variable {NT : Type} [LinearOrderedField NT]

theorem dot_self_eq (P Q : Point_3 NT) :
    (P.sub Q).dot (P.sub Q) = (P.x - Q.x) ^ 2 + (P.y - Q.y) ^ 2 + (P.z - Q.z) ^ 2 := by
  simp only [Point_3.sub, Vector_3.dot]; ring

theorem dot_self_nonneg (P Q : Point_3 NT) : 0 ≤ (P.sub Q).dot (P.sub Q) := by
  rw [dot_self_eq]; positivity

theorem dot_self_eq_zero_iff (P Q : Point_3 NT) :
    (P.sub Q).dot (P.sub Q) = 0 ↔ P = Q := by
  rw [dot_self_eq]
  constructor
  · intro h
    have hx : (P.x - Q.x) ^ 2 = 0 := by
      nlinarith [sq_nonneg (P.x - Q.x), sq_nonneg (P.y - Q.y), sq_nonneg (P.z - Q.z)]
    have hy : (P.y - Q.y) ^ 2 = 0 := by
      nlinarith [sq_nonneg (P.x - Q.x), sq_nonneg (P.y - Q.y), sq_nonneg (P.z - Q.z)]
    have hz : (P.z - Q.z) ^ 2 = 0 := by
      nlinarith [sq_nonneg (P.x - Q.x), sq_nonneg (P.y - Q.y), sq_nonneg (P.z - Q.z)]
    cases P; cases Q
    simp only [Point_3.mk.injEq]
    simp only [pow_eq_zero_iff, ne_eq, OfNat.ofNat_ne_zero, not_false_eq_true, sub_eq_zero]
      at hx hy hz
    exact ⟨hx, hy, hz⟩
  · rintro rfl
    simp

/-- The value left in the local variable `weight` when `compute_wij` reaches its second
assertion. -/
theorem compute_wij_eq (sqrt tan : NT → NT)
    (ang : Point_3 NT → Point_3 NT → Point_3 NT → NT) (ndebug : Bool)
    (mesh : MeshAdaptor_3 NT) (i : Vertex) (p : Nat) :
    compute_wij sqrt tan ang ndebug mesh i (mesh.circulator i p) =
      if ndebug = false ∧
          distance sqrt (mesh.get_vertex_position i)
            (mesh.get_vertex_position (mesh.neighbor i p)) = 0 then
        Outcome.assertion_failed
      else if ndebug = false ∧
          ¬ (0 < if distance sqrt (mesh.get_vertex_position i)
                (mesh.get_vertex_position (mesh.neighbor i p)) ≠ 0
              then mean_value_weight sqrt tan ang mesh i p else 0) then
        Outcome.assertion_failed
      else Outcome.returned
        (if distance sqrt (mesh.get_vertex_position i)
            (mesh.get_vertex_position (mesh.neighbor i p)) ≠ 0
          then mean_value_weight sqrt tan ang mesh i p else 0) := by
  have h05 : ∀ a : NT, 0.5 * a = a / 2 := by intro a; norm_num; ring
  simp only [compute_wij, mean_value_weight, distance, deref_circulator, deref_decrement,
    deref_increment, dot_self_eq, h05, gt_iff_lt, not_not, ne_eq]

end basic

/-! ## Exact real arithmetic -/

section real

open Real

theorem distance_eq_zero_iff (P Q : Point_3 ℝ) : distance Real.sqrt P Q = 0 ↔ P = Q := by
  unfold distance
  rw [← dot_self_eq, Real.sqrt_eq_zero (dot_self_nonneg P Q), dot_self_eq_zero_iff]

theorem distance_pos {P Q : Point_3 ℝ} (h : P ≠ Q) : 0 < distance Real.sqrt P Q := by
  have h0 : distance Real.sqrt P Q ≠ 0 := fun e => h ((distance_eq_zero_iff P Q).1 e)
  exact lt_of_le_of_ne (Real.sqrt_nonneg _) (Ne.symm h0)

theorem tan_half_pos {a : ℝ} (h0 : 0 < a) (hpi : a < π) : 0 < Real.tan (a / 2) :=
  Real.tan_pos_of_pos_of_lt_pi_div_two (by linarith) (by linarith)

/-- With distinct end points the outcome of `compute_wij` is decided by the sign of the
mean value weight alone. -/
theorem compute_wij_of_ne (ang : Point_3 ℝ → Point_3 ℝ → Point_3 ℝ → ℝ) (ndebug : Bool)
    (mesh : MeshAdaptor_3 ℝ) (i : Vertex) (p : Nat)
    (hne : mesh.get_vertex_position i ≠ mesh.get_vertex_position (mesh.neighbor i p)) :
    compute_wij Real.sqrt Real.tan ang ndebug mesh i (mesh.circulator i p) =
      if ndebug = false ∧ ¬ 0 < mean_value_weight Real.sqrt Real.tan ang mesh i p then
        Outcome.assertion_failed
      else Outcome.returned (mean_value_weight Real.sqrt Real.tan ang mesh i p) := by
  have hd : distance Real.sqrt (mesh.get_vertex_position i)
      (mesh.get_vertex_position (mesh.neighbor i p)) ≠ 0 := (distance_pos hne).ne'
  rw [compute_wij_eq]
  simp only [hd, and_false, if_false, ne_eq, not_false_eq_true, if_true]

/-- With coinciding end points the first assertion fails, and without assertions the
initial value `0.0` of `weight` is returned. -/
theorem compute_wij_of_eq (ang : Point_3 ℝ → Point_3 ℝ → Point_3 ℝ → ℝ) (ndebug : Bool)
    (mesh : MeshAdaptor_3 ℝ) (i : Vertex) (p : Nat)
    (heq : mesh.get_vertex_position i = mesh.get_vertex_position (mesh.neighbor i p)) :
    compute_wij Real.sqrt Real.tan ang ndebug mesh i (mesh.circulator i p) =
      if ndebug = false then Outcome.assertion_failed else Outcome.returned 0 := by
  have hd : distance Real.sqrt (mesh.get_vertex_position i)
      (mesh.get_vertex_position (mesh.neighbor i p)) = 0 := (distance_eq_zero_iff _ _).2 heq
  rw [compute_wij_eq]
  cases ndebug <;> simp [hd]

/-- A weight whose two corner angles lie strictly between `0` and `π` is positive. -/
theorem mean_value_weight_pos (ang : Point_3 ℝ → Point_3 ℝ → Point_3 ℝ → ℝ)
    (mesh : MeshAdaptor_3 ℝ) (i : Vertex) (p : Nat)
    (hne : mesh.get_vertex_position i ≠ mesh.get_vertex_position (mesh.neighbor i p))
    (hγ : ang (mesh.get_vertex_position (mesh.neighbor i p)) (mesh.get_vertex_position i)
        (mesh.get_vertex_position (mesh.neighbor_before i p)) ∈ Set.Ioo 0 π)
    (hδ : ang (mesh.get_vertex_position (mesh.neighbor_after i p)) (mesh.get_vertex_position i)
        (mesh.get_vertex_position (mesh.neighbor i p)) ∈ Set.Ioo 0 π) :
    0 < mean_value_weight Real.sqrt Real.tan ang mesh i p := by
  unfold mean_value_weight
  exact div_pos (add_pos (tan_half_pos hγ.1 hγ.2) (tan_half_pos hδ.1 hδ.2)) (distance_pos hne)

theorem sqrt_four_eq : Real.sqrt 4 = 2 := by
  rw [show (4 : ℝ) = 2 ^ 2 by norm_num]; exact Real.sqrt_sq (by norm_num)

theorem sqrt_nine_eq : Real.sqrt 9 = 3 := by
  rw [show (9 : ℝ) = 3 ^ 2 by norm_num]; exact Real.sqrt_sq (by norm_num)

/-- On `rayMesh` both corner angles of the middle neighbour are zero, and so is its
weight. -/
theorem rayMesh_weight :
    mean_value_weight Real.sqrt Real.tan (compute_angle_rad Real.sqrt Real.arccos)
      (rayMesh ℝ) 0 1 = 0 := by
  simp [mean_value_weight, compute_angle_rad, rayMesh, MeshAdaptor_3.neighbor,
    MeshAdaptor_3.neighbor_before, MeshAdaptor_3.neighbor_after, Point_3.sub, Vector_3.dot,
    distance, sqrt_four_eq, sqrt_nine_eq]

theorem rayMesh_ne :
    (rayMesh ℝ).get_vertex_position 0 ≠
      (rayMesh ℝ).get_vertex_position ((rayMesh ℝ).neighbor 0 1) := by
  simp [rayMesh, MeshAdaptor_3.neighbor]

/-- On `foldMesh` every corner angle at the interior vertex is a right angle and every
edge from it has length one: its three weights are `2`. -/
theorem foldMesh_weight (p : Nat) (hp : p < 3) :
    mean_value_weight Real.sqrt Real.tan (compute_angle_rad Real.sqrt Real.arccos)
      (foldMesh ℝ) 0 p = 2 := by
  have h4 : π / 2 / 2 = π / 4 := by ring
  interval_cases p <;>
  simp [mean_value_weight, compute_angle_rad, foldMesh, MeshAdaptor_3.neighbor,
    MeshAdaptor_3.neighbor_before, MeshAdaptor_3.neighbor_after, Point_3.sub, Vector_3.dot,
    distance, h4] <;> norm_num

theorem foldMesh_ne (p : Nat) (hp : p < 3) :
    (foldMesh ℝ).get_vertex_position 0 ≠
      (foldMesh ℝ).get_vertex_position ((foldMesh ℝ).neighbor 0 p) := by
  interval_cases p <;> simp [foldMesh, MeshAdaptor_3.neighbor]

theorem foldMesh_angle_before (p : Nat) (hp : p < 3) :
    compute_angle_rad Real.sqrt Real.arccos
      ((foldMesh ℝ).get_vertex_position ((foldMesh ℝ).neighbor 0 p))
      ((foldMesh ℝ).get_vertex_position 0)
      ((foldMesh ℝ).get_vertex_position ((foldMesh ℝ).neighbor_before 0 p)) = π / 2 := by
  interval_cases p <;>
  simp [compute_angle_rad, foldMesh, MeshAdaptor_3.neighbor,
    MeshAdaptor_3.neighbor_before, Point_3.sub, Vector_3.dot]

theorem foldMesh_angle_after (p : Nat) (hp : p < 3) :
    compute_angle_rad Real.sqrt Real.arccos
      ((foldMesh ℝ).get_vertex_position ((foldMesh ℝ).neighbor_after 0 p))
      ((foldMesh ℝ).get_vertex_position 0)
      ((foldMesh ℝ).get_vertex_position ((foldMesh ℝ).neighbor 0 p)) = π / 2 := by
  interval_cases p <;>
  simp [compute_angle_rad, foldMesh, MeshAdaptor_3.neighbor,
    MeshAdaptor_3.neighbor_after, Point_3.sub, Vector_3.dot]

theorem half_pi_mem_Ioo : π / 2 ∈ Set.Ioo 0 π :=
  ⟨by positivity, by linarith [Real.pi_pos]⟩

end real

/-! ## The weight formula and its assertions -/

section weight_claims

open Real

/-- Claim C1, as amended: for a vertex `i` and its `p`-th neighbour `j` with `Pi ≠ Pj`, with
`k` the neighbour before `j` and `l` the neighbour after `j` in the cyclic order, in
arithmetic over the reals and whatever the values of `tan` are: `compute_wij` returns
exactly `(tan (γ/2) + tan (δ/2)) / |Pi - Pj|` whenever assertions are compiled out or that
value is positive, and with assertions enabled and a value `≤ 0` it stops at
`assert(weight > 0)` and returns nothing. -/
theorem compute_wij_returns_mean_value_weight (tan : ℝ → ℝ)
    (ang : Point_3 ℝ → Point_3 ℝ → Point_3 ℝ → ℝ) (ndebug : Bool)
    (mesh : MeshAdaptor_3 ℝ) (i : Vertex) (p : Nat)
    (hne : mesh.get_vertex_position i ≠ mesh.get_vertex_position (mesh.neighbor i p)) :
    (ndebug = true ∨ 0 < mean_value_weight Real.sqrt tan ang mesh i p →
      compute_wij Real.sqrt tan ang ndebug mesh i (mesh.circulator i p) =
        Outcome.returned (mean_value_weight Real.sqrt tan ang mesh i p)) ∧
    (ndebug = false ∧ mean_value_weight Real.sqrt tan ang mesh i p ≤ 0 →
      compute_wij Real.sqrt tan ang ndebug mesh i (mesh.circulator i p) =
        Outcome.assertion_failed) := by
  have hd : distance Real.sqrt (mesh.get_vertex_position i)
      (mesh.get_vertex_position (mesh.neighbor i p)) ≠ 0 := (distance_pos hne).ne'
  rw [compute_wij_eq]
  simp only [hd, and_false, if_false, ne_eq, not_false_eq_true, if_true]
  constructor
  · rintro (h | h)
    · simp [h]
    · simp [h]
  · rintro ⟨h1, h2⟩
    simp [h1, not_lt.2 h2]

/-- Claim C1, instances: at the interior vertex of `foldMesh`, with assertions enabled, the
weight of the first neighbour is positive and is returned; at the interior vertex of
`rayMesh` the weight of the middle neighbour is `0` and the call stops at the assertion. -/
theorem compute_wij_returns_mean_value_weight_witness :
    ((foldMesh ℝ).get_vertex_position 0 ≠
        (foldMesh ℝ).get_vertex_position ((foldMesh ℝ).neighbor 0 0) ∧
      0 < mean_value_weight Real.sqrt Real.tan
        (compute_angle_rad Real.sqrt Real.arccos) (foldMesh ℝ) 0 0 ∧
      compute_wij Real.sqrt Real.tan (compute_angle_rad Real.sqrt Real.arccos) false
          (foldMesh ℝ) 0 ((foldMesh ℝ).circulator 0 0) =
        Outcome.returned (mean_value_weight Real.sqrt Real.tan
          (compute_angle_rad Real.sqrt Real.arccos) (foldMesh ℝ) 0 0)) ∧
    ((rayMesh ℝ).get_vertex_position 0 ≠
        (rayMesh ℝ).get_vertex_position ((rayMesh ℝ).neighbor 0 1) ∧
      mean_value_weight Real.sqrt Real.tan
        (compute_angle_rad Real.sqrt Real.arccos) (rayMesh ℝ) 0 1 ≤ 0 ∧
      compute_wij Real.sqrt Real.tan (compute_angle_rad Real.sqrt Real.arccos) false
          (rayMesh ℝ) 0 ((rayMesh ℝ).circulator 0 1) = Outcome.assertion_failed) :=
  have hpos : 0 < mean_value_weight Real.sqrt Real.tan
      (compute_angle_rad Real.sqrt Real.arccos) (foldMesh ℝ) 0 0 := by
    rw [foldMesh_weight 0 (by norm_num)]; norm_num
  ⟨⟨foldMesh_ne 0 (by norm_num), hpos,
      (compute_wij_returns_mean_value_weight Real.tan _ false (foldMesh ℝ) 0 0
        (foldMesh_ne 0 (by norm_num))).1 (Or.inr hpos)⟩,
    ⟨rayMesh_ne, le_of_eq rayMesh_weight,
      (compute_wij_returns_mean_value_weight Real.tan _ false (rayMesh ℝ) 0 1
        rayMesh_ne).2 ⟨rfl, le_of_eq rayMesh_weight⟩⟩⟩

/-- Claim C1, counterexample: `rayMesh` is a disc of three triangles around the interior
vertex `0`; its neighbour `P2` differs from `P0`, and the two corner angles of that neighbour
are zero; with assertions enabled `compute_wij` stops at `assert(weight > 0)` and returns
nothing. -/
theorem compute_wij_ray_aborts :
    (fanTriangulation 3).is_disc = true ∧ (fanTriangulation 3).agrees (rayMesh ℝ) = true ∧
    (rayMesh ℝ).is_vertex_on_border 0 = false ∧
    (rayMesh ℝ).get_vertex_position 0 ≠
        (rayMesh ℝ).get_vertex_position ((rayMesh ℝ).neighbor 0 1) ∧
      compute_wij Real.sqrt Real.tan (compute_angle_rad Real.sqrt Real.arccos) false
          (rayMesh ℝ) 0 ((rayMesh ℝ).circulator 0 1) = Outcome.assertion_failed ∧
      compute_wij Real.sqrt Real.tan (compute_angle_rad Real.sqrt Real.arccos) false
          (rayMesh ℝ) 0 ((rayMesh ℝ).circulator 0 1) ≠
        Outcome.returned (mean_value_weight Real.sqrt Real.tan
          (compute_angle_rad Real.sqrt Real.arccos) (rayMesh ℝ) 0 1) := by
  have h : compute_wij Real.sqrt Real.tan (compute_angle_rad Real.sqrt Real.arccos) false
      (rayMesh ℝ) 0 ((rayMesh ℝ).circulator 0 1) = Outcome.assertion_failed := by
    rw [compute_wij_of_ne _ false (rayMesh ℝ) 0 1 rayMesh_ne, rayMesh_weight]
    simp
  refine ⟨by decide, by decide, by simp [rayMesh], rayMesh_ne, h, ?_⟩
  rw [h]
  exact fun e => Outcome.noConfusion e

/-- Claim C2: `is_one_to_one_mapping` returns true exactly when `is_border_convex ()` of
the configured border parametizer is true, and its result is the same for any two meshes
and any two pairs of solver states. -/
theorem is_one_to_one_mapping_iff_border_convex {NT LA Solver : Type}
    (self : Mean_value_coordinates_parametizer_3 NT LA) (mesh mesh2 : MeshAdaptor_3 NT)
    (solver_u solver_v solver_u2 solver_v2 : Solver) :
    (self.is_one_to_one_mapping mesh solver_u solver_v = true ↔
        self.get_border_parametizer.is_border_convex = true) ∧
      self.is_one_to_one_mapping mesh solver_u solver_v =
        self.is_one_to_one_mapping mesh2 solver_u2 solver_v2 :=
  ⟨Iff.rfl, rfl⟩

/-- In exact real arithmetic, when `Pi ≠ Pj` and the two corner angles `γ` and `δ` at `Pi`
lie strictly between `0` and `π`, `compute_wij` returns the mean value weight, which is
positive, in either build. -/
theorem compute_wij_positive_exact (ang : Point_3 ℝ → Point_3 ℝ → Point_3 ℝ → ℝ) (ndebug : Bool)
    (mesh : MeshAdaptor_3 ℝ) (i : Vertex) (p : Nat)
    (hne : mesh.get_vertex_position i ≠ mesh.get_vertex_position (mesh.neighbor i p))
    (hγ : ang (mesh.get_vertex_position (mesh.neighbor i p)) (mesh.get_vertex_position i)
        (mesh.get_vertex_position (mesh.neighbor_before i p)) ∈ Set.Ioo 0 π)
    (hδ : ang (mesh.get_vertex_position (mesh.neighbor_after i p)) (mesh.get_vertex_position i)
        (mesh.get_vertex_position (mesh.neighbor i p)) ∈ Set.Ioo 0 π) :
    compute_wij Real.sqrt Real.tan ang ndebug mesh i (mesh.circulator i p) =
        Outcome.returned (mean_value_weight Real.sqrt Real.tan ang mesh i p) ∧
      0 < mean_value_weight Real.sqrt Real.tan ang mesh i p := by
  have hpos := mean_value_weight_pos ang mesh i p hne hγ hδ
  rw [compute_wij_of_ne ang ndebug mesh i p hne]
  simp [hpos]

/-- Claim C4, as amended: when `Pi = Pj`, `compute_wij` with assertions enabled stops at
`assert(len != 0.0)` and returns nothing; with assertions compiled out the guard
`if(len != 0.0)` skips the division and the initial weight `0` is returned. -/
theorem compute_wij_coincident (ang : Point_3 ℝ → Point_3 ℝ → Point_3 ℝ → ℝ)
    (mesh : MeshAdaptor_3 ℝ) (i : Vertex) (p : Nat)
    (heq : mesh.get_vertex_position i = mesh.get_vertex_position (mesh.neighbor i p)) :
    compute_wij Real.sqrt Real.tan ang false mesh i (mesh.circulator i p) =
        Outcome.assertion_failed ∧
      compute_wij Real.sqrt Real.tan ang true mesh i (mesh.circulator i p) =
        Outcome.returned 0 := by
  constructor
  · rw [compute_wij_of_eq ang false mesh i p heq]; simp
  · rw [compute_wij_of_eq ang true mesh i p heq]; simp

theorem coincidentMesh_eq :
    (coincidentMesh ℝ).get_vertex_position 0 =
      (coincidentMesh ℝ).get_vertex_position ((coincidentMesh ℝ).neighbor 0 0) := by
  simp [coincidentMesh, MeshAdaptor_3.neighbor]

/-- Claim C4, instance: vertex 0 of `coincidentMesh` and its first neighbour. -/
theorem compute_wij_coincident_witness :
    (coincidentMesh ℝ).get_vertex_position 0 =
        (coincidentMesh ℝ).get_vertex_position ((coincidentMesh ℝ).neighbor 0 0) ∧
      (compute_wij Real.sqrt Real.tan (compute_angle_rad Real.sqrt Real.arccos) false
          (coincidentMesh ℝ) 0 ((coincidentMesh ℝ).circulator 0 0) =
        Outcome.assertion_failed ∧
      compute_wij Real.sqrt Real.tan (compute_angle_rad Real.sqrt Real.arccos) true
          (coincidentMesh ℝ) 0 ((coincidentMesh ℝ).circulator 0 0) =
        Outcome.returned 0) :=
  ⟨coincidentMesh_eq, compute_wij_coincident _ (coincidentMesh ℝ) 0 0 coincidentMesh_eq⟩

/-- Claim C4, counterexample: `coincidentMesh` is a disc of three triangles around the
interior vertex `0`, which lies at the same point as its neighbour `1`; with assertions
compiled out, `compute_wij` on that pair returns the weight `0` to its caller. -/
theorem compute_wij_coincident_returns_zero :
    (fanTriangulation 3).is_disc = true ∧
    (fanTriangulation 3).agrees (coincidentMesh ℝ) = true ∧
    (coincidentMesh ℝ).is_vertex_on_border 0 = false ∧
    (coincidentMesh ℝ).get_vertex_position 0 =
        (coincidentMesh ℝ).get_vertex_position ((coincidentMesh ℝ).neighbor 0 0) ∧
      compute_wij Real.sqrt Real.tan (compute_angle_rad Real.sqrt Real.arccos) true
          (coincidentMesh ℝ) 0 ((coincidentMesh ℝ).circulator 0 0) =
        Outcome.returned 0 := by
  refine ⟨by decide, by decide, by simp [coincidentMesh], coincidentMesh_eq, ?_⟩
  rw [compute_wij_of_eq _ true (coincidentMesh ℝ) 0 0 coincidentMesh_eq]
  simp

end weight_claims

/-! ## Similarity covariance -/

section similarity

open Real

theorem similarity_dot (s : ℝ) (t : Vector_3 ℝ) (P Q R : Point_3 ℝ) :
    ((⟨s * P.x + t.x, s * P.y + t.y, s * P.z + t.z⟩ : Point_3 ℝ).sub
        ⟨s * Q.x + t.x, s * Q.y + t.y, s * Q.z + t.z⟩).dot
      ((⟨s * R.x + t.x, s * R.y + t.y, s * R.z + t.z⟩ : Point_3 ℝ).sub
        ⟨s * Q.x + t.x, s * Q.y + t.y, s * Q.z + t.z⟩) =
    (s * s) * ((P.sub Q).dot (R.sub Q)) := by
  simp only [Point_3.sub, Vector_3.dot]; ring

theorem sqrt_scale (s : ℝ) (hs : 0 < s) (d : ℝ) : Real.sqrt (s * s * d) = s * Real.sqrt d := by
  rw [Real.sqrt_mul (mul_self_nonneg s), Real.sqrt_mul_self hs.le]

/-- The corner angle does not change under a similarity. -/
theorem similarity_angle (s : ℝ) (hs : 0 < s) (t : Vector_3 ℝ) (P Q R : Point_3 ℝ) :
    compute_angle_rad Real.sqrt Real.arccos
      ⟨s * P.x + t.x, s * P.y + t.y, s * P.z + t.z⟩
      ⟨s * Q.x + t.x, s * Q.y + t.y, s * Q.z + t.z⟩
      ⟨s * R.x + t.x, s * R.y + t.y, s * R.z + t.z⟩ =
    compute_angle_rad Real.sqrt Real.arccos P Q R := by
  unfold compute_angle_rad
  simp only [similarity_dot, sqrt_scale s hs]
  congr 1
  rw [show s * Real.sqrt ((P.sub Q).dot (P.sub Q)) * (s * Real.sqrt ((R.sub Q).dot (R.sub Q)))
      = (s * s) * (Real.sqrt ((P.sub Q).dot (P.sub Q)) * Real.sqrt ((R.sub Q).dot (R.sub Q)))
      by ring]
  exact mul_div_mul_left _ _ (mul_pos hs hs).ne'

/-- Distances are multiplied by the scale factor. -/
theorem similarity_distance (s : ℝ) (hs : 0 < s) (t : Vector_3 ℝ) (P Q : Point_3 ℝ) :
    distance Real.sqrt ⟨s * P.x + t.x, s * P.y + t.y, s * P.z + t.z⟩
      ⟨s * Q.x + t.x, s * Q.y + t.y, s * Q.z + t.z⟩ = s * distance Real.sqrt P Q := by
  unfold distance
  rw [← sqrt_scale s hs]
  congr 1; ring

/-- The mean value weight is divided by the scale factor. -/
theorem similarity_weight (tan : ℝ → ℝ) (s : ℝ) (hs : 0 < s) (t : Vector_3 ℝ)
    (mesh : MeshAdaptor_3 ℝ) (i : Vertex) (p : Nat) :
    mean_value_weight Real.sqrt tan (compute_angle_rad Real.sqrt Real.arccos)
      (mesh.similarity_image s t) i p =
    mean_value_weight Real.sqrt tan (compute_angle_rad Real.sqrt Real.arccos)
      mesh i p / s := by
  simp only [mean_value_weight, MeshAdaptor_3.similarity_image, MeshAdaptor_3.neighbor,
    MeshAdaptor_3.neighbor_before, MeshAdaptor_3.neighbor_after, similarity_angle s hs t,
    similarity_distance s hs t]
  rw [div_div, mul_comm s]

theorem interior_row_eq {NT : Type} [LinearOrderedField NT] (mesh : MeshAdaptor_3 NT)
    (w : Nat → NT) (v : Vertex) (X : Vertex → NT) :
    interior_row mesh w v X =
      ∑ p in Finset.range (mesh.vertices_around_vertex v).length,
        w p * (X v - X (mesh.neighbor v p)) := by
  simp only [interior_row, Finset.sum_mul, ← Finset.sum_add_distrib]
  exact Finset.sum_congr rfl fun p _ => by ring

end similarity
section similarity_claim

open Real

/-- Claim C10, as amended: in exact real arithmetic, whatever the values of `tan` are, for
a scale factor `s > 0` and a translation `t`, `compute_wij` on the mesh whose every position
`P` is replaced by `s P + t` does what it does on the original mesh, with the returned
weight divided by `s` (for `s = 1`, the same weight); and a row whose weights are all
divided by `s` has the same solutions. -/
theorem compute_wij_similarity (tan : ℝ → ℝ) (s : ℝ) (hs : 0 < s) (t : Vector_3 ℝ)
    (ndebug : Bool) (mesh : MeshAdaptor_3 ℝ) (i : Vertex) (p : Nat) :
    compute_wij Real.sqrt tan (compute_angle_rad Real.sqrt Real.arccos) ndebug
        (mesh.similarity_image s t) i ((mesh.similarity_image s t).circulator i p) =
      Outcome.map (fun w => w / s)
        (compute_wij Real.sqrt tan (compute_angle_rad Real.sqrt Real.arccos) ndebug
          mesh i (mesh.circulator i p)) ∧
    ∀ (w : Nat → ℝ) (X : Vertex → ℝ),
      interior_row (mesh.similarity_image s t) (fun q => w q / s) i X = 0 ↔
        interior_row mesh w i X = 0 := by
  constructor
  · rw [compute_wij_eq, compute_wij_eq, similarity_weight tan s hs t]
    have hd : distance Real.sqrt ((mesh.similarity_image s t).get_vertex_position i)
        ((mesh.similarity_image s t).get_vertex_position
          ((mesh.similarity_image s t).neighbor i p)) =
        s * distance Real.sqrt (mesh.get_vertex_position i)
          (mesh.get_vertex_position (mesh.neighbor i p)) :=
      similarity_distance s hs t _ _
    rw [hd]
    by_cases h0 : distance Real.sqrt (mesh.get_vertex_position i)
        (mesh.get_vertex_position (mesh.neighbor i p)) = 0
    · cases ndebug <;> simp [h0, Outcome.map]
    · have hs0 : s * distance Real.sqrt (mesh.get_vertex_position i)
          (mesh.get_vertex_position (mesh.neighbor i p)) ≠ 0 := mul_ne_zero hs.ne' h0
      by_cases hw : 0 < mean_value_weight Real.sqrt tan
          (compute_angle_rad Real.sqrt Real.arccos) mesh i p
      · have hw2 := div_pos hw hs
        cases ndebug <;> simp [h0, hs0, hw, hw2, Outcome.map]
      · have hw2 : ¬ 0 < mean_value_weight Real.sqrt tan
            (compute_angle_rad Real.sqrt Real.arccos) mesh i p / s := by
          rw [div_pos_iff_of_pos_right hs]; exact hw
        cases ndebug <;> simp [h0, hs0, hw, hw2, Outcome.map]
  · intro w X
    rw [interior_row_eq, interior_row_eq]
    have : ∑ q in Finset.range ((mesh.similarity_image s t).vertices_around_vertex i).length,
          w q / s * (X i - X ((mesh.similarity_image s t).neighbor i q)) =
        (∑ q in Finset.range (mesh.vertices_around_vertex i).length,
          w q * (X i - X (mesh.neighbor i q))) / s := by
      rw [Finset.sum_div]
      exact Finset.sum_congr rfl fun q _ => by
        simp only [MeshAdaptor_3.similarity_image, MeshAdaptor_3.neighbor]; ring
    rw [this, div_eq_zero_iff]
    simp [hs.ne']

/-- Claim C10, instance: `foldMesh` scaled by `2` and translated by `(1, 1, 1)`. -/
theorem compute_wij_similarity_witness :
    (0 : ℝ) < 2 ∧
    (compute_wij Real.sqrt Real.tan (compute_angle_rad Real.sqrt Real.arccos) false
        ((foldMesh ℝ).similarity_image 2 ⟨1, 1, 1⟩) 0
        (((foldMesh ℝ).similarity_image 2 ⟨1, 1, 1⟩).circulator 0 0) =
      Outcome.map (fun w => w / 2)
        (compute_wij Real.sqrt Real.tan (compute_angle_rad Real.sqrt Real.arccos) false
          (foldMesh ℝ) 0 ((foldMesh ℝ).circulator 0 0)) ∧
    ∀ (w : Nat → ℝ) (X : Vertex → ℝ),
      interior_row ((foldMesh ℝ).similarity_image 2 ⟨1, 1, 1⟩) (fun q => w q / 2) 0 X = 0 ↔
        interior_row (foldMesh ℝ) w 0 X = 0) :=
  ⟨by norm_num, compute_wij_similarity Real.tan 2 (by norm_num) ⟨1, 1, 1⟩ false (foldMesh ℝ) 0 0⟩

end similarity_claim

/-! ## Neighbours placed around a vertex in a plane -/

section planar

open Real

theorem polar_sub (O : Point_3 ℝ) (a b : Vector_3 ℝ) (r c s : ℝ) :
    (polar_point O a b r c s).sub O =
      ⟨r * (c * a.x + s * b.x), r * (c * a.y + s * b.y), r * (c * a.z + s * b.z)⟩ := by
  simp [polar_point, Point_3.sub]

/-- Scalar product of the directions to two polar points. -/
theorem polar_dot (O : Point_3 ℝ) (a b : Vector_3 ℝ) (h : orthonormal a b)
    (r1 r2 θ1 θ2 : ℝ) :
    ((polar_point O a b r1 (cos θ1) (sin θ1)).sub O).dot
      ((polar_point O a b r2 (cos θ2) (sin θ2)).sub O) = r1 * r2 * cos (θ2 - θ1) := by
  obtain ⟨haa, hbb, hab⟩ := h
  simp only [Vector_3.dot] at haa hbb hab
  rw [polar_sub, polar_sub, cos_sub]
  simp only [Vector_3.dot]
  linear_combination (r1 * r2 * cos θ1 * cos θ2) * haa + (r1 * r2 * sin θ1 * sin θ2) * hbb +
    (r1 * r2 * (cos θ1 * sin θ2 + sin θ1 * cos θ2)) * hab

theorem polar_dot_self (O : Point_3 ℝ) (a b : Vector_3 ℝ) (h : orthonormal a b)
    (r θ : ℝ) :
    ((polar_point O a b r (cos θ) (sin θ)).sub O).dot
      ((polar_point O a b r (cos θ) (sin θ)).sub O) = r * r := by
  rw [polar_dot O a b h, sub_self, cos_zero, mul_one]

/-- The corner angle at `O` between two polar points. -/
theorem polar_angle (O : Point_3 ℝ) (a b : Vector_3 ℝ) (h : orthonormal a b)
    (r1 r2 θ1 θ2 : ℝ) (h1 : 0 < r1) (h2 : 0 < r2) :
    compute_angle_rad Real.sqrt Real.arccos (polar_point O a b r1 (cos θ1) (sin θ1)) O
      (polar_point O a b r2 (cos θ2) (sin θ2)) = arccos (cos (θ2 - θ1)) := by
  unfold compute_angle_rad
  simp only [polar_dot O a b h, sub_self, cos_zero, mul_one, Real.sqrt_mul_self h1.le,
    Real.sqrt_mul_self h2.le]
  rw [mul_div_cancel_left₀ _ (mul_pos h1 h2).ne']

/-- The distance from `O` to a polar point is its radius. -/
theorem polar_distance (O : Point_3 ℝ) (a b : Vector_3 ℝ) (h : orthonormal a b)
    (r θ : ℝ) (hr : 0 < r) :
    distance Real.sqrt O (polar_point O a b r (cos θ) (sin θ)) = r := by
  have e : distance Real.sqrt O (polar_point O a b r (cos θ) (sin θ)) =
      Real.sqrt (((polar_point O a b r (cos θ) (sin θ)).sub O).dot
        ((polar_point O a b r (cos θ) (sin θ)).sub O)) := by
    unfold distance
    rw [dot_self_eq]
    congr 1; ring
  rw [e, polar_dot_self O a b h, Real.sqrt_mul_self hr.le]

theorem polar_ne (O : Point_3 ℝ) (a b : Vector_3 ℝ) (h : orthonormal a b)
    (r θ : ℝ) (hr : 0 < r) : O ≠ polar_point O a b r (cos θ) (sin θ) := by
  intro e
  have := polar_distance O a b h r θ hr
  rw [(distance_eq_zero_iff _ _).2 e] at this
  exact hr.ne this

/-- Half-angle identity behind the mean value property, cosine part. -/
theorem tan_half_mul_cos_add (x y : ℝ) (h : cos ((y - x) / 2) ≠ 0) :
    tan ((y - x) / 2) * (cos x + cos y) = sin y - sin x := by
  rw [tan_eq_sin_div_cos, cos_add_cos, sin_sub_sin]
  have e : cos ((x - y) / 2) = cos ((y - x) / 2) := by
    rw [← cos_neg]; congr 1; ring
  have e2 : (y + x) / 2 = (x + y) / 2 := by ring
  rw [e, e2]
  field_simp
  ring

/-- Half-angle identity behind the mean value property, sine part. -/
theorem tan_half_mul_sin_add (x y : ℝ) (h : cos ((y - x) / 2) ≠ 0) :
    tan ((y - x) / 2) * (sin x + sin y) = cos x - cos y := by
  have hs : sin x + sin y = 2 * sin ((x + y) / 2) * cos ((y - x) / 2) := by
    have hx : sin x = sin ((x + y) / 2 - (y - x) / 2) := by congr 1; ring
    have hy : sin y = sin ((x + y) / 2 + (y - x) / 2) := by congr 1; ring
    rw [hx, hy, sin_sub, sin_add]; ring
  rw [tan_eq_sin_div_cos, cos_sub_cos, hs]
  have e : sin ((x - y) / 2) = - sin ((y - x) / 2) := by
    rw [← sin_neg]; congr 1; ring
  rw [e]
  field_simp
  ring

/-- A sum over one period of a cyclic index does not change under a shift of the index. -/
theorem sum_cyclic_shift (n : Nat) (F : Nat → ℝ) :
    ∑ p in Finset.range n, F ((p + 1) % n) = ∑ p in Finset.range n, F p := by
  cases n with
  | zero => simp
  | succ m =>
    rw [Finset.sum_range_succ, Finset.sum_range_succ' F m, Nat.mod_self]
    congr 1
    exact Finset.sum_congr rfl fun p hp => by
      rw [Nat.mod_eq_of_lt (by have := Finset.mem_range.1 hp; omega)]

theorem cyclic_before_after (n p : Nat) (hp : p < n) : ((p + 1) % n + n - 1) % n = p := by
  rcases Nat.lt_or_ge (p + 1) n with h | h
  · rw [Nat.mod_eq_of_lt h]
    have : p + 1 + n - 1 = p + n := by omega
    rw [this, Nat.add_mod_right, Nat.mod_eq_of_lt hp]
  · have hn : p + 1 = n := by omega
    rw [hn, Nat.mod_self]
    have : 0 + n - 1 = p := by omega
    rw [this, Nat.mod_eq_of_lt hp]

end planar

section mean_value

open Real

theorem cos_turn_succ (n : Nat) (θ : Nat → ℝ) (p : Nat) (hp : p < n) :
    cos (θ ((p + 1) % n)) = cos (turn (2 * π) n θ (p + 1)) := by
  unfold turn
  rcases Nat.lt_or_ge (p + 1) n with h | h
  · rw [Nat.mod_eq_of_lt h, if_pos h]
  · have hn : p + 1 = n := by omega
    rw [hn, Nat.mod_self, if_neg (lt_irrefl n), cos_add_two_pi]

theorem sin_turn_succ (n : Nat) (θ : Nat → ℝ) (p : Nat) (hp : p < n) :
    sin (θ ((p + 1) % n)) = sin (turn (2 * π) n θ (p + 1)) := by
  unfold turn
  rcases Nat.lt_or_ge (p + 1) n with h | h
  · rw [Nat.mod_eq_of_lt h, if_pos h]
  · have hn : p + 1 = n := by omega
    rw [hn, Nat.mod_self, if_neg (lt_irrefl n), sin_add_two_pi]

theorem turn_of_lt (n : Nat) (θ : Nat → ℝ) (p : Nat) (hp : p < n) :
    turn (2 * π) n θ p = θ p := by
  unfold turn; rw [if_pos hp]

/-- Mean value property, cosine part: the sum of `(tan (α⁻/2) + tan (α/2)) cos θ` over one
turn vanishes, `α⁻` and `α` being the steps of the polar angle before and after. -/
theorem mean_value_sum_cos (n : Nat) (θ : Nat → ℝ)
    (hα : ∀ q, q < n →
      cos ((turn (2 * π) n θ (q + 1) - turn (2 * π) n θ q) / 2) ≠ 0) :
    ∑ p in Finset.range n,
      (tan ((turn (2 * π) n θ ((p + n - 1) % n + 1) -
            turn (2 * π) n θ ((p + n - 1) % n)) / 2) +
        tan ((turn (2 * π) n θ (p + 1) - turn (2 * π) n θ p) / 2)) * cos (θ p) = 0 := by
  have hsplit : ∀ p, (tan ((turn (2 * π) n θ ((p + n - 1) % n + 1) -
            turn (2 * π) n θ ((p + n - 1) % n)) / 2) +
        tan ((turn (2 * π) n θ (p + 1) - turn (2 * π) n θ p) / 2)) * cos (θ p) =
      (fun q => tan ((turn (2 * π) n θ ((q + n - 1) % n + 1) -
            turn (2 * π) n θ ((q + n - 1) % n)) / 2) * cos (θ q)) p +
        tan ((turn (2 * π) n θ (p + 1) - turn (2 * π) n θ p) / 2) * cos (θ p) := by
    intro p; ring
  simp only [hsplit]
  rw [Finset.sum_add_distrib, ← sum_cyclic_shift n, ← Finset.sum_add_distrib]
  have hterm : ∀ p ∈ Finset.range n,
      (fun q => tan ((turn (2 * π) n θ ((q + n - 1) % n + 1) -
            turn (2 * π) n θ ((q + n - 1) % n)) / 2) * cos (θ q)) ((p + 1) % n) +
        tan ((turn (2 * π) n θ (p + 1) - turn (2 * π) n θ p) / 2) * cos (θ p) =
      sin (turn (2 * π) n θ (p + 1)) - sin (turn (2 * π) n θ p) := by
    intro p hp
    have hp := Finset.mem_range.1 hp
    simp only [cyclic_before_after n p hp]
    have h2 : cos (θ p) = cos (turn (2 * π) n θ p) := by rw [turn_of_lt n θ p hp]
    rw [cos_turn_succ n θ p hp, h2, ← tan_half_mul_cos_add _ _ (hα p hp)]
    ring
  rw [Finset.sum_congr rfl hterm, Finset.sum_range_sub (fun p => sin (turn (2 * π) n θ p))]
  unfold turn
  rcases Nat.eq_zero_or_pos n with h0 | h0
  · subst h0; simp
  · rw [if_neg (lt_irrefl n), if_pos h0, sin_add_two_pi, sub_self]

/-- Mean value property, sine part. -/
theorem mean_value_sum_sin (n : Nat) (θ : Nat → ℝ)
    (hα : ∀ q, q < n →
      cos ((turn (2 * π) n θ (q + 1) - turn (2 * π) n θ q) / 2) ≠ 0) :
    ∑ p in Finset.range n,
      (tan ((turn (2 * π) n θ ((p + n - 1) % n + 1) -
            turn (2 * π) n θ ((p + n - 1) % n)) / 2) +
        tan ((turn (2 * π) n θ (p + 1) - turn (2 * π) n θ p) / 2)) * sin (θ p) = 0 := by
  have hsplit : ∀ p, (tan ((turn (2 * π) n θ ((p + n - 1) % n + 1) -
            turn (2 * π) n θ ((p + n - 1) % n)) / 2) +
        tan ((turn (2 * π) n θ (p + 1) - turn (2 * π) n θ p) / 2)) * sin (θ p) =
      (fun q => tan ((turn (2 * π) n θ ((q + n - 1) % n + 1) -
            turn (2 * π) n θ ((q + n - 1) % n)) / 2) * sin (θ q)) p +
        tan ((turn (2 * π) n θ (p + 1) - turn (2 * π) n θ p) / 2) * sin (θ p) := by
    intro p; ring
  simp only [hsplit]
  rw [Finset.sum_add_distrib, ← sum_cyclic_shift n, ← Finset.sum_add_distrib]
  have hterm : ∀ p ∈ Finset.range n,
      (fun q => tan ((turn (2 * π) n θ ((q + n - 1) % n + 1) -
            turn (2 * π) n θ ((q + n - 1) % n)) / 2) * sin (θ q)) ((p + 1) % n) +
        tan ((turn (2 * π) n θ (p + 1) - turn (2 * π) n θ p) / 2) * sin (θ p) =
      cos (turn (2 * π) n θ p) - cos (turn (2 * π) n θ (p + 1)) := by
    intro p hp
    have hp := Finset.mem_range.1 hp
    simp only [cyclic_before_after n p hp]
    have h2 : sin (θ p) = sin (turn (2 * π) n θ p) := by rw [turn_of_lt n θ p hp]
    rw [sin_turn_succ n θ p hp, h2, ← tan_half_mul_sin_add _ _ (hα p hp)]
    ring
  rw [Finset.sum_congr rfl hterm, Finset.sum_range_sub' (fun p => cos (turn (2 * π) n θ p))]
  unfold turn
  rcases Nat.eq_zero_or_pos n with h0 | h0
  · subst h0; simp
  · rw [if_neg (lt_irrefl n), if_pos h0, cos_add_two_pi, sub_self]

theorem cyclic_after_before (n p : Nat) (hp : p < n) : ((p + n - 1) % n + 1) % n = p := by
  rcases Nat.eq_zero_or_pos p with h | h
  · subst h
    have h1 : (0 + n - 1) % n = n - 1 := by
      rw [Nat.zero_add]; exact Nat.mod_eq_of_lt (by omega)
    rw [h1, show n - 1 + 1 = n by omega, Nat.mod_self]
  · have h1 : (p + n - 1) % n = p - 1 := by
      rw [show p + n - 1 = (p - 1) + n by omega, Nat.add_mod_right]
      exact Nat.mod_eq_of_lt (by omega)
    rw [h1, show p - 1 + 1 = p by omega, Nat.mod_eq_of_lt hp]

theorem compute_angle_rad_comm (P Q R : Point_3 ℝ) :
    compute_angle_rad Real.sqrt Real.arccos P Q R =
      compute_angle_rad Real.sqrt Real.arccos R Q P := by
  unfold compute_angle_rad
  have e : ((P.sub Q).dot (R.sub Q)) = ((R.sub Q).dot (P.sub Q)) := by
    simp only [Vector_3.dot]; ring
  simp only [e, mul_comm (Real.sqrt ((P.sub Q).dot (P.sub Q)))]

theorem neighbor_after_eq (mesh : MeshAdaptor_3 ℝ) (v : Vertex) (p : Nat) :
    mesh.neighbor_after v p =
      mesh.neighbor v ((p + 1) % (mesh.vertices_around_vertex v).length) := rfl

theorem neighbor_before_eq (mesh : MeshAdaptor_3 ℝ) (v : Vertex) (p : Nat) :
    mesh.neighbor_before v p =
      mesh.neighbor v ((p + (mesh.vertices_around_vertex v).length - 1) %
        (mesh.vertices_around_vertex v).length) := rfl

/-- Around a vertex whose neighbours are placed in a plane, the corner angle between a
neighbour and the next one is the step of the polar angle. -/
theorem placed_angle_after (mesh : MeshAdaptor_3 ℝ) (v : Vertex) (a b : Vector_3 ℝ)
    (r θ : Nat → ℝ) (h : placed_around mesh v a b r θ) (p : Nat)
    (hp : p < (mesh.vertices_around_vertex v).length) :
    compute_angle_rad Real.sqrt Real.arccos
        (mesh.get_vertex_position (mesh.neighbor_after v p)) (mesh.get_vertex_position v)
        (mesh.get_vertex_position (mesh.neighbor v p)) =
      turn (2 * π) (mesh.vertices_around_vertex v).length θ (p + 1) -
        turn (2 * π) (mesh.vertices_around_vertex v).length θ p := by
  obtain ⟨horth, hn, hpos, hα⟩ := h
  have hq : (p + 1) % (mesh.vertices_around_vertex v).length <
      (mesh.vertices_around_vertex v).length := Nat.mod_lt _ (by omega)
  rw [neighbor_after_eq, (hpos _ hq).2, (hpos p hp).2,
    polar_angle _ a b horth _ _ _ _ (hpos _ hq).1 (hpos p hp).1]
  have hc : cos (θ p - θ ((p + 1) % (mesh.vertices_around_vertex v).length)) =
      cos (turn (2 * π) (mesh.vertices_around_vertex v).length θ (p + 1) -
        turn (2 * π) (mesh.vertices_around_vertex v).length θ p) := by
    rw [turn_of_lt _ θ p hp]
    unfold turn
    rcases Nat.lt_or_ge (p + 1) (mesh.vertices_around_vertex v).length with h1 | h1
    · rw [Nat.mod_eq_of_lt h1, if_pos h1, ← cos_neg]; congr 1; ring
    · have hn1 : p + 1 = (mesh.vertices_around_vertex v).length := by omega
      rw [hn1, Nat.mod_self, if_neg (lt_irrefl _), ← cos_neg, ← cos_add_two_pi]
      congr 1; ring
  rw [hc]
  exact arccos_cos (hα p hp).1.le (hα p hp).2.le

/-- Around a vertex whose neighbours are placed in a plane, the corner angle between a
neighbour and the one before it is the step of the polar angle that leads to it. -/
theorem placed_angle_before (mesh : MeshAdaptor_3 ℝ) (v : Vertex) (a b : Vector_3 ℝ)
    (r θ : Nat → ℝ) (h : placed_around mesh v a b r θ) (p : Nat)
    (hp : p < (mesh.vertices_around_vertex v).length) :
    compute_angle_rad Real.sqrt Real.arccos
        (mesh.get_vertex_position (mesh.neighbor v p)) (mesh.get_vertex_position v)
        (mesh.get_vertex_position (mesh.neighbor_before v p)) =
      turn (2 * π) (mesh.vertices_around_vertex v).length θ
          ((p + (mesh.vertices_around_vertex v).length - 1) %
            (mesh.vertices_around_vertex v).length + 1) -
        turn (2 * π) (mesh.vertices_around_vertex v).length θ
          ((p + (mesh.vertices_around_vertex v).length - 1) %
            (mesh.vertices_around_vertex v).length) := by
  have hq : (p + (mesh.vertices_around_vertex v).length - 1) %
      (mesh.vertices_around_vertex v).length < (mesh.vertices_around_vertex v).length :=
    Nat.mod_lt _ (by omega)
  have := placed_angle_after mesh v a b r θ h _ hq
  rw [neighbor_after_eq, cyclic_after_before _ p hp] at this
  rw [neighbor_before_eq, ← this]

/-- The weight of a neighbour placed in a plane around the vertex. -/
theorem placed_weight (mesh : MeshAdaptor_3 ℝ) (v : Vertex) (a b : Vector_3 ℝ)
    (r θ : Nat → ℝ) (h : placed_around mesh v a b r θ) (p : Nat)
    (hp : p < (mesh.vertices_around_vertex v).length) :
    mean_value_weight Real.sqrt Real.tan (compute_angle_rad Real.sqrt Real.arccos) mesh v p =
      (tan ((turn (2 * π) (mesh.vertices_around_vertex v).length θ
            ((p + (mesh.vertices_around_vertex v).length - 1) %
              (mesh.vertices_around_vertex v).length + 1) -
          turn (2 * π) (mesh.vertices_around_vertex v).length θ
            ((p + (mesh.vertices_around_vertex v).length - 1) %
              (mesh.vertices_around_vertex v).length)) / 2) +
        tan ((turn (2 * π) (mesh.vertices_around_vertex v).length θ (p + 1) -
          turn (2 * π) (mesh.vertices_around_vertex v).length θ p) / 2)) / r p := by
  unfold mean_value_weight
  simp only []
  rw [placed_angle_before mesh v a b r θ h p hp, placed_angle_after mesh v a b r θ h p hp]
  obtain ⟨horth, hn, hpos, hα⟩ := h
  rw [(hpos p hp).2, polar_distance _ a b horth _ _ (hpos p hp).1]

end mean_value

section rows

open Real

/-- Mean value property in the form of a row: around a vertex whose neighbours are placed
in a plane, every affine function of the position satisfies the interior row. -/
theorem placed_row_affine (mesh : MeshAdaptor_3 ℝ) (v : Vertex) (a b : Vector_3 ℝ)
    (r θ : Nat → ℝ) (h : placed_around mesh v a b r θ) (c0 : ℝ) (c : Vector_3 ℝ) :
    interior_row mesh
      (fun p => mean_value_weight Real.sqrt Real.tan
        (compute_angle_rad Real.sqrt Real.arccos) mesh v p) v
      (fun u => affine_coordinate c0 c (mesh.get_vertex_position u)) = 0 := by
  rw [interior_row_eq]
  have hcos : ∀ q, q < (mesh.vertices_around_vertex v).length →
      cos ((turn (2 * π) (mesh.vertices_around_vertex v).length θ (q + 1) -
        turn (2 * π) (mesh.vertices_around_vertex v).length θ q) / 2) ≠ 0 := by
    intro q hq
    have := h.2.2.2 q hq
    exact (cos_pos_of_mem_Ioo ⟨by linarith [this.1, pi_pos], by linarith [this.2]⟩).ne'
  have hC := mean_value_sum_cos _ θ hcos
  have hS := mean_value_sum_sin _ θ hcos
  have hterm : ∀ p ∈ Finset.range (mesh.vertices_around_vertex v).length,
      mean_value_weight Real.sqrt Real.tan (compute_angle_rad Real.sqrt Real.arccos) mesh v p *
        (affine_coordinate c0 c (mesh.get_vertex_position v) -
          affine_coordinate c0 c (mesh.get_vertex_position (mesh.neighbor v p))) =
      - (c.dot a) * ((tan ((turn (2 * π) (mesh.vertices_around_vertex v).length θ
            ((p + (mesh.vertices_around_vertex v).length - 1) %
              (mesh.vertices_around_vertex v).length + 1) -
          turn (2 * π) (mesh.vertices_around_vertex v).length θ
            ((p + (mesh.vertices_around_vertex v).length - 1) %
              (mesh.vertices_around_vertex v).length)) / 2) +
        tan ((turn (2 * π) (mesh.vertices_around_vertex v).length θ (p + 1) -
          turn (2 * π) (mesh.vertices_around_vertex v).length θ p) / 2)) * cos (θ p)) +
      - (c.dot b) * ((tan ((turn (2 * π) (mesh.vertices_around_vertex v).length θ
            ((p + (mesh.vertices_around_vertex v).length - 1) %
              (mesh.vertices_around_vertex v).length + 1) -
          turn (2 * π) (mesh.vertices_around_vertex v).length θ
            ((p + (mesh.vertices_around_vertex v).length - 1) %
              (mesh.vertices_around_vertex v).length)) / 2) +
        tan ((turn (2 * π) (mesh.vertices_around_vertex v).length θ (p + 1) -
          turn (2 * π) (mesh.vertices_around_vertex v).length θ p) / 2)) * sin (θ p)) := by
    intro p hp
    have hp := Finset.mem_range.1 hp
    have hr := (h.2.2.1 p hp).1
    rw [placed_weight mesh v a b r θ h p hp, (h.2.2.1 p hp).2]
    simp only [affine_coordinate, polar_point, Vector_3.dot]
    field_simp
    ring
  rw [Finset.sum_congr rfl hterm, Finset.sum_add_distrib, ← Finset.mul_sum, ← Finset.mul_sum,
    hC, hS]
  ring

/-- Mean value property: around a vertex whose neighbours are placed in a plane, the
weighted sum of the edge vectors `Pj - Pv` vanishes, coordinate by coordinate. -/
theorem placed_mean_value (mesh : MeshAdaptor_3 ℝ) (v : Vertex) (a b : Vector_3 ℝ)
    (r θ : Nat → ℝ) (h : placed_around mesh v a b r θ) :
    ∑ p in Finset.range (mesh.vertices_around_vertex v).length,
        mean_value_weight Real.sqrt Real.tan (compute_angle_rad Real.sqrt Real.arccos) mesh v p *
          ((mesh.get_vertex_position (mesh.neighbor v p)).x - (mesh.get_vertex_position v).x)
        = 0 ∧
    ∑ p in Finset.range (mesh.vertices_around_vertex v).length,
        mean_value_weight Real.sqrt Real.tan (compute_angle_rad Real.sqrt Real.arccos) mesh v p *
          ((mesh.get_vertex_position (mesh.neighbor v p)).y - (mesh.get_vertex_position v).y)
        = 0 ∧
    ∑ p in Finset.range (mesh.vertices_around_vertex v).length,
        mean_value_weight Real.sqrt Real.tan (compute_angle_rad Real.sqrt Real.arccos) mesh v p *
          ((mesh.get_vertex_position (mesh.neighbor v p)).z - (mesh.get_vertex_position v).z)
        = 0 := by
  have hx := placed_row_affine mesh v a b r θ h 0 ⟨-1, 0, 0⟩
  have hy := placed_row_affine mesh v a b r θ h 0 ⟨0, -1, 0⟩
  have hz := placed_row_affine mesh v a b r θ h 0 ⟨0, 0, -1⟩
  rw [interior_row_eq] at hx hy hz
  refine ⟨?_, ?_, ?_⟩
  · rw [← hx]; exact Finset.sum_congr rfl fun p _ => by simp only [affine_coordinate]; ring
  · rw [← hy]; exact Finset.sum_congr rfl fun p _ => by simp only [affine_coordinate]; ring
  · rw [← hz]; exact Finset.sum_congr rfl fun p _ => by simp only [affine_coordinate]; ring

/-- Around a vertex whose neighbours are placed in a plane every weight is computed
without a failed assertion and is positive. -/
theorem placed_compute_wij (mesh : MeshAdaptor_3 ℝ) (v : Vertex) (a b : Vector_3 ℝ)
    (r θ : Nat → ℝ) (h : placed_around mesh v a b r θ) (ndebug : Bool) (p : Nat)
    (hp : p < (mesh.vertices_around_vertex v).length) :
    compute_wij Real.sqrt Real.tan (compute_angle_rad Real.sqrt Real.arccos) ndebug mesh v
        (mesh.circulator v p) =
      Outcome.returned (mean_value_weight Real.sqrt Real.tan
        (compute_angle_rad Real.sqrt Real.arccos) mesh v p) ∧
    0 < mean_value_weight Real.sqrt Real.tan
        (compute_angle_rad Real.sqrt Real.arccos) mesh v p := by
  have hne : mesh.get_vertex_position v ≠ mesh.get_vertex_position (mesh.neighbor v p) := by
    rw [(h.2.2.1 p hp).2]
    exact polar_ne _ a b h.1 _ _ (h.2.2.1 p hp).1
  have hq : (p + (mesh.vertices_around_vertex v).length - 1) %
      (mesh.vertices_around_vertex v).length < (mesh.vertices_around_vertex v).length :=
    Nat.mod_lt _ (by omega)
  have hγ := placed_angle_before mesh v a b r θ h p hp
  have hδ := placed_angle_after mesh v a b r θ h p hp
  have hpos := mean_value_weight_pos (compute_angle_rad Real.sqrt Real.arccos) mesh v p hne
    (by rw [hγ]; exact h.2.2.2 _ hq) (by rw [hδ]; exact h.2.2.2 p hp)
  rw [compute_wij_of_ne _ ndebug mesh v p hne]
  simp [hpos]

end rows

/-! ## Discrete maximum principle -/

section maximum

theorem neighbor_mem {NT : Type} (mesh : MeshAdaptor_3 NT) (v : Vertex) (p : Nat)
    (hp : p < (mesh.vertices_around_vertex v).length) :
    mesh.neighbor v p ∈ mesh.vertices_around_vertex v := by
  unfold MeshAdaptor_3.neighbor
  rw [List.getD_eq_getElem _ _ hp]
  exact List.getElem_mem _

theorem exists_neighbor_of_mem {NT : Type} (mesh : MeshAdaptor_3 NT) (v j : Vertex)
    (hj : j ∈ mesh.vertices_around_vertex v) :
    ∃ p, p < (mesh.vertices_around_vertex v).length ∧ mesh.neighbor v p = j := by
  obtain ⟨p, hp, e⟩ := List.getElem_of_mem hj
  exact ⟨p, hp, by unfold MeshAdaptor_3.neighbor; rw [List.getD_eq_getElem _ _ hp]; exact e⟩

/-- Discrete maximum principle: if every interior row has positive weights and is
satisfied by `F`, and every vertex is joined to the border, then a bound on the border
values of `F` bounds all its values. -/
theorem maximum_principle (mesh : MeshAdaptor_3 ℝ) (nv : Nat) (w : Vertex → Nat → ℝ)
    (F : Vertex → ℝ) (M : ℝ)
    (hnb : ∀ v, v < nv → ∀ j ∈ mesh.vertices_around_vertex v, j < nv)
    (hreach : ∀ v, v < nv → reaches_border mesh nv v)
    (hpos : ∀ v, v < nv → mesh.is_vertex_on_border v = false →
      ∀ p, p < (mesh.vertices_around_vertex v).length → 0 < w v p)
    (hrow : ∀ v, v < nv → mesh.is_vertex_on_border v = false →
      interior_row mesh (w v) v F = 0)
    (hb : ∀ v, v < nv → mesh.is_vertex_on_border v = true → F v ≤ M) :
    ∀ v, v < nv → F v ≤ M := by
  intro v0 hv0
  by_contra hcon
  have hne : (Finset.range nv).Nonempty := ⟨v0, Finset.mem_range.2 hv0⟩
  obtain ⟨vm, hvm, hmax⟩ := Finset.exists_max_image (Finset.range nv) F hne
  have hvm := Finset.mem_range.1 hvm
  have hgt : M < F vm := lt_of_lt_of_le (not_le.1 hcon) (hmax v0 (Finset.mem_range.2 hv0))
  have key : ∀ u, reaches_border mesh nv u → u < nv → F u = F vm → False := by
    intro u hu
    induction hu with
    | border u _ hbu =>
      intro hlt e
      have := hb u hlt hbu
      linarith
    | step u j hj _ ih =>
      intro hlt e
      cases hbu : mesh.is_vertex_on_border u with
      | true =>
        have := hb u hlt hbu
        linarith
      | false =>
        have hr := hrow u hlt hbu
        rw [interior_row_eq] at hr
        have hnonneg : ∀ p ∈ Finset.range (mesh.vertices_around_vertex u).length,
            0 ≤ w u p * (F u - F (mesh.neighbor u p)) := by
          intro p hp
          have hp := Finset.mem_range.1 hp
          have h1 := hmax (mesh.neighbor u p)
            (Finset.mem_range.2 (hnb u hlt _ (neighbor_mem mesh u p hp)))
          exact mul_nonneg (hpos u hlt hbu p hp).le (by linarith)
        have hz := (Finset.sum_eq_zero_iff_of_nonneg hnonneg).1 hr
        obtain ⟨p, hp, hpj⟩ := exists_neighbor_of_mem mesh u j hj
        have hzp := hz p (Finset.mem_range.2 hp)
        rw [hpj] at hzp
        have hFj : F j = F vm := by
          rcases mul_eq_zero.1 hzp with h0 | h0
          · exact absurd h0 (hpos u hlt hbu p hp).ne'
          · linarith
        exact ih (hnb u hlt j hj) hFj
  exact key vm (hreach vm hvm) hvm rfl

theorem interior_row_linear {NT : Type} [LinearOrderedField NT] (mesh : MeshAdaptor_3 NT)
    (w : Nat → NT) (v : Vertex) (X Y : Vertex → NT) (a b : NT) :
    interior_row mesh w v (fun u => a * X u + b * Y u) =
      a * interior_row mesh w v X + b * interior_row mesh w v Y := by
  simp only [interior_row_eq, Finset.mul_sum, ← Finset.sum_add_distrib]
  exact Finset.sum_congr rfl fun p _ => by ring

end maximum

/-! ## Mean value property on flat input -/

section flat

open Real

/-- Uniqueness behind the reproduction of flat input: a solution of the system whose border
values are those of an affine function of the position, on a mesh whose interior vertices
all have their neighbours placed around them in a plane, is that affine function. -/
theorem flat_reproduced (mesh : MeshAdaptor_3 ℝ) (nv : Nat)
    (hflat : ∀ v, v < nv → mesh.is_vertex_on_border v = false → surrounded_in_plane mesh v)
    (hnb : ∀ v, v < nv → ∀ j ∈ mesh.vertices_around_vertex v, j < nv)
    (hreach : ∀ v, v < nv → reaches_border mesh nv v)
    (X : Vertex → ℝ) (c0 : ℝ) (c : Vector_3 ℝ)
    (hborder : ∀ v, v < nv → mesh.is_vertex_on_border v = true →
      X v = affine_coordinate c0 c (mesh.get_vertex_position v))
    (hrows : ∀ v, v < nv → mesh.is_vertex_on_border v = false →
      interior_row mesh (fun p => mean_value_weight Real.sqrt Real.tan
        (compute_angle_rad Real.sqrt Real.arccos) mesh v p) v X = 0) :
    ∀ v, v < nv → X v = affine_coordinate c0 c (mesh.get_vertex_position v) := by
  have hpos : ∀ v, v < nv → mesh.is_vertex_on_border v = false →
      ∀ p, p < (mesh.vertices_around_vertex v).length →
        0 < (fun (u : Vertex) (q : Nat) => mean_value_weight Real.sqrt Real.tan
          (compute_angle_rad Real.sqrt Real.arccos) mesh u q) v p := by
    intro v hv hb p hp
    obtain ⟨a, b, r, θ, h⟩ := hflat v hv hb
    exact (placed_compute_wij mesh v a b r θ h false p hp).2
  have hup := maximum_principle mesh nv
    (fun u q => mean_value_weight Real.sqrt Real.tan
      (compute_angle_rad Real.sqrt Real.arccos) mesh u q)
    (fun u => 1 * X u + (-1) * affine_coordinate c0 c (mesh.get_vertex_position u)) 0
    hnb hreach hpos
    (by
      intro v hv hb
      obtain ⟨a, b, r, θ, h⟩ := hflat v hv hb
      rw [interior_row_linear, hrows v hv hb, placed_row_affine mesh v a b r θ h c0 c]
      ring)
    (by intro v hv hb; have := hborder v hv hb; simp only; linarith)
  have hlo := maximum_principle mesh nv
    (fun u q => mean_value_weight Real.sqrt Real.tan
      (compute_angle_rad Real.sqrt Real.arccos) mesh u q)
    (fun u => (-1) * X u + 1 * affine_coordinate c0 c (mesh.get_vertex_position u)) 0
    hnb hreach hpos
    (by
      intro v hv hb
      obtain ⟨a, b, r, θ, h⟩ := hflat v hv hb
      rw [interior_row_linear, hrows v hv hb, placed_row_affine mesh v a b r θ h c0 c]
      ring)
    (by intro v hv hb; have := hborder v hv hb; simp only; linarith)
  intro v hv
  have h1 := hup v hv
  have h2 := hlo v hv
  simp only at h1 h2
  linarith

/-- Claim C5: around a vertex `v` whose neighbours surround it in one plane, in cyclic
order, with every consecutive corner angle strictly between `0` and `π` (the angles then
sum to `2π`), `compute_wij` returns positive weights `w` with `Σ w (Pj - Pv) = 0`, and every
affine function of the position, so every coordinate of a similarity image, satisfies the
interior row of `v`.  On a mesh all of whose interior vertices are so surrounded, any
solution of the system whose border values are an affine image of the positions is that
affine image at every vertex. -/
theorem mean_value_property_flat (mesh : MeshAdaptor_3 ℝ) (ndebug : Bool) :
    (∀ v, surrounded_in_plane mesh v →
      (∀ p, p < (mesh.vertices_around_vertex v).length →
        compute_wij Real.sqrt Real.tan (compute_angle_rad Real.sqrt Real.arccos) ndebug mesh v
            (mesh.circulator v p) =
          Outcome.returned (mean_value_weight Real.sqrt Real.tan
            (compute_angle_rad Real.sqrt Real.arccos) mesh v p) ∧
        0 < mean_value_weight Real.sqrt Real.tan
          (compute_angle_rad Real.sqrt Real.arccos) mesh v p) ∧
      (∑ p in Finset.range (mesh.vertices_around_vertex v).length,
        mean_value_weight Real.sqrt Real.tan (compute_angle_rad Real.sqrt Real.arccos) mesh v p *
          ((mesh.get_vertex_position (mesh.neighbor v p)).x - (mesh.get_vertex_position v).x)
        = 0 ∧
      ∑ p in Finset.range (mesh.vertices_around_vertex v).length,
        mean_value_weight Real.sqrt Real.tan (compute_angle_rad Real.sqrt Real.arccos) mesh v p *
          ((mesh.get_vertex_position (mesh.neighbor v p)).y - (mesh.get_vertex_position v).y)
        = 0 ∧
      ∑ p in Finset.range (mesh.vertices_around_vertex v).length,
        mean_value_weight Real.sqrt Real.tan (compute_angle_rad Real.sqrt Real.arccos) mesh v p *
          ((mesh.get_vertex_position (mesh.neighbor v p)).z - (mesh.get_vertex_position v).z)
        = 0) ∧
      ∀ (c0 : ℝ) (c : Vector_3 ℝ),
        interior_row mesh (fun p => mean_value_weight Real.sqrt Real.tan
            (compute_angle_rad Real.sqrt Real.arccos) mesh v p) v
          (fun u => affine_coordinate c0 c (mesh.get_vertex_position u)) = 0) ∧
    (∀ (nv : Nat) (bp : BorderParametizer_3 ℝ) (U V : Vertex → ℝ) (c0 d0 : ℝ)
        (c d : Vector_3 ℝ),
      (∀ v, v < nv → mesh.is_vertex_on_border v = false → surrounded_in_plane mesh v) →
      (∀ v, v < nv → ∀ j ∈ mesh.vertices_around_vertex v, j < nv) →
      (∀ v, v < nv → reaches_border mesh nv v) →
      (∀ v, v < nv → mesh.is_vertex_on_border v = true →
        bp.border_uv mesh v = (affine_coordinate c0 c (mesh.get_vertex_position v),
          affine_coordinate d0 d (mesh.get_vertex_position v))) →
      solves_system bp mesh nv (fun v p => mean_value_weight Real.sqrt Real.tan
        (compute_angle_rad Real.sqrt Real.arccos) mesh v p) U V →
      ∀ v, v < nv → U v = affine_coordinate c0 c (mesh.get_vertex_position v) ∧
        V v = affine_coordinate d0 d (mesh.get_vertex_position v)) := by
  constructor
  · rintro v ⟨a, b, r, θ, h⟩
    exact ⟨fun p hp => placed_compute_wij mesh v a b r θ h ndebug p hp,
      placed_mean_value mesh v a b r θ h, fun c0 c => placed_row_affine mesh v a b r θ h c0 c⟩
  · intro nv bp U V c0 d0 c d hflat hnb hreach hborder hsys
    have hU := flat_reproduced mesh nv hflat hnb hreach U c0 c
      (by
        intro v hv hb
        have := hsys v hv
        rw [if_pos hb, hborder v hv hb] at this
        exact (Prod.mk.inj this).1)
      (by
        intro v hv hb
        have := hsys v hv
        rw [if_neg (by simp [hb])] at this
        exact this.1)
    have hV := flat_reproduced mesh nv hflat hnb hreach V d0 d
      (by
        intro v hv hb
        have := hsys v hv
        rw [if_pos hb, hborder v hv hb] at this
        exact (Prod.mk.inj this).2)
      (by
        intro v hv hb
        have := hsys v hv
        rw [if_neg (by simp [hb])] at this
        exact this.2)
    exact fun v hv => ⟨hU v hv, hV v hv⟩

end flat

section flat_witness

open Real

theorem cos_three_half_pi : cos (3 * (π / 2)) = 0 := by
  rw [show 3 * (π / 2) = π / 2 + π by ring, cos_add_pi, cos_pi_div_two, neg_zero]

theorem sin_three_half_pi : sin (3 * (π / 2)) = -1 := by
  rw [show 3 * (π / 2) = π / 2 + π by ring, sin_add_pi, sin_pi_div_two]

theorem squareFan_placed :
    placed_around (squareFan ℝ) 0 ⟨1, 0, 0⟩ ⟨0, 1, 0⟩ (fun _ => 1)
      (fun p => (p : ℝ) * (π / 2)) := by
  have h2 : (2 : ℝ) * (π / 2) = π := by ring
  refine ⟨by simp [orthonormal, Vector_3.dot], by simp [squareFan, fanMesh], ?_, ?_⟩
  · intro p hp
    have hp4 : p < 4 := by simpa [squareFan, fanMesh] using hp
    refine ⟨one_pos, ?_⟩
    interval_cases p <;>
      simp [squareFan, fanMesh, MeshAdaptor_3.neighbor, polar_point, h2, cos_three_half_pi,
        sin_three_half_pi, List.range']
  · intro q hq
    have hq4 : q < 4 := by simpa [squareFan, fanMesh] using hq
    have hlen : ((squareFan ℝ).vertices_around_vertex 0).length = 4 := by
      simp [squareFan, fanMesh]
    rw [hlen]
    interval_cases q <;> refine ⟨?_, ?_⟩ <;> simp [turn] <;> nlinarith [pi_pos]

theorem squareFan_interior (v : Vertex) (hb : (squareFan ℝ).is_vertex_on_border v = false) :
    v = 0 := by
  simpa [squareFan, fanMesh] using hb

theorem squareFan_flat : ∀ v, v < 5 → (squareFan ℝ).is_vertex_on_border v = false →
    surrounded_in_plane (squareFan ℝ) v := by
  intro v _ hb
  rw [squareFan_interior v hb]
  exact ⟨_, _, _, _, squareFan_placed⟩

theorem squareFan_closed :
    ∀ v, v < 5 → ∀ j ∈ (squareFan ℝ).vertices_around_vertex v, j < 5 := by
  decide

theorem squareFan_reaches : ∀ v, v < 5 → reaches_border (squareFan ℝ) 5 v := by
  intro v hv
  rcases Nat.eq_zero_or_pos v with h | h
  · subst h
    exact reaches_border.step 0 1 (by simp [squareFan, fanMesh, List.range'])
      (reaches_border.border 1 (by norm_num) (by simp [squareFan, fanMesh]))
  · exact reaches_border.border v hv (by simp [squareFan, fanMesh]; exact Nat.pos_iff_ne_zero.1 h)

/-- Claim C5, instance: the flat fan `squareFan`, whose interior vertex is surrounded by
four neighbours at right angles, with the border kept where it is.  The positions solve the
system, and every solution is the positions. -/
theorem mean_value_property_flat_witness :
    surrounded_in_plane (squareFan ℝ) 0 ∧
    (∀ v, v < 5 → (squareFan ℝ).is_vertex_on_border v = false →
      surrounded_in_plane (squareFan ℝ) v) ∧
    (∀ v, v < 5 → ∀ j ∈ (squareFan ℝ).vertices_around_vertex v, j < 5) ∧
    (∀ v, v < 5 → reaches_border (squareFan ℝ) 5 v) ∧
    (∑ p in Finset.range ((squareFan ℝ).vertices_around_vertex 0).length,
        mean_value_weight Real.sqrt Real.tan (compute_angle_rad Real.sqrt Real.arccos)
            (squareFan ℝ) 0 p *
          (((squareFan ℝ).get_vertex_position ((squareFan ℝ).neighbor 0 p)).x -
            ((squareFan ℝ).get_vertex_position 0).x) = 0) ∧
    solves_system (flatBorder ℝ) (squareFan ℝ) 5
      (fun v p => mean_value_weight Real.sqrt Real.tan
        (compute_angle_rad Real.sqrt Real.arccos) (squareFan ℝ) v p)
      (fun v => affine_coordinate 0 ⟨1, 0, 0⟩ ((squareFan ℝ).get_vertex_position v))
      (fun v => affine_coordinate 0 ⟨0, 1, 0⟩ ((squareFan ℝ).get_vertex_position v)) ∧
    ∀ U V : Vertex → ℝ,
      solves_system (flatBorder ℝ) (squareFan ℝ) 5
        (fun v p => mean_value_weight Real.sqrt Real.tan
          (compute_angle_rad Real.sqrt Real.arccos) (squareFan ℝ) v p) U V →
      ∀ v, v < 5 →
        U v = affine_coordinate 0 ⟨1, 0, 0⟩ ((squareFan ℝ).get_vertex_position v) ∧
        V v = affine_coordinate 0 ⟨0, 1, 0⟩ ((squareFan ℝ).get_vertex_position v) :=
  have hs : surrounded_in_plane (squareFan ℝ) 0 := ⟨_, _, _, _, squareFan_placed⟩
  have hborder : ∀ v, v < 5 → (squareFan ℝ).is_vertex_on_border v = true →
      (flatBorder ℝ).border_uv (squareFan ℝ) v =
        (affine_coordinate 0 ⟨1, 0, 0⟩ ((squareFan ℝ).get_vertex_position v),
          affine_coordinate 0 ⟨0, 1, 0⟩ ((squareFan ℝ).get_vertex_position v)) := by
    intro v _ _
    simp [flatBorder, affine_coordinate]
  ⟨hs, squareFan_flat, squareFan_closed, squareFan_reaches,
    ((mean_value_property_flat (squareFan ℝ) false).1 0 hs).2.1.1,
    by
      intro v hv
      by_cases hb : (squareFan ℝ).is_vertex_on_border v = true
      · rw [if_pos hb, hborder v hv hb]
      · rw [if_neg hb]
        have h0 := squareFan_interior v (by simpa using hb)
        subst h0
        exact ⟨((mean_value_property_flat (squareFan ℝ) false).1 0 hs).2.2 0 ⟨1, 0, 0⟩,
          ((mean_value_property_flat (squareFan ℝ) false).1 0 hs).2.2 0 ⟨0, 1, 0⟩⟩,
    fun U V hsys => (mean_value_property_flat (squareFan ℝ) false).2 5 (flatBorder ℝ) U V 0 0
      ⟨1, 0, 0⟩ ⟨0, 1, 0⟩ squareFan_flat squareFan_closed squareFan_reaches hborder hsys⟩

end flat_witness

/-! ## The hexagon scenario -/

section hexagon

open Real

theorem hexagon_step (q : Nat) (hq : q < 6) :
    turn (2 * π) 6 (fun p => (p : ℝ) * (π / 3)) (q + 1) -
      turn (2 * π) 6 (fun p => (p : ℝ) * (π / 3)) q = π / 3 := by
  interval_cases q <;> simp [turn] <;> ring

theorem hexagon_placed (mesh : MeshAdaptor_3 ℝ) (v : Vertex) (a b : Vector_3 ℝ) (r0 : ℝ)
    (horth : orthonormal a b) (hr : 0 < r0)
    (hlen : (mesh.vertices_around_vertex v).length = 6)
    (hpos : ∀ p, p < 6 → mesh.get_vertex_position (mesh.neighbor v p) =
      polar_point (mesh.get_vertex_position v) a b r0
        (cos ((p : ℝ) * (π / 3))) (sin ((p : ℝ) * (π / 3)))) :
    placed_around mesh v a b (fun _ => r0) (fun p => (p : ℝ) * (π / 3)) := by
  refine ⟨horth, by omega, fun p hp => ⟨hr, hpos p (by omega)⟩, ?_⟩
  intro q hq
  rw [hlen] at hq ⊢
  rw [hexagon_step q hq]
  constructor <;> linarith [pi_pos]

theorem hexagon_sum_cos : ∑ p in Finset.range 6, cos ((p : ℝ) * (π / 3)) = 0 := by
  have hcos : ∀ q, q < 6 →
      cos ((turn (2 * π) 6 (fun p => (p : ℝ) * (π / 3)) (q + 1) -
        turn (2 * π) 6 (fun p => (p : ℝ) * (π / 3)) q) / 2) ≠ 0 := by
    intro q hq
    rw [hexagon_step q hq]
    exact (cos_pos_of_mem_Ioo ⟨by linarith [pi_pos], by linarith [pi_pos]⟩).ne'
  have h := mean_value_sum_cos 6 (fun p => (p : ℝ) * (π / 3)) hcos
  have hterm : ∀ p ∈ Finset.range 6,
      (tan ((turn (2 * π) 6 (fun p => (p : ℝ) * (π / 3)) ((p + 6 - 1) % 6 + 1) -
            turn (2 * π) 6 (fun p => (p : ℝ) * (π / 3)) ((p + 6 - 1) % 6)) / 2) +
        tan ((turn (2 * π) 6 (fun p => (p : ℝ) * (π / 3)) (p + 1) -
          turn (2 * π) 6 (fun p => (p : ℝ) * (π / 3)) p) / 2)) *
        cos ((fun p : Nat => (p : ℝ) * (π / 3)) p) =
      (2 * tan (π / 3 / 2)) * cos ((p : ℝ) * (π / 3)) := by
    intro p hp
    rw [hexagon_step p (Finset.mem_range.1 hp),
      hexagon_step ((p + 6 - 1) % 6) (Nat.mod_lt _ (by norm_num))]
    ring
  rw [Finset.sum_congr rfl hterm, ← Finset.mul_sum] at h
  have ht : 0 < tan (π / 3 / 2) := tan_half_pos (by linarith [pi_pos]) (by linarith [pi_pos])
  rcases mul_eq_zero.1 h with h0 | h0
  · linarith
  · exact h0

theorem hexagon_sum_sin : ∑ p in Finset.range 6, sin ((p : ℝ) * (π / 3)) = 0 := by
  have hcos : ∀ q, q < 6 →
      cos ((turn (2 * π) 6 (fun p => (p : ℝ) * (π / 3)) (q + 1) -
        turn (2 * π) 6 (fun p => (p : ℝ) * (π / 3)) q) / 2) ≠ 0 := by
    intro q hq
    rw [hexagon_step q hq]
    exact (cos_pos_of_mem_Ioo ⟨by linarith [pi_pos], by linarith [pi_pos]⟩).ne'
  have h := mean_value_sum_sin 6 (fun p => (p : ℝ) * (π / 3)) hcos
  have hterm : ∀ p ∈ Finset.range 6,
      (tan ((turn (2 * π) 6 (fun p => (p : ℝ) * (π / 3)) ((p + 6 - 1) % 6 + 1) -
            turn (2 * π) 6 (fun p => (p : ℝ) * (π / 3)) ((p + 6 - 1) % 6)) / 2) +
        tan ((turn (2 * π) 6 (fun p => (p : ℝ) * (π / 3)) (p + 1) -
          turn (2 * π) 6 (fun p => (p : ℝ) * (π / 3)) p) / 2)) *
        sin ((fun p : Nat => (p : ℝ) * (π / 3)) p) =
      (2 * tan (π / 3 / 2)) * sin ((p : ℝ) * (π / 3)) := by
    intro p hp
    rw [hexagon_step p (Finset.mem_range.1 hp),
      hexagon_step ((p + 6 - 1) % 6) (Nat.mod_lt _ (by norm_num))]
    ring
  rw [Finset.sum_congr rfl hterm, ← Finset.mul_sum] at h
  have ht : 0 < tan (π / 3 / 2) := tan_half_pos (by linarith [pi_pos]) (by linarith [pi_pos])
  rcases mul_eq_zero.1 h with h0 | h0
  · linarith
  · exact h0

/-- A row with six equal weights `w ≠ 0` whose neighbours carry values of sum zero is
solved by `0` only. -/
theorem hexagon_row (mesh : MeshAdaptor_3 ℝ) (v : Vertex) (w : ℝ) (hw : w ≠ 0)
    (hlen : (mesh.vertices_around_vertex v).length = 6) (X : Vertex → ℝ) (g : Nat → ℝ)
    (hX : ∀ p, p < 6 → X (mesh.neighbor v p) = g p)
    (hg : ∑ p in Finset.range 6, g p = 0) :
    interior_row mesh (fun _ => w) v X = 0 ↔ X v = 0 := by
  rw [interior_row_eq, hlen]
  have e : ∑ p in Finset.range 6, w * (X v - X (mesh.neighbor v p)) =
      ∑ p in Finset.range 6, (w * X v - w * g p) :=
    Finset.sum_congr rfl fun p hp => by rw [hX p (Finset.mem_range.1 hp)]; ring
  rw [e, Finset.sum_sub_distrib, ← Finset.mul_sum (Finset.range 6) g w, hg, Finset.sum_const,
    Finset.card_range]
  simp [hw]

/-- Claim C6: around a vertex `v` at the centre of a regular hexagon of six neighbours
(radius `r0 > 0`, in the plane spanned by the orthonormal pair `a`, `b`), `compute_wij`
returns the same positive weight `2 tan (π/6) / r0` for all six neighbours; and with the
six neighbours pinned to the unit circle at the angles `0°, 60°, ..., 300°`, the row of `v`
holds on an axis exactly when the coordinate of `v` on that axis is `0`. -/
theorem hexagon_scenario (mesh : MeshAdaptor_3 ℝ) (v : Vertex) (a b : Vector_3 ℝ) (r0 : ℝ)
    (ndebug : Bool) (horth : orthonormal a b) (hr : 0 < r0)
    (hlen : (mesh.vertices_around_vertex v).length = 6)
    (hpos : ∀ p, p < 6 → mesh.get_vertex_position (mesh.neighbor v p) =
      polar_point (mesh.get_vertex_position v) a b r0
        (cos ((p : ℝ) * (π / 3))) (sin ((p : ℝ) * (π / 3)))) :
    (∀ p, p < 6 →
      compute_wij Real.sqrt Real.tan (compute_angle_rad Real.sqrt Real.arccos) ndebug mesh v
        (mesh.circulator v p) = Outcome.returned (2 * tan (π / 6) / r0)) ∧
    0 < 2 * tan (π / 6) / r0 ∧
    ∀ U V : Vertex → ℝ,
      (∀ p, p < 6 → U (mesh.neighbor v p) = cos ((p : ℝ) * (π / 3)) ∧
        V (mesh.neighbor v p) = sin ((p : ℝ) * (π / 3))) →
      (interior_row mesh (fun _ => 2 * tan (π / 6) / r0) v U = 0 ↔ U v = 0) ∧
      (interior_row mesh (fun _ => 2 * tan (π / 6) / r0) v V = 0 ↔ V v = 0) := by
  have hpl := hexagon_placed mesh v a b r0 horth hr hlen hpos
  have ht : 0 < tan (π / 6) := by
    have := tan_half_pos (a := π / 3) (by linarith [pi_pos]) (by linarith [pi_pos])
    rwa [show π / 3 / 2 = π / 6 by ring] at this
  have hwpos : 0 < 2 * tan (π / 6) / r0 := div_pos (by linarith) hr
  refine ⟨?_, hwpos, ?_⟩
  · intro p hp
    have hp6 : p < (mesh.vertices_around_vertex v).length := by omega
    rw [(placed_compute_wij mesh v a b _ _ hpl ndebug p hp6).1,
      placed_weight mesh v a b _ _ hpl p hp6, hlen, hexagon_step p hp,
      hexagon_step ((p + 6 - 1) % 6) (Nat.mod_lt _ (by norm_num)),
      show π / 3 / 2 = π / 6 by ring]
    congr 1; ring
  · intro U V hUV
    exact ⟨hexagon_row mesh v _ hwpos.ne' hlen U _ (fun p hp => (hUV p hp).1) hexagon_sum_cos,
      hexagon_row mesh v _ hwpos.ne' hlen V _ (fun p hp => (hUV p hp).2) hexagon_sum_sin⟩

end hexagon

section hexagon_witness

open Real

theorem hexagonFan_position (p : Nat) (hp : p < 6) :
    (hexagonFan Real.cos Real.sin (π / 3)).get_vertex_position
        ((hexagonFan Real.cos Real.sin (π / 3)).neighbor 0 p) =
      polar_point ((hexagonFan Real.cos Real.sin (π / 3)).get_vertex_position 0)
        ⟨1, 0, 0⟩ ⟨0, 1, 0⟩ 1 (cos ((p : ℝ) * (π / 3))) (sin ((p : ℝ) * (π / 3))) := by
  interval_cases p <;>
    simp [hexagonFan, fanMesh, MeshAdaptor_3.neighbor, polar_point, List.range']

/-- Claim C6, instance: the fan `hexagonFan` of six triangles over the regular hexagon of
radius one. -/
theorem hexagon_scenario_witness :
    (fanTriangulation 6).is_disc = true ∧
    (fanTriangulation 6).agrees (hexagonFan Real.cos Real.sin (π / 3)) = true ∧
    orthonormal (⟨1, 0, 0⟩ : Vector_3 ℝ) ⟨0, 1, 0⟩ ∧ (0 : ℝ) < 1 ∧
    ((hexagonFan Real.cos Real.sin (π / 3)).vertices_around_vertex 0).length = 6 ∧
    (∀ p, p < 6 →
      (hexagonFan Real.cos Real.sin (π / 3)).get_vertex_position
          ((hexagonFan Real.cos Real.sin (π / 3)).neighbor 0 p) =
        polar_point ((hexagonFan Real.cos Real.sin (π / 3)).get_vertex_position 0)
          ⟨1, 0, 0⟩ ⟨0, 1, 0⟩ 1 (cos ((p : ℝ) * (π / 3))) (sin ((p : ℝ) * (π / 3)))) ∧
    ((∀ p, p < 6 →
      compute_wij Real.sqrt Real.tan (compute_angle_rad Real.sqrt Real.arccos) false
        (hexagonFan Real.cos Real.sin (π / 3)) 0
        ((hexagonFan Real.cos Real.sin (π / 3)).circulator 0 p) =
          Outcome.returned (2 * tan (π / 6) / 1)) ∧
    0 < 2 * tan (π / 6) / 1 ∧
    ∀ U V : Vertex → ℝ,
      (∀ p, p < 6 →
        U ((hexagonFan Real.cos Real.sin (π / 3)).neighbor 0 p) = cos ((p : ℝ) * (π / 3)) ∧
        V ((hexagonFan Real.cos Real.sin (π / 3)).neighbor 0 p) = sin ((p : ℝ) * (π / 3))) →
      (interior_row (hexagonFan Real.cos Real.sin (π / 3)) (fun _ => 2 * tan (π / 6) / 1) 0 U
          = 0 ↔ U 0 = 0) ∧
      (interior_row (hexagonFan Real.cos Real.sin (π / 3)) (fun _ => 2 * tan (π / 6) / 1) 0 V
          = 0 ↔ V 0 = 0)) :=
  have horth : orthonormal (⟨1, 0, 0⟩ : Vector_3 ℝ) ⟨0, 1, 0⟩ := by
    simp [orthonormal, Vector_3.dot]
  have hlen : ((hexagonFan Real.cos Real.sin (π / 3)).vertices_around_vertex 0).length = 6 := by
    simp [hexagonFan, fanMesh]
  ⟨by decide, by decide, horth, one_pos, hlen, hexagonFan_position,
    hexagon_scenario (hexagonFan Real.cos Real.sin (π / 3)) 0 ⟨1, 0, 0⟩ ⟨0, 1, 0⟩ 1 false
      horth one_pos hlen hexagonFan_position⟩

end hexagon_witness

/-! ## Weights are not symmetric -/

section asymmetry

open Real

theorem lagrange_identity (u v : Vector_3 ℝ) :
    u.dot u * v.dot v - (u.dot v) ^ 2 = (u.cross v).dot (u.cross v) := by
  simp only [Vector_3.dot, Vector_3.cross]; ring

theorem cross_dot_pos {P Q R : Point_3 ℝ} (h : noncollinear P Q R = true) :
    0 < ((P.sub Q).cross (R.sub Q)).dot ((P.sub Q).cross (R.sub Q)) := by
  simp only [noncollinear, decide_eq_true_eq] at h
  simp only [Vector_3.dot]
  rcases h with h | h | h
  · have := mul_self_pos.2 h
    nlinarith [mul_self_nonneg ((P.sub Q).cross (R.sub Q)).y,
      mul_self_nonneg ((P.sub Q).cross (R.sub Q)).z]
  · have := mul_self_pos.2 h
    nlinarith [mul_self_nonneg ((P.sub Q).cross (R.sub Q)).x,
      mul_self_nonneg ((P.sub Q).cross (R.sub Q)).z]
  · have := mul_self_pos.2 h
    nlinarith [mul_self_nonneg ((P.sub Q).cross (R.sub Q)).x,
      mul_self_nonneg ((P.sub Q).cross (R.sub Q)).y]

/-- The corner angle of three points that are not on one line lies strictly between `0`
and `π`. -/
theorem angle_mem_Ioo_of_noncollinear {P Q R : Point_3 ℝ} (h : noncollinear P Q R = true) :
    compute_angle_rad Real.sqrt Real.arccos P Q R ∈ Set.Ioo 0 π := by
  have hL := lagrange_identity (P.sub Q) (R.sub Q)
  have hc := cross_dot_pos h
  have hu0 := dot_self_nonneg P Q
  have hv0 := dot_self_nonneg R Q
  have huv : 0 < (P.sub Q).dot (P.sub Q) * (R.sub Q).dot (R.sub Q) := by
    nlinarith [sq_nonneg ((P.sub Q).dot (R.sub Q))]
  have hu : 0 < (P.sub Q).dot (P.sub Q) := by
    rcases hu0.lt_or_eq with h1 | h1
    · exact h1
    · rw [← h1, zero_mul] at huv; exact absurd huv (lt_irrefl 0)
  have hv : 0 < (R.sub Q).dot (R.sub Q) := by
    rcases hv0.lt_or_eq with h1 | h1
    · exact h1
    · rw [← h1, mul_zero] at huv; exact absurd huv (lt_irrefl 0)
  have hden : 0 < Real.sqrt ((P.sub Q).dot (P.sub Q)) * Real.sqrt ((R.sub Q).dot (R.sub Q)) :=
    mul_pos (Real.sqrt_pos.2 hu) (Real.sqrt_pos.2 hv)
  have hden2 : (Real.sqrt ((P.sub Q).dot (P.sub Q)) *
      Real.sqrt ((R.sub Q).dot (R.sub Q))) ^ 2 =
      (P.sub Q).dot (P.sub Q) * (R.sub Q).dot (R.sub Q) := by
    rw [mul_pow, Real.sq_sqrt hu.le, Real.sq_sqrt hv.le]
  have hsq : ((P.sub Q).dot (R.sub Q) /
      (Real.sqrt ((P.sub Q).dot (P.sub Q)) * Real.sqrt ((R.sub Q).dot (R.sub Q)))) ^ 2 < 1 := by
    rw [div_pow, hden2, div_lt_one huv]
    linarith
  have habs := (sq_lt_one_iff_abs_lt_one _).1 hsq
  rw [abs_lt] at habs
  unfold compute_angle_rad
  refine ⟨arccos_pos.2 habs.2, lt_of_le_of_ne (arccos_le_pi _) ?_⟩
  intro e
  have := arccos_eq_pi.1 e
  linarith [habs.1]

/-- A corner whose two sides have a positive scalar product is acute. -/
theorem angle_lt_half_pi {P Q R : Point_3 ℝ} (h : noncollinear P Q R = true)
    (hd : 0 < (P.sub Q).dot (R.sub Q)) :
    compute_angle_rad Real.sqrt Real.arccos P Q R < π / 2 := by
  have hL := lagrange_identity (P.sub Q) (R.sub Q)
  have hc := cross_dot_pos h
  have hu0 := dot_self_nonneg P Q
  have hv0 := dot_self_nonneg R Q
  have huv : 0 < (P.sub Q).dot (P.sub Q) * (R.sub Q).dot (R.sub Q) := by
    nlinarith [sq_nonneg ((P.sub Q).dot (R.sub Q))]
  have hu : 0 < (P.sub Q).dot (P.sub Q) := by
    rcases hu0.lt_or_eq with h1 | h1
    · exact h1
    · rw [← h1, zero_mul] at huv; exact absurd huv (lt_irrefl 0)
  have hv : 0 < (R.sub Q).dot (R.sub Q) := by
    rcases hv0.lt_or_eq with h1 | h1
    · exact h1
    · rw [← h1, mul_zero] at huv; exact absurd huv (lt_irrefl 0)
  unfold compute_angle_rad
  exact arccos_lt_pi_div_two.2
    (div_pos hd (mul_pos (Real.sqrt_pos.2 hu) (Real.sqrt_pos.2 hv)))

theorem tan_half_lt_one {a : ℝ} (h0 : 0 < a) (h : a < π / 2) : tan (a / 2) < 1 := by
  rw [← tan_pi_div_four]
  exact tan_lt_tan_of_nonneg_of_lt_pi_div_two (by linarith) (by linarith [pi_pos])
    (by linarith)

theorem kiteMesh_weight_ij :
    mean_value_weight Real.sqrt Real.tan (compute_angle_rad Real.sqrt Real.arccos)
      (kiteMesh ℝ) 0 0 = 2 := by
  have h4 : π / 2 / 2 = π / 4 := by ring
  simp [mean_value_weight, compute_angle_rad, kiteMesh, MeshAdaptor_3.neighbor,
    MeshAdaptor_3.neighbor_before, MeshAdaptor_3.neighbor_after, Point_3.sub, Vector_3.dot,
    distance, h4]
  norm_num

theorem kiteMesh_weight_ji :
    mean_value_weight Real.sqrt Real.tan (compute_angle_rad Real.sqrt Real.arccos)
        (kiteMesh ℝ) 1 2 < 2 ∧
      0 < mean_value_weight Real.sqrt Real.tan (compute_angle_rad Real.sqrt Real.arccos)
        (kiteMesh ℝ) 1 2 := by
  have hγn : noncollinear ((kiteMesh ℝ).get_vertex_position ((kiteMesh ℝ).neighbor 1 2))
      ((kiteMesh ℝ).get_vertex_position 1)
      ((kiteMesh ℝ).get_vertex_position ((kiteMesh ℝ).neighbor_before 1 2)) = true := by
    simp [noncollinear, kiteMesh, MeshAdaptor_3.neighbor, MeshAdaptor_3.neighbor_before,
      Point_3.sub, Vector_3.cross]
  have hδn : noncollinear ((kiteMesh ℝ).get_vertex_position ((kiteMesh ℝ).neighbor_after 1 2))
      ((kiteMesh ℝ).get_vertex_position 1)
      ((kiteMesh ℝ).get_vertex_position ((kiteMesh ℝ).neighbor 1 2)) = true := by
    simp [noncollinear, kiteMesh, MeshAdaptor_3.neighbor, MeshAdaptor_3.neighbor_after,
      Point_3.sub, Vector_3.cross]
  have hγ := angle_lt_half_pi hγn (by
    simp [kiteMesh, MeshAdaptor_3.neighbor, MeshAdaptor_3.neighbor_before,
      Point_3.sub, Vector_3.dot])
  have hδ := angle_lt_half_pi hδn (by
    simp [kiteMesh, MeshAdaptor_3.neighbor, MeshAdaptor_3.neighbor_after,
      Point_3.sub, Vector_3.dot])
  have hγ0 := (angle_mem_Ioo_of_noncollinear hγn).1
  have hδ0 := (angle_mem_Ioo_of_noncollinear hδn).1
  have hd : distance Real.sqrt ((kiteMesh ℝ).get_vertex_position 1)
      ((kiteMesh ℝ).get_vertex_position ((kiteMesh ℝ).neighbor 1 2)) = 1 := by
    simp [distance, kiteMesh, MeshAdaptor_3.neighbor]
  unfold mean_value_weight
  simp only []
  rw [hd, div_one]
  have t1 := tan_half_lt_one hγ0 hγ
  have t2 := tan_half_lt_one hδ0 hδ
  have p1 := tan_half_pos hγ0 (by linarith [pi_pos])
  have p2 := tan_half_pos hδ0 (by linarith [pi_pos])
  constructor <;> linarith

theorem kiteMesh_ne_ij :
    (kiteMesh ℝ).get_vertex_position 0 ≠
      (kiteMesh ℝ).get_vertex_position ((kiteMesh ℝ).neighbor 0 0) := by
  simp [kiteMesh, MeshAdaptor_3.neighbor]

theorem kiteMesh_ne_ji :
    (kiteMesh ℝ).get_vertex_position 1 ≠
      (kiteMesh ℝ).get_vertex_position ((kiteMesh ℝ).neighbor 1 2) := by
  simp [kiteMesh, MeshAdaptor_3.neighbor]

end asymmetry

section asymmetry_claim

open Real

theorem kiteMesh_corners :
    ∀ f ∈ kiteTriangulation.faces,
      compute_angle_rad Real.sqrt Real.arccos ((kiteMesh ℝ).get_vertex_position f.2.1)
        ((kiteMesh ℝ).get_vertex_position f.1) ((kiteMesh ℝ).get_vertex_position f.2.2)
          ∈ Set.Ioo 0 π ∧
      compute_angle_rad Real.sqrt Real.arccos ((kiteMesh ℝ).get_vertex_position f.2.2)
        ((kiteMesh ℝ).get_vertex_position f.2.1) ((kiteMesh ℝ).get_vertex_position f.1)
          ∈ Set.Ioo 0 π ∧
      compute_angle_rad Real.sqrt Real.arccos ((kiteMesh ℝ).get_vertex_position f.1)
        ((kiteMesh ℝ).get_vertex_position f.2.2) ((kiteMesh ℝ).get_vertex_position f.2.1)
          ∈ Set.Ioo 0 π := by
  intro f hf
  simp only [kiteTriangulation, List.mem_cons, List.mem_singleton, List.not_mem_nil,
    or_false] at hf
  rcases hf with rfl | rfl | rfl | rfl | rfl | rfl <;>
    refine ⟨angle_mem_Ioo_of_noncollinear ?_, angle_mem_Ioo_of_noncollinear ?_,
      angle_mem_Ioo_of_noncollinear ?_⟩ <;>
    simp [noncollinear, kiteMesh, Point_3.sub, Vector_3.cross] <;> norm_num

theorem kiteMesh_distinct :
    ∀ u, u < 6 → ∀ v, v < 6 → u ≠ v →
      (kiteMesh ℝ).get_vertex_position u ≠ (kiteMesh ℝ).get_vertex_position v := by
  intro u hu v hv
  interval_cases u <;> interval_cases v <;> simp [kiteMesh] <;> norm_num

/-- Claim C7: `kiteMesh` is a triangulated disc without coincident points, all of whose
corner angles lie strictly between `0` and `π`; its interior vertices `0` and `1` are
neighbours of each other, the edge between them has one length, and `compute_wij`
returns different weights for the pair `(0, 1)` and for the pair `(1, 0)`. -/
theorem weights_not_symmetric :
    kiteTriangulation.is_disc = true ∧ kiteTriangulation.agrees (kiteMesh ℝ) = true ∧
    (kiteMesh ℝ).is_vertex_on_border 0 = false ∧
    (kiteMesh ℝ).is_vertex_on_border 1 = false ∧
    (kiteMesh ℝ).neighbor 0 0 = 1 ∧ (kiteMesh ℝ).neighbor 1 2 = 0 ∧
    (∀ f ∈ kiteTriangulation.faces,
      compute_angle_rad Real.sqrt Real.arccos ((kiteMesh ℝ).get_vertex_position f.2.1)
        ((kiteMesh ℝ).get_vertex_position f.1) ((kiteMesh ℝ).get_vertex_position f.2.2)
          ∈ Set.Ioo 0 π ∧
      compute_angle_rad Real.sqrt Real.arccos ((kiteMesh ℝ).get_vertex_position f.2.2)
        ((kiteMesh ℝ).get_vertex_position f.2.1) ((kiteMesh ℝ).get_vertex_position f.1)
          ∈ Set.Ioo 0 π ∧
      compute_angle_rad Real.sqrt Real.arccos ((kiteMesh ℝ).get_vertex_position f.1)
        ((kiteMesh ℝ).get_vertex_position f.2.2) ((kiteMesh ℝ).get_vertex_position f.2.1)
          ∈ Set.Ioo 0 π) ∧
    (∀ u, u < 6 → ∀ v, v < 6 → u ≠ v →
      (kiteMesh ℝ).get_vertex_position u ≠ (kiteMesh ℝ).get_vertex_position v) ∧
    distance Real.sqrt ((kiteMesh ℝ).get_vertex_position 0)
        ((kiteMesh ℝ).get_vertex_position 1) =
      distance Real.sqrt ((kiteMesh ℝ).get_vertex_position 1)
        ((kiteMesh ℝ).get_vertex_position 0) ∧
    ∃ wij wji : ℝ,
      (∀ ndebug, compute_wij Real.sqrt Real.tan (compute_angle_rad Real.sqrt Real.arccos)
        ndebug (kiteMesh ℝ) 0 ((kiteMesh ℝ).circulator 0 0) = Outcome.returned wij) ∧
      (∀ ndebug, compute_wij Real.sqrt Real.tan (compute_angle_rad Real.sqrt Real.arccos)
        ndebug (kiteMesh ℝ) 1 ((kiteMesh ℝ).circulator 1 2) = Outcome.returned wji) ∧
      wij ≠ wji := by
  refine ⟨by decide, by decide, by simp [kiteMesh], by simp [kiteMesh],
    by simp [kiteMesh, MeshAdaptor_3.neighbor], by simp [kiteMesh, MeshAdaptor_3.neighbor],
    kiteMesh_corners, kiteMesh_distinct, ?_, ?_⟩
  · simp [distance, kiteMesh]
  · refine ⟨2, mean_value_weight Real.sqrt Real.tan
      (compute_angle_rad Real.sqrt Real.arccos) (kiteMesh ℝ) 1 2, ?_, ?_, ?_⟩
    · intro ndebug
      rw [compute_wij_of_ne _ ndebug (kiteMesh ℝ) 0 0 kiteMesh_ne_ij, kiteMesh_weight_ij]
      simp
    · intro ndebug
      rw [compute_wij_of_ne _ ndebug (kiteMesh ℝ) 1 2 kiteMesh_ne_ji]
      simp [kiteMesh_weight_ji.2]
    · exact fun e => absurd kiteMesh_weight_ji.1 (by rw [← e]; exact lt_irrefl 2)

end asymmetry_claim

/-! ## The one-to-one guarantee -/

section guarantee

open Real

theorem foldMesh_compute_wij (ndebug : Bool) (p : Nat) (hp : p < 3) :
    compute_wij Real.sqrt Real.tan (compute_angle_rad Real.sqrt Real.arccos) ndebug
      (foldMesh ℝ) 0 ((foldMesh ℝ).circulator 0 p) = Outcome.returned 2 := by
  rw [compute_wij_of_ne _ ndebug (foldMesh ℝ) 0 p (foldMesh_ne p hp), foldMesh_weight p hp]
  simp

theorem foldMesh_interior (v : Vertex) (hb : (foldMesh ℝ).is_vertex_on_border v = false) :
    v = 0 := by
  simpa [foldMesh] using hb

theorem foldMesh_row (X : Vertex → ℝ) :
    interior_row (foldMesh ℝ) (fun _ => 2) 0 X = 6 * X 0 - 2 * (X 1 + X 2 + X 3) := by
  rw [interior_row_eq]
  simp [foldMesh, MeshAdaptor_3.neighbor, Finset.sum_range_succ]
  ring

theorem foldMesh_solves :
    solves_system (squareBorder ℝ) (foldMesh ℝ) 6 (fun _ _ => 2) (foldU ℝ) (foldV ℝ) := by
  intro v hv
  by_cases hb : (foldMesh ℝ).is_vertex_on_border v = true
  · rw [if_pos hb]
    have h0 : v ≠ 0 := by simpa [foldMesh] using hb
    simp [foldU, foldV, h0]
  · rw [if_neg hb]
    have h0 := foldMesh_interior v (by simpa using hb)
    subst h0
    rw [foldMesh_row, foldMesh_row]
    constructor <;> (simp [foldU, foldV, squareBorder]; try norm_num)

end guarantee

section guarantee_fails

open Real

theorem foldMesh_faces_proper :
    ∀ f ∈ foldTriangulation.faces,
      noncollinear ((foldMesh ℝ).get_vertex_position f.2.1)
        ((foldMesh ℝ).get_vertex_position f.1)
        ((foldMesh ℝ).get_vertex_position f.2.2) = true := by
  intro f hf
  simp only [foldTriangulation, List.mem_cons, List.mem_singleton, List.not_mem_nil,
    or_false] at hf
  rcases hf with rfl | rfl | rfl | rfl | rfl <;>
    (simp [noncollinear, foldMesh, Point_3.sub, Vector_3.cross]; try norm_num)

theorem squareBorder_on_square :
    ∀ b, b < 6 → (foldMesh ℝ).is_vertex_on_border b = true →
      (0 ≤ ((squareBorder ℝ).border_uv (foldMesh ℝ) b).1 ∧
        ((squareBorder ℝ).border_uv (foldMesh ℝ) b).1 ≤ 1 ∧
        0 ≤ ((squareBorder ℝ).border_uv (foldMesh ℝ) b).2 ∧
        ((squareBorder ℝ).border_uv (foldMesh ℝ) b).2 ≤ 1) ∧
      (((squareBorder ℝ).border_uv (foldMesh ℝ) b).1 = 0 ∨
        ((squareBorder ℝ).border_uv (foldMesh ℝ) b).1 = 1 ∨
        ((squareBorder ℝ).border_uv (foldMesh ℝ) b).2 = 0 ∨
        ((squareBorder ℝ).border_uv (foldMesh ℝ) b).2 = 1) := by
  intro b hb _
  interval_cases b <;> (simp [squareBorder]; try norm_num)

theorem squareBorder_distinct :
    ∀ b, b < 6 → ∀ c, c < 6 → (foldMesh ℝ).is_vertex_on_border b = true →
      (foldMesh ℝ).is_vertex_on_border c = true → b ≠ c →
      (squareBorder ℝ).border_uv (foldMesh ℝ) b ≠ (squareBorder ℝ).border_uv (foldMesh ℝ) c := by
  intro b hb c hc
  interval_cases b <;> interval_cases c <;> simp [squareBorder, foldMesh, Prod.ext_iff]

/-- Claim C8, refuted: `foldMesh` is a triangulated disc with proper triangles; its border
is mapped by `squareBorder` to five distinct points on the boundary of the unit square, a
convex shape, so that `is_one_to_one_mapping` returns true (the case in which the comments
of the source, lines 32 and 115-118, promise a one-to-one mapping); its interior weights
are computed without a failed assertion, in either build, and are positive.  Yet every
solution of the system gives the interior vertex `0` and the border vertex `2` the same
point `(1/2, 0)`, and `(foldU, foldV)` is such a solution: the solutions are not
injective. -/
theorem one_to_one_guarantee_fails :
    foldTriangulation.is_disc = true ∧ foldTriangulation.agrees (foldMesh ℝ) = true ∧
    (∀ f ∈ foldTriangulation.faces,
      noncollinear ((foldMesh ℝ).get_vertex_position f.2.1)
        ((foldMesh ℝ).get_vertex_position f.1)
        ((foldMesh ℝ).get_vertex_position f.2.2) = true) ∧
    (∀ solver_u solver_v : Unit,
      (⟨squareBorder ℝ, ()⟩ : Mean_value_coordinates_parametizer_3 ℝ Unit).is_one_to_one_mapping
        (foldMesh ℝ) solver_u solver_v = true) ∧
    (∀ b, b < 6 → (foldMesh ℝ).is_vertex_on_border b = true →
      (0 ≤ ((squareBorder ℝ).border_uv (foldMesh ℝ) b).1 ∧
        ((squareBorder ℝ).border_uv (foldMesh ℝ) b).1 ≤ 1 ∧
        0 ≤ ((squareBorder ℝ).border_uv (foldMesh ℝ) b).2 ∧
        ((squareBorder ℝ).border_uv (foldMesh ℝ) b).2 ≤ 1) ∧
      (((squareBorder ℝ).border_uv (foldMesh ℝ) b).1 = 0 ∨
        ((squareBorder ℝ).border_uv (foldMesh ℝ) b).1 = 1 ∨
        ((squareBorder ℝ).border_uv (foldMesh ℝ) b).2 = 0 ∨
        ((squareBorder ℝ).border_uv (foldMesh ℝ) b).2 = 1)) ∧
    (∀ b, b < 6 → ∀ c, c < 6 → (foldMesh ℝ).is_vertex_on_border b = true →
      (foldMesh ℝ).is_vertex_on_border c = true → b ≠ c →
      (squareBorder ℝ).border_uv (foldMesh ℝ) b ≠
        (squareBorder ℝ).border_uv (foldMesh ℝ) c) ∧
    (∀ v, v < 6 → (foldMesh ℝ).is_vertex_on_border v = false →
      ∀ p, p < ((foldMesh ℝ).vertices_around_vertex v).length → ∀ ndebug,
        compute_wij Real.sqrt Real.tan (compute_angle_rad Real.sqrt Real.arccos) ndebug
          (foldMesh ℝ) v ((foldMesh ℝ).circulator v p) = Outcome.returned 2) ∧
    solves_system (squareBorder ℝ) (foldMesh ℝ) 6 (fun _ _ => 2) (foldU ℝ) (foldV ℝ) ∧
    (∀ U V : Vertex → ℝ,
      solves_system (squareBorder ℝ) (foldMesh ℝ) 6 (fun _ _ => 2) U V →
        (0 : Vertex) ≠ 2 ∧ (U 0, V 0) = (1 / 2, 0) ∧ (U 2, V 2) = (1 / 2, 0)) ∧
    ¬ ∀ U V : Vertex → ℝ,
      solves_system (squareBorder ℝ) (foldMesh ℝ) 6 (fun _ _ => 2) U V →
        ∀ u, u < 6 → ∀ v, v < 6 → u ≠ v → (U u, V u) ≠ (U v, V v) := by
  have hall : ∀ U V : Vertex → ℝ,
      solves_system (squareBorder ℝ) (foldMesh ℝ) 6 (fun _ _ => 2) U V →
        (0 : Vertex) ≠ 2 ∧ (U 0, V 0) = (1 / 2, 0) ∧ (U 2, V 2) = (1 / 2, 0) := by
    intro U V hsys
    have h0 := hsys 0 (by norm_num)
    have h1 := hsys 1 (by norm_num)
    have h2 := hsys 2 (by norm_num)
    have h3 := hsys 3 (by norm_num)
    rw [if_neg (by simp [foldMesh]), foldMesh_row, foldMesh_row] at h0
    rw [if_pos (by simp [foldMesh])] at h1 h2 h3
    simp only [squareBorder, Prod.ext_iff] at h1 h2 h3
    norm_num at h1 h2 h3
    refine ⟨by decide, ?_, ?_⟩
    · rw [Prod.mk.injEq]
      constructor
      · linarith [h0.1, h1.1, h2.1, h3.1]
      · linarith [h0.2, h1.2, h2.2, h3.2]
    · rw [Prod.mk.injEq]
      exact ⟨by linarith [h2.1], h2.2⟩
  refine ⟨by decide, by decide, foldMesh_faces_proper, fun _ _ => rfl, squareBorder_on_square,
    squareBorder_distinct, ?_, foldMesh_solves, hall, ?_⟩
  · intro v _ hb p hp ndebug
    have h0 := foldMesh_interior v hb
    subst h0
    exact foldMesh_compute_wij ndebug p (by simpa [foldMesh] using hp)
  · intro hinj
    have h := hall (foldU ℝ) (foldV ℝ) foldMesh_solves
    exact hinj (foldU ℝ) (foldV ℝ) foldMesh_solves 0 (by norm_num) 2 (by norm_num) h.1
      (h.2.1.trans h.2.2.symm)

end guarantee_fails

/-! ## Rounding in `double` arithmetic -/

namespace Double

theorem zero_def : (0 : Double) = finite 0 := rfl

theorem add_def (a b : Double) : a + b = add a b := rfl

theorem sub_def (a b : Double) : a - b = sub a b := rfl

theorem mul_def (a b : Double) : a * b = mul a b := rfl

theorem div_def (a b : Double) : a / b = div a b := rfl

theorem lt_def (a b : Double) : a < b ↔ lt a b = true := Iff.rfl

theorem round_zero : round 0 = finite 0 := by
  simp [round]

theorem floor_le_round_half_even (x : ℚ) : ⌊x⌋ ≤ round_half_even x := by
  unfold round_half_even
  simp only
  split_ifs <;> omega

theorem round_half_even_intCast (n : ℤ) : round_half_even (n : ℚ) = n := by
  unfold round_half_even
  simp

theorem log_two_eq {q : ℚ} (hq : 0 < q) {e : ℤ} (h1 : (2 : ℚ) ^ e ≤ q)
    (h2 : q < (2 : ℚ) ^ (e + 1)) : Int.log 2 q = e := by
  have hb : 1 < 2 := by norm_num
  have a1 : e ≤ Int.log 2 q := (Int.zpow_le_iff_le_log hb hq).1 (by exact_mod_cast h1)
  have a2 : Int.log 2 q < e + 1 := (Int.lt_zpow_iff_log_lt hb hq).1 (by exact_mod_cast h2)
  omega

/-- A power of two in the normal range is a `double`: rounding leaves it as it is. -/
theorem round_zpow (k : ℤ) (h1 : -1022 ≤ k) (h2 : k ≤ 1023) :
    round ((2 : ℚ) ^ k) = finite ((2 : ℚ) ^ k) := by
  have hpos : (0 : ℚ) < 2 ^ k := zpow_pos (by norm_num) k
  have hlog : Int.log 2 |(2 : ℚ) ^ k| = k := by
    rw [abs_of_pos hpos]
    exact log_two_eq hpos le_rfl (zpow_lt_zpow_right₀ (by norm_num) (by omega))
  have hx : |(2 : ℚ) ^ k| / 2 ^ (k - 52) = ((2 ^ 52 : ℤ) : ℚ) := by
    rw [abs_of_pos hpos, ← zpow_sub₀ (by norm_num : (2 : ℚ) ≠ 0)]
    norm_num
  have hr : (((2 ^ 52 : ℤ) : ℚ)) * 2 ^ (k - 52) = 2 ^ k := by
    have : ((2 ^ 52 : ℤ) : ℚ) = (2 : ℚ) ^ (52 : ℤ) := by norm_num
    rw [this, ← zpow_add₀ (by norm_num : (2 : ℚ) ≠ 0)]
    norm_num
  have hlt : ¬ (2 : ℚ) ^ (1024 : ℤ) ≤ 2 ^ k :=
    not_le.2 (zpow_lt_zpow_right₀ (by norm_num) (by omega))
  unfold round
  rw [if_neg hpos.ne']
  simp only [hlog, max_eq_left h1, hx, round_half_even_intCast, hr, if_neg hlt,
    if_neg (not_lt.2 hpos.le)]

/-- Rounding commutes with the change of sign. -/
theorem round_neg_zpow (k : ℤ) (h1 : -1022 ≤ k) (h2 : k ≤ 1023) :
    round (-(2 : ℚ) ^ k) = finite (-(2 : ℚ) ^ k) := by
  have hpos : (0 : ℚ) < 2 ^ k := zpow_pos (by norm_num) k
  have hneg : -(2 : ℚ) ^ k < 0 := by linarith
  have hlog : Int.log 2 |(-(2 : ℚ) ^ k)| = k := by
    rw [abs_neg, abs_of_pos hpos]
    exact log_two_eq hpos le_rfl (zpow_lt_zpow_right₀ (by norm_num) (by omega))
  have hx : |(-(2 : ℚ) ^ k)| / 2 ^ (k - 52) = ((2 ^ 52 : ℤ) : ℚ) := by
    rw [abs_neg, abs_of_pos hpos, ← zpow_sub₀ (by norm_num : (2 : ℚ) ≠ 0)]
    norm_num
  have hr : (((2 ^ 52 : ℤ) : ℚ)) * 2 ^ (k - 52) = 2 ^ k := by
    have : ((2 ^ 52 : ℤ) : ℚ) = (2 : ℚ) ^ (52 : ℤ) := by norm_num
    rw [this, ← zpow_add₀ (by norm_num : (2 : ℚ) ≠ 0)]
    norm_num
  have hlt : ¬ (2 : ℚ) ^ (1024 : ℤ) ≤ 2 ^ k :=
    not_le.2 (zpow_lt_zpow_right₀ (by norm_num) (by omega))
  unfold round
  rw [if_neg hneg.ne]
  simp only [hlog, max_eq_left h1, hx, round_half_even_intCast, hr, if_neg hlt, if_pos hneg]

/-- Overflow: an exact result of `2^1024` or more rounds to `+inf`. -/
theorem round_overflow (q : ℚ) (h : (2 : ℚ) ^ (1024 : ℤ) ≤ q) : round q = inf false := by
  have hpos : 0 < q := lt_of_lt_of_le (zpow_pos (by norm_num) _) h
  have hb : 1 < 2 := by norm_num
  have hlog : (1024 : ℤ) ≤ Int.log 2 |q| := by
    rw [abs_of_pos hpos]
    exact (Int.zpow_le_iff_le_log hb hpos).1 (by exact_mod_cast h)
  have hmax : max (Int.log 2 |q|) (-1022) = Int.log 2 |q| := max_eq_left (by omega)
  have hle : (2 : ℚ) ^ Int.log 2 |q| ≤ |q| := by
    have := Int.zpow_log_le_self (R := ℚ) hb (abs_pos.2 hpos.ne')
    exact_mod_cast this
  have hulp : (0 : ℚ) < 2 ^ (Int.log 2 |q| - 52) := zpow_pos (by norm_num) _
  have h52 : ((2 ^ 52 : ℤ) : ℚ) * 2 ^ (Int.log 2 |q| - 52) = 2 ^ Int.log 2 |q| := by
    have : ((2 ^ 52 : ℤ) : ℚ) = (2 : ℚ) ^ (52 : ℤ) := by norm_num
    rw [this, ← zpow_add₀ (by norm_num : (2 : ℚ) ≠ 0)]
    congr 1; ring
  have hx : ((2 ^ 52 : ℤ) : ℚ) ≤ |q| / 2 ^ (Int.log 2 |q| - 52) := by
    rw [le_div_iff₀ hulp, h52]
    exact hle
  have hfl : (2 ^ 52 : ℤ) ≤ round_half_even (|q| / 2 ^ (Int.log 2 |q| - 52)) :=
    le_trans (Int.le_floor.2 hx) (floor_le_round_half_even _)
  have hr : (2 : ℚ) ^ (1024 : ℤ) ≤
      (round_half_even (|q| / 2 ^ (Int.log 2 |q| - 52)) : ℚ) * 2 ^ (Int.log 2 |q| - 52) :=
    calc (2 : ℚ) ^ (1024 : ℤ) ≤ 2 ^ Int.log 2 |q| := zpow_le_zpow_right₀ (by norm_num) hlog
      _ = ((2 ^ 52 : ℤ) : ℚ) * 2 ^ (Int.log 2 |q| - 52) := h52.symm
      _ ≤ _ := mul_le_mul_of_nonneg_right (by exact_mod_cast hfl) hulp.le
  unfold round
  rw [if_neg hpos.ne']
  simp only [hmax, if_pos hr, not_lt.2 hpos.le, decide_False]

/-- Underflow: a non-negative exact result below `2^-1075`, half the smallest positive
`double`, rounds to zero. -/
theorem round_underflow (q : ℚ) (h0 : 0 ≤ q) (h : q < (2 : ℚ) ^ (-1075 : ℤ)) :
    round q = finite 0 := by
  rcases h0.eq_or_lt with h0 | hpos
  · rw [← h0, round_zero]
  have hb : 1 < 2 := by norm_num
  have hlog : Int.log 2 |q| < -1075 := by
    rw [abs_of_pos hpos]
    exact (Int.lt_zpow_iff_log_lt hb hpos).1 (by exact_mod_cast h)
  have hmax : max (Int.log 2 |q|) (-1022) = -1022 := max_eq_right (by omega)
  have hu : (1 / 2 : ℚ) * 2 ^ (-1022 - 52 : ℤ) = 2 ^ (-1075 : ℤ) := by
    rw [show (1 / 2 : ℚ) = 2 ^ (-1 : ℤ) by norm_num,
      ← zpow_add₀ (by norm_num : (2 : ℚ) ≠ 0)]
    congr 1
  have hupos : (0 : ℚ) < 2 ^ (-1022 - 52 : ℤ) := zpow_pos (by norm_num) _
  have hbig : ¬ (2 : ℚ) ^ (1024 : ℤ) ≤ 0 := not_le.2 (zpow_pos (by norm_num) _)
  unfold round
  rw [if_neg hpos.ne']
  simp only [hmax]
  generalize (2 : ℚ) ^ (-1022 - 52 : ℤ) = u at hu hupos
  have hx0 : 0 ≤ |q| / u := div_nonneg (abs_nonneg q) hupos.le
  have hx1 : |q| / u < 1 / 2 := by
    rw [abs_of_pos hpos, div_lt_iff₀ hupos, hu]
    exact h
  have hfl : ⌊|q| / u⌋ = 0 :=
    Int.floor_eq_iff.2 ⟨by rw [Int.cast_zero]; exact hx0,
      by rw [Int.cast_zero, zero_add]; exact lt_trans hx1 (by norm_num)⟩
  have hrhe : round_half_even (|q| / u) = 0 := by
    unfold round_half_even
    simp only [hfl, Int.cast_zero, sub_zero, if_pos hx1]
  simp only [hrhe, Int.cast_zero, zero_mul, neg_zero, ite_self, if_neg hbig]

/-- Absorption: `1 + 2^54` is not a `double`, and rounds to `2^54`. -/
theorem round_absorb : round (1 + 2 ^ 54) = finite (2 ^ 54) := by
  have hpos : (0 : ℚ) < 1 + 2 ^ 54 := by positivity
  have hlog : Int.log 2 |(1 + 2 ^ 54 : ℚ)| = 54 := by
    rw [abs_of_pos hpos]
    exact log_two_eq hpos (by norm_num) (by norm_num)
  have hmax : max (54 : ℤ) (-1022) = 54 := by norm_num
  have hfl : ⌊|(1 + 2 ^ 54 : ℚ)| / 2 ^ (54 - 52 : ℤ)⌋ = 2 ^ 52 := by
    rw [abs_of_pos hpos]
    exact Int.floor_eq_iff.2 ⟨by norm_num, by norm_num⟩
  have hrhe : round_half_even (|(1 + 2 ^ 54 : ℚ)| / 2 ^ (54 - 52 : ℤ)) = 2 ^ 52 := by
    unfold round_half_even
    simp only [hfl]
    rw [if_pos (by rw [abs_of_pos hpos]; norm_num)]
  have hval : ((2 ^ 52 : ℤ) : ℚ) * 2 ^ (54 - 52 : ℤ) = 2 ^ 54 := by norm_num
  have hbig : ¬ (2 : ℚ) ^ (1024 : ℤ) ≤ 2 ^ 54 := by
    rw [not_le]
    have : (2 : ℚ) ^ (54 : ℤ) < 2 ^ (1024 : ℤ) := zpow_lt_zpow_right₀ (by norm_num) (by norm_num)
    have e : (2 : ℚ) ^ (54 : ℤ) = 2 ^ 54 := by norm_num
    rw [← e]; exact this
  unfold round
  rw [if_neg hpos.ne']
  simp only [hlog, hmax, hrhe, hval, if_neg hbig, if_neg (not_lt.2 hpos.le)]

/-- A quotient by `+inf` is zero or a NaN. -/
theorem div_inf (x : Double) : x / inf false = finite 0 ∨ x / inf false = nan := by
  cases x <;> simp [div_def, div]

/-- A quotient by zero is never zero. -/
theorem div_zero_ne (x : Double) : x / finite 0 ≠ finite 0 := by
  cases x <;> simp [div_def, div]
  split_ifs <;> simp

theorem not_pos_zero : ¬ ((0 : Double) < finite 0) := by
  simp [lt_def, zero_def, lt]

theorem not_pos_nan : ¬ ((0 : Double) < nan) := by
  simp [lt_def, zero_def, lt]

end Double

/-! ## Control flow of `compute_wij`, in any arithmetic -/

section control_flow

variable {NT : Type} [Zero NT] [Add NT] [Sub NT] [Mul NT] [Div NT] [OfScientific NT]
  [LT NT] [DecidableEq NT] [DecidableRel (fun a b : NT => a < b)]

/-- The two assertions and the guard of `compute_wij`, in terms of the computed length and
of the computed quotient. -/
theorem compute_wij_def (sqrt tan : NT → NT)
    (ang : Point_3 NT → Point_3 NT → Point_3 NT → NT) (ndebug : Bool)
    (mesh : MeshAdaptor_3 NT) (i : Vertex) (c : Vertex_around_vertex_const_circulator) :
    compute_wij sqrt tan ang ndebug mesh i c =
      if ndebug = false ∧ ¬ (computed_len sqrt mesh i c ≠ 0) then Outcome.assertion_failed
      else if ndebug = false ∧
          ¬ ((if computed_len sqrt mesh i c ≠ 0 then computed_weight sqrt tan ang mesh i c
            else 0) > 0) then Outcome.assertion_failed
      else Outcome.returned
        (if computed_len sqrt mesh i c ≠ 0 then computed_weight sqrt tan ang mesh i c
          else 0) := rfl

/-- With a computed length other than zero, the outcome is decided by the comparison
`weight > 0` on the computed quotient. -/
theorem compute_wij_of_len_ne (sqrt tan : NT → NT)
    (ang : Point_3 NT → Point_3 NT → Point_3 NT → NT) (ndebug : Bool)
    (mesh : MeshAdaptor_3 NT) (i : Vertex) (c : Vertex_around_vertex_const_circulator)
    (hlen : computed_len sqrt mesh i c ≠ 0) :
    compute_wij sqrt tan ang ndebug mesh i c =
      if ndebug = false ∧ ¬ (0 < computed_weight sqrt tan ang mesh i c) then
        Outcome.assertion_failed
      else Outcome.returned (computed_weight sqrt tan ang mesh i c) := by
  rw [compute_wij_def]
  simp only [hlen, ne_eq, not_false_eq_true, not_true_eq_false, and_false, if_false, if_true,
    gt_iff_lt]

/-- With a computed length equal to zero, the first assertion fails, and without
assertions the initial value of `weight` is returned. -/
theorem compute_wij_of_len_eq (sqrt tan : NT → NT)
    (ang : Point_3 NT → Point_3 NT → Point_3 NT → NT) (ndebug : Bool)
    (mesh : MeshAdaptor_3 NT) (i : Vertex) (c : Vertex_around_vertex_const_circulator)
    (hlen : computed_len sqrt mesh i c = 0) :
    compute_wij sqrt tan ang ndebug mesh i c =
      if ndebug = false then Outcome.assertion_failed else Outcome.returned 0 := by
  rw [compute_wij_def]
  cases ndebug <;> simp [hlen]

end control_flow

/-! ## `compute_wij` in `double` arithmetic, out of range -/

section out_of_range

theorem Double.round_one : Double.round 1 = Double.finite 1 := by
  simpa using Double.round_zpow 0 (by norm_num) (by norm_num)

theorem Double.round_two : Double.round 2 = Double.finite 2 := by
  simpa using Double.round_zpow 1 (by norm_num) (by norm_num)

theorem Double.sqrt_one : Double.sqrt (Double.finite 1) = Double.finite 1 := by
  obtain ⟨n, hn⟩ : ∃ n : ℕ, n = 2 ^ 60 := ⟨_, rfl⟩
  have hsc : (1 : ℚ) * 4 ^ ((60 : ℤ) - Int.log 2 (1 : ℚ) / 2) = ((n * n : ℕ) : ℚ) := by
    rw [Int.log_one_right]; subst hn; push_cast; norm_num
  have hden : (2 : ℚ) ^ ((60 : ℤ) - Int.log 2 (1 : ℚ) / 2) = (n : ℚ) := by
    rw [Int.log_one_right]; subst hn; push_cast; norm_num
  have hnpos : (n : ℚ) ≠ 0 := by subst hn; positivity
  show (if (1 : ℚ) < 0 then Double.nan else if (1 : ℚ) = 0 then Double.finite 0
    else Double.round_sqrt 1) = Double.finite 1
  rw [if_neg (by norm_num), if_neg (by norm_num)]
  unfold Double.round_sqrt
  simp only [hsc, hden]
  rw [Int.floor_natCast, Int.toNat_natCast, Nat.sqrt_eq, if_pos (by push_cast; rfl), add_zero,
    div_self hnpos, Double.round_one]

theorem Double.zero_sub_zero : (0 : Double) - 0 = 0 := by
  simp [Double.sub_def, Double.zero_def, Double.sub, Double.round_zero]

theorem Double.zero_mul_zero : (0 : Double) * 0 = 0 := by
  simp [Double.mul_def, Double.zero_def, Double.mul, Double.round_zero]

theorem Double.zero_add_zero : (0 : Double) + 0 = 0 := by
  simp [Double.add_def, Double.zero_def, Double.add, Double.round_zero]

theorem Double.inf_add_zero (s : Bool) : Double.inf s + 0 = Double.inf s := rfl

theorem Double.zero_sub_finite (q : ℚ) : (0 : Double) - Double.finite q = Double.round (-q) := by
  simp [Double.sub_def, Double.zero_def, Double.sub]

theorem Double.finite_mul_finite (a b : ℚ) :
    Double.finite a * Double.finite b = Double.round (a * b) := rfl

theorem Double.finite_add_finite (a b : ℚ) :
    Double.finite a + Double.finite b = Double.round (a + b) := rfl

theorem Double.finite_sub_finite (a b : ℚ) :
    Double.finite a - Double.finite b = Double.round (a - b) := rfl

theorem Double.sqrt_zero : Double.sqrt 0 = 0 := by
  simp [Double.sqrt, Double.zero_def]

/-- The computed length of the edge from the origin to the first neighbour of `axisMesh`. -/
theorem axisMesh_len (sqrt : Double → Double) (a : Double) :
    computed_len sqrt (axisMesh a) 0 ((axisMesh a).circulator 0 0) =
    sqrt ((0 - a) * (0 - a) + (0 - 0) * (0 - 0) + (0 - 0) * (0 - 0)) := rfl

/-- The computed length of the edge from the origin to a point at `2^600` on the first
axis: `edge*edge` overflows, and the length is `+inf`. -/
theorem huge_len :
    computed_len Double.sqrt (axisMesh (Double.finite ((2 : ℚ) ^ (600 : ℤ)))) 0
      ((axisMesh (Double.finite ((2 : ℚ) ^ (600 : ℤ)))).circulator 0 0) = Double.inf false := by
  have h1 : Double.round (-(2 : ℚ) ^ (600 : ℤ)) = Double.finite (-(2 : ℚ) ^ (600 : ℤ)) :=
    Double.round_neg_zpow 600 (by norm_num) (by norm_num)
  have h2 : Double.round (-(2 : ℚ) ^ (600 : ℤ) * -(2 : ℚ) ^ (600 : ℤ)) = Double.inf false := by
    apply Double.round_overflow
    rw [neg_mul_neg, ← zpow_add₀ (by norm_num : (2 : ℚ) ≠ 0)]
    exact zpow_le_zpow_right₀ (by norm_num) (by norm_num)
  rw [axisMesh_len, Double.zero_sub_zero, Double.zero_mul_zero, Double.zero_sub_finite, h1,
    Double.finite_mul_finite, h2, Double.inf_add_zero, Double.inf_add_zero]
  rfl

/-- The computed length of the edge from the origin to a point at `2^-600` on the first
axis: `edge*edge` underflows, and the length is zero. -/
theorem tiny_len :
    computed_len Double.sqrt (axisMesh (Double.finite ((2 : ℚ) ^ (-600 : ℤ)))) 0
      ((axisMesh (Double.finite ((2 : ℚ) ^ (-600 : ℤ)))).circulator 0 0) = 0 := by
  have h1 : Double.round (-(2 : ℚ) ^ (-600 : ℤ)) = Double.finite (-(2 : ℚ) ^ (-600 : ℤ)) :=
    Double.round_neg_zpow (-600) (by norm_num) (by norm_num)
  have h2 : Double.round (-(2 : ℚ) ^ (-600 : ℤ) * -(2 : ℚ) ^ (-600 : ℤ)) = 0 := by
    apply Double.round_underflow _ (by positivity)
    rw [neg_mul_neg, ← zpow_add₀ (by norm_num : (2 : ℚ) ≠ 0)]
    exact zpow_lt_zpow_right₀ (by norm_num) (by norm_num)
  rw [axisMesh_len, Double.zero_sub_zero, Double.zero_mul_zero, Double.zero_sub_finite, h1,
    Double.finite_mul_finite, h2, Double.zero_add_zero, Double.zero_add_zero, Double.sqrt_zero]

/-- When the computed length is `+inf`, the quotient is zero or a NaN: with assertions
`assert(weight > 0)` fails, without them a weight that is not positive is returned. -/
theorem compute_wij_of_len_inf (tan : Double → Double)
    (ang : Point_3 Double → Point_3 Double → Point_3 Double → Double)
    (mesh : MeshAdaptor_3 Double) (i : Vertex) (c : Vertex_around_vertex_const_circulator)
    (hlen : computed_len Double.sqrt mesh i c = Double.inf false) :
    compute_wij Double.sqrt tan ang false mesh i c = Outcome.assertion_failed ∧
    ∃ w, compute_wij Double.sqrt tan ang true mesh i c = Outcome.returned w ∧ ¬ (0 < w) := by
  have hne : computed_len Double.sqrt mesh i c ≠ 0 := by
    rw [hlen, Double.zero_def]; exact fun e => Double.noConfusion e
  have hw : ¬ (0 < computed_weight Double.sqrt tan ang mesh i c) := by
    have : computed_weight Double.sqrt tan ang mesh i c =
        (tan (0.5 * ang (mesh.get_vertex_position c.deref) (mesh.get_vertex_position i)
              (mesh.get_vertex_position c.decrement.deref)) +
          tan (0.5 * ang (mesh.get_vertex_position c.increment.deref)
              (mesh.get_vertex_position i) (mesh.get_vertex_position c.deref))) /
          computed_len Double.sqrt mesh i c := rfl
    rw [this, hlen]
    rcases Double.div_inf (tan (0.5 * ang (mesh.get_vertex_position c.deref)
        (mesh.get_vertex_position i) (mesh.get_vertex_position c.decrement.deref)) +
      tan (0.5 * ang (mesh.get_vertex_position c.increment.deref)
        (mesh.get_vertex_position i) (mesh.get_vertex_position c.deref))) with h | h
    · rw [h]; exact Double.not_pos_zero
    · rw [h]; exact Double.not_pos_nan
  constructor
  · rw [compute_wij_of_len_ne _ _ _ false mesh i c hne]
    simp [hw]
  · refine ⟨computed_weight Double.sqrt tan ang mesh i c, ?_, hw⟩
    rw [compute_wij_of_len_ne _ _ _ true mesh i c hne]
    simp

end out_of_range

/-! ## The assertions of `compute_wij` in `double` arithmetic -/

section double_facts

open Real

theorem Double.div_zero_pos (x : Double) (h : 0 < x) : 0 < x / Double.finite 0 := by
  cases x with
  | finite a =>
    have ha : 0 < a := by simpa [Double.lt_def, Double.zero_def, Double.lt] using h
    simp [Double.div_def, Double.div, ha.ne', Double.lt_def, Double.zero_def, Double.lt,
      not_lt.2 ha.le]
  | inf s =>
    cases s <;> simp_all [Double.div_def, Double.div, Double.lt_def, Double.zero_def, Double.lt]
  | nan => simp [Double.lt_def, Double.zero_def, Double.lt] at h

theorem Double.finite_pos {q : ℚ} (hq : 0 < q) : (0 : Double) < Double.finite q := by
  simp [Double.lt_def, Double.zero_def, Double.lt, hq]

theorem Double.finite_ne_zero {q : ℚ} (hq : q ≠ 0) : Double.finite q ≠ 0 := by
  rw [Double.zero_def]
  intro e
  exact hq (Double.finite.inj e)

theorem computed_len_real (mesh : MeshAdaptor_3 ℝ) (i : Vertex) (p : Nat) :
    computed_len Real.sqrt mesh i (mesh.circulator i p) =
      distance Real.sqrt (mesh.get_vertex_position i)
        (mesh.get_vertex_position (mesh.neighbor i p)) := by
  simp only [computed_len, distance, deref_circulator, dot_self_eq]

theorem computed_weight_real (tan : ℝ → ℝ) (ang : Point_3 ℝ → Point_3 ℝ → Point_3 ℝ → ℝ)
    (mesh : MeshAdaptor_3 ℝ) (i : Vertex) (p : Nat) :
    computed_weight Real.sqrt tan ang mesh i (mesh.circulator i p) =
      mean_value_weight Real.sqrt tan ang mesh i p := by
  have h05 : ∀ a : ℝ, 0.5 * a = a / 2 := by intro a; norm_num; ring
  simp only [computed_weight, computed_len, mean_value_weight, distance, deref_circulator,
    deref_decrement, deref_increment, dot_self_eq, h05]

/-- In `axisMesh` over the reals the two corner angles of the first neighbour at the centre
are right angles. -/
theorem axisMesh_right_angles (a : ℝ) (ha : 0 < a) :
    (axisMesh a).get_vertex_position 0 ≠
        (axisMesh a).get_vertex_position ((axisMesh a).neighbor 0 0) ∧
    compute_angle_rad Real.sqrt Real.arccos
        ((axisMesh a).get_vertex_position ((axisMesh a).neighbor 0 0))
        ((axisMesh a).get_vertex_position 0)
        ((axisMesh a).get_vertex_position ((axisMesh a).neighbor_before 0 0)) = π / 2 ∧
    compute_angle_rad Real.sqrt Real.arccos
        ((axisMesh a).get_vertex_position ((axisMesh a).neighbor_after 0 0))
        ((axisMesh a).get_vertex_position 0)
        ((axisMesh a).get_vertex_position ((axisMesh a).neighbor 0 0)) = π / 2 := by
  refine ⟨?_, ?_, ?_⟩
  · simp [axisMesh, MeshAdaptor_3.neighbor, ha.ne]
  · simp [compute_angle_rad, axisMesh, MeshAdaptor_3.neighbor, MeshAdaptor_3.neighbor_before,
      Point_3.sub, Vector_3.dot]
  · simp [compute_angle_rad, axisMesh, MeshAdaptor_3.neighbor, MeshAdaptor_3.neighbor_after,
      Point_3.sub, Vector_3.dot]

theorem axisMesh_ne (q : ℚ) (hq : q ≠ 0) :
    (axisMesh (Double.finite q)).get_vertex_position 0 ≠
      (axisMesh (Double.finite q)).get_vertex_position
        ((axisMesh (Double.finite q)).neighbor 0 0) := by
  show (⟨0, 0, 0⟩ : Point_3 Double) ≠ ⟨Double.finite q, 0, 0⟩
  intro e
  exact Double.finite_ne_zero hq (congrArg Point_3.x e).symm

/-- The computed length of the unit edge of `axisMesh` is one. -/
theorem unit_len :
    computed_len Double.sqrt (axisMesh (Double.finite 1)) 0
      ((axisMesh (Double.finite 1)).circulator 0 0) = Double.finite 1 := by
  have h1 : Double.round (-1) = Double.finite (-1) := by
    simpa using Double.round_neg_zpow 0 (by norm_num) (by norm_num)
  rw [axisMesh_len, Double.zero_sub_zero, Double.zero_mul_zero, Double.zero_sub_finite, h1,
    Double.finite_mul_finite, neg_mul_neg, mul_one, Double.round_one, Double.zero_def,
    Double.finite_add_finite, add_zero, Double.round_one, Double.finite_add_finite, add_zero,
    Double.round_one, Double.sqrt_one]

theorem computed_weight_def {NT : Type} [Add NT] [Sub NT] [Mul NT] [Div NT] [OfScientific NT]
    (sqrt tan : NT → NT) (ang : Point_3 NT → Point_3 NT → Point_3 NT → NT)
    (mesh : MeshAdaptor_3 NT) (i : Vertex) (c : Vertex_around_vertex_const_circulator) :
    computed_weight sqrt tan ang mesh i c =
      (tan (0.5 * ang (mesh.get_vertex_position c.deref) (mesh.get_vertex_position i)
          (mesh.get_vertex_position c.decrement.deref)) +
        tan (0.5 * ang (mesh.get_vertex_position c.increment.deref)
          (mesh.get_vertex_position i) (mesh.get_vertex_position c.deref))) /
        computed_len sqrt mesh i c := rfl

theorem Double.finite_div_finite (a b : ℚ) (hb : b ≠ 0) :
    Double.finite a / Double.finite b = Double.round (a / b) := by
  rw [Double.div_def, Double.div, if_neg hb]

/-- The computed quotient on the unit `axisMesh` when both tangents are one. -/
theorem unit_weight (ang : Point_3 Double → Point_3 Double → Point_3 Double → Double) :
    computed_weight Double.sqrt (fun _ => Double.finite 1) ang (axisMesh (Double.finite 1)) 0
      ((axisMesh (Double.finite 1)).circulator 0 0) = Double.finite 2 := by
  have h2 : (1 : ℚ) + 1 = 2 := by norm_num
  rw [computed_weight_def, unit_len, Double.finite_add_finite, h2, Double.round_two,
    Double.finite_div_finite 2 1 one_ne_zero, div_one, Double.round_two]

/-- The computed length on a similarity image of `axisMesh`. -/
theorem similarity_len (sqrt : Double → Double) (a s : Double) (t : Vector_3 Double) :
    computed_len sqrt ((axisMesh a).similarity_image s t) 0
      (((axisMesh a).similarity_image s t).circulator 0 0) =
    sqrt (((s * 0 + t.x) - (s * a + t.x)) * ((s * 0 + t.x) - (s * a + t.x)) +
      ((s * 0 + t.y) - (s * 0 + t.y)) * ((s * 0 + t.y) - (s * 0 + t.y)) +
      ((s * 0 + t.z) - (s * 0 + t.z)) * ((s * 0 + t.z) - (s * 0 + t.z))) := rfl

theorem Double.finite_mul_zero (q : ℚ) : Double.finite q * 0 = 0 := by
  rw [Double.zero_def, Double.finite_mul_finite, mul_zero, Double.round_zero]

/-- Scaling the unit `axisMesh` by `2^600`: the computed length is `+inf`. -/
theorem scaled_len :
    computed_len Double.sqrt
      ((axisMesh (Double.finite 1)).similarity_image (Double.finite ((2 : ℚ) ^ (600 : ℤ)))
        ⟨0, 0, 0⟩) 0
      (((axisMesh (Double.finite 1)).similarity_image (Double.finite ((2 : ℚ) ^ (600 : ℤ)))
        ⟨0, 0, 0⟩).circulator 0 0) = Double.inf false := by
  have h0 : Double.round ((2 : ℚ) ^ (600 : ℤ)) = Double.finite ((2 : ℚ) ^ (600 : ℤ)) :=
    Double.round_zpow 600 (by norm_num) (by norm_num)
  have h1 : Double.round (-(2 : ℚ) ^ (600 : ℤ)) = Double.finite (-(2 : ℚ) ^ (600 : ℤ)) :=
    Double.round_neg_zpow 600 (by norm_num) (by norm_num)
  have h2 : Double.round (-(2 : ℚ) ^ (600 : ℤ) * -(2 : ℚ) ^ (600 : ℤ)) = Double.inf false := by
    apply Double.round_overflow
    rw [neg_mul_neg, ← zpow_add₀ (by norm_num : (2 : ℚ) ≠ 0)]
    exact zpow_le_zpow_right₀ (by norm_num) (by norm_num)
  rw [similarity_len, Double.finite_mul_zero, Double.zero_add_zero, Double.zero_sub_zero,
    Double.zero_mul_zero, Double.finite_mul_finite, mul_one, h0, Double.zero_def,
    Double.finite_add_finite, add_zero, h0, Double.finite_sub_finite, zero_sub, h1,
    Double.finite_mul_finite, h2]
  rfl

/-- Translating the unit `axisMesh` by `2^54` along the first axis: the centre and its
first neighbour receive the same coordinates, and the computed length is zero. -/
theorem translated_len :
    computed_len Double.sqrt
      ((axisMesh (Double.finite 1)).similarity_image (Double.finite 1)
        ⟨Double.finite (2 ^ 54), 0, 0⟩) 0
      (((axisMesh (Double.finite 1)).similarity_image (Double.finite 1)
        ⟨Double.finite (2 ^ 54), 0, 0⟩).circulator 0 0) = 0 := by
  have e : (2 : ℚ) ^ (54 : ℤ) = 2 ^ 54 := by norm_num
  have h0 : Double.round ((2 : ℚ) ^ 54) = Double.finite (2 ^ 54) := by
    rw [← e]; exact Double.round_zpow 54 (by norm_num) (by norm_num)
  rw [similarity_len, Double.finite_mul_zero, Double.zero_add_zero, Double.zero_sub_zero,
    Double.zero_mul_zero, Double.finite_mul_finite, mul_one, Double.round_one]
  simp only [Double.zero_def, Double.finite_add_finite, Double.finite_sub_finite, zero_add,
    h0, Double.round_absorb, sub_self, Double.round_zero, Double.finite_mul_finite, mul_zero,
    add_zero]
  rw [← Double.zero_def, Double.sqrt_zero]

end double_facts

/-! ## Claims about the assertions -/

section assertion_claims

open Real

/-- Claim C3, refuted in `double` arithmetic.  `axisMesh a` is a disc of three proper
triangles around the interior vertex `0`; for every `a > 0` the centre differs from its
first neighbour and the two corner angles of that neighbour at the centre are right angles,
inside `(0, π)`.  With `a = 2^600` the product `edge*edge` overflows, the computed length is
`+inf` and the quotient is zero or a NaN, whatever `std::tan` and `compute_angle_rad`
return: `assert(weight > 0)` fails, and without assertions a weight that is not positive is
returned.  With `a = 2^-600` the product underflows and the computed length is zero:
`assert(len != 0.0)` fails, and without assertions the weight `0` is returned. -/
theorem compute_wij_assertion_fails :
    (fanTriangulation 3).is_disc = true ∧
    (∀ a : ℝ, 0 < a →
      (axisMesh a).get_vertex_position 0 ≠
          (axisMesh a).get_vertex_position ((axisMesh a).neighbor 0 0) ∧
      compute_angle_rad Real.sqrt Real.arccos
          ((axisMesh a).get_vertex_position ((axisMesh a).neighbor 0 0))
          ((axisMesh a).get_vertex_position 0)
          ((axisMesh a).get_vertex_position ((axisMesh a).neighbor_before 0 0)) = π / 2 ∧
      compute_angle_rad Real.sqrt Real.arccos
          ((axisMesh a).get_vertex_position ((axisMesh a).neighbor_after 0 0))
          ((axisMesh a).get_vertex_position 0)
          ((axisMesh a).get_vertex_position ((axisMesh a).neighbor 0 0)) = π / 2) ∧
    ((fanTriangulation 3).agrees (axisMesh (Double.finite ((2 : ℚ) ^ (600 : ℤ)))) = true ∧
      (axisMesh (Double.finite ((2 : ℚ) ^ (600 : ℤ)))).is_vertex_on_border 0 = false ∧
      (axisMesh (Double.finite ((2 : ℚ) ^ (600 : ℤ)))).get_vertex_position 0 ≠
        (axisMesh (Double.finite ((2 : ℚ) ^ (600 : ℤ)))).get_vertex_position
          ((axisMesh (Double.finite ((2 : ℚ) ^ (600 : ℤ)))).neighbor 0 0) ∧
      computed_len Double.sqrt (axisMesh (Double.finite ((2 : ℚ) ^ (600 : ℤ)))) 0
        ((axisMesh (Double.finite ((2 : ℚ) ^ (600 : ℤ)))).circulator 0 0) =
          Double.inf false ∧
      ∀ (tan : Double → Double)
        (ang : Point_3 Double → Point_3 Double → Point_3 Double → Double),
        compute_wij Double.sqrt tan ang false (axisMesh (Double.finite ((2 : ℚ) ^ (600 : ℤ))))
            0 ((axisMesh (Double.finite ((2 : ℚ) ^ (600 : ℤ)))).circulator 0 0) =
          Outcome.assertion_failed ∧
        ∃ w, compute_wij Double.sqrt tan ang true
              (axisMesh (Double.finite ((2 : ℚ) ^ (600 : ℤ)))) 0
              ((axisMesh (Double.finite ((2 : ℚ) ^ (600 : ℤ)))).circulator 0 0) =
            Outcome.returned w ∧ ¬ (0 < w)) ∧
    ((fanTriangulation 3).agrees (axisMesh (Double.finite ((2 : ℚ) ^ (-600 : ℤ)))) = true ∧
      (axisMesh (Double.finite ((2 : ℚ) ^ (-600 : ℤ)))).is_vertex_on_border 0 = false ∧
      (axisMesh (Double.finite ((2 : ℚ) ^ (-600 : ℤ)))).get_vertex_position 0 ≠
        (axisMesh (Double.finite ((2 : ℚ) ^ (-600 : ℤ)))).get_vertex_position
          ((axisMesh (Double.finite ((2 : ℚ) ^ (-600 : ℤ)))).neighbor 0 0) ∧
      computed_len Double.sqrt (axisMesh (Double.finite ((2 : ℚ) ^ (-600 : ℤ)))) 0
        ((axisMesh (Double.finite ((2 : ℚ) ^ (-600 : ℤ)))).circulator 0 0) = 0 ∧
      ∀ (tan : Double → Double)
        (ang : Point_3 Double → Point_3 Double → Point_3 Double → Double),
        compute_wij Double.sqrt tan ang false
            (axisMesh (Double.finite ((2 : ℚ) ^ (-600 : ℤ)))) 0
            ((axisMesh (Double.finite ((2 : ℚ) ^ (-600 : ℤ)))).circulator 0 0) =
          Outcome.assertion_failed ∧
        compute_wij Double.sqrt tan ang true
            (axisMesh (Double.finite ((2 : ℚ) ^ (-600 : ℤ)))) 0
            ((axisMesh (Double.finite ((2 : ℚ) ^ (-600 : ℤ)))).circulator 0 0) =
          Outcome.returned 0) := by
  refine ⟨by decide, axisMesh_right_angles, ⟨by decide, rfl, axisMesh_ne _ (by positivity),
    huge_len, fun tan ang => compute_wij_of_len_inf tan ang _ _ _ huge_len⟩,
    ⟨by decide, rfl, axisMesh_ne _ (by positivity), tiny_len, fun tan ang => ⟨?_, ?_⟩⟩⟩
  · rw [compute_wij_of_len_eq _ _ _ false _ _ _ tiny_len]; simp
  · rw [compute_wij_of_len_eq _ _ _ true _ _ _ tiny_len]; simp

/-- Claim C9, as amended: in any arithmetic and whatever `std::sqrt`, `std::tan` and
`compute_angle_rad` return, when the computed `len` is not zero `compute_wij` never alters
the computed quotient `(tan(0.5*gamma_ij) + tan(0.5*delta_ij)) / len`.  With assertions
enabled it either returns that value, which is then positive, or stops at
`assert(weight > 0)`, and it stops exactly when the comparison `weight > 0` is false (a
value `≤ 0`, or a NaN); with assertions compiled out it returns the value whatever it is. -/
theorem compute_wij_reports_nonpositive {NT : Type} [Zero NT] [Add NT] [Sub NT] [Mul NT]
    [Div NT] [OfScientific NT] [LT NT] [DecidableEq NT]
    [DecidableRel (fun a b : NT => a < b)] (sqrt tan : NT → NT)
    (ang : Point_3 NT → Point_3 NT → Point_3 NT → NT) (mesh : MeshAdaptor_3 NT)
    (i : Vertex) (c : Vertex_around_vertex_const_circulator)
    (hlen : computed_len sqrt mesh i c ≠ 0) :
    ((compute_wij sqrt tan ang false mesh i c =
          Outcome.returned (computed_weight sqrt tan ang mesh i c) ∧
        0 < computed_weight sqrt tan ang mesh i c) ∨
      compute_wij sqrt tan ang false mesh i c = Outcome.assertion_failed) ∧
    (compute_wij sqrt tan ang false mesh i c = Outcome.assertion_failed ↔
      ¬ (0 < computed_weight sqrt tan ang mesh i c)) ∧
    compute_wij sqrt tan ang true mesh i c =
      Outcome.returned (computed_weight sqrt tan ang mesh i c) := by
  rw [compute_wij_of_len_ne sqrt tan ang false mesh i c hlen,
    compute_wij_of_len_ne sqrt tan ang true mesh i c hlen]
  by_cases h : 0 < computed_weight sqrt tan ang mesh i c
  · simp [h]
  · simp [h]

/-- Claim C9, instance: over the reals, the middle neighbour of the interior vertex of
`rayMesh`.  The computed length is `2`, the computed quotient is the mean value weight `0`,
which is not positive: with assertions enabled the call stops at `assert(weight > 0)`. -/
theorem compute_wij_reports_nonpositive_witness :
    computed_len Real.sqrt (rayMesh ℝ) 0 ((rayMesh ℝ).circulator 0 1) ≠ 0 ∧
    computed_weight Real.sqrt Real.tan (compute_angle_rad Real.sqrt Real.arccos)
      (rayMesh ℝ) 0 ((rayMesh ℝ).circulator 0 1) = 0 ∧
    (((compute_wij Real.sqrt Real.tan (compute_angle_rad Real.sqrt Real.arccos) false
            (rayMesh ℝ) 0 ((rayMesh ℝ).circulator 0 1) =
          Outcome.returned (computed_weight Real.sqrt Real.tan
            (compute_angle_rad Real.sqrt Real.arccos) (rayMesh ℝ) 0
            ((rayMesh ℝ).circulator 0 1)) ∧
        0 < computed_weight Real.sqrt Real.tan
            (compute_angle_rad Real.sqrt Real.arccos) (rayMesh ℝ) 0
            ((rayMesh ℝ).circulator 0 1)) ∨
      compute_wij Real.sqrt Real.tan (compute_angle_rad Real.sqrt Real.arccos) false
          (rayMesh ℝ) 0 ((rayMesh ℝ).circulator 0 1) = Outcome.assertion_failed) ∧
    (compute_wij Real.sqrt Real.tan (compute_angle_rad Real.sqrt Real.arccos) false
          (rayMesh ℝ) 0 ((rayMesh ℝ).circulator 0 1) = Outcome.assertion_failed ↔
      ¬ (0 < computed_weight Real.sqrt Real.tan
          (compute_angle_rad Real.sqrt Real.arccos) (rayMesh ℝ) 0
          ((rayMesh ℝ).circulator 0 1))) ∧
    compute_wij Real.sqrt Real.tan (compute_angle_rad Real.sqrt Real.arccos) true
        (rayMesh ℝ) 0 ((rayMesh ℝ).circulator 0 1) =
      Outcome.returned (computed_weight Real.sqrt Real.tan
        (compute_angle_rad Real.sqrt Real.arccos) (rayMesh ℝ) 0
        ((rayMesh ℝ).circulator 0 1))) :=
  have hlen : computed_len Real.sqrt (rayMesh ℝ) 0 ((rayMesh ℝ).circulator 0 1) ≠ 0 := by
    rw [computed_len_real]; exact (distance_pos rayMesh_ne).ne'
  ⟨hlen, (computed_weight_real _ _ _ _ _).trans rayMesh_weight,
    compute_wij_reports_nonpositive Real.sqrt Real.tan _ (rayMesh ℝ) 0
      ((rayMesh ℝ).circulator 0 1) hlen⟩

/-- Claim C9, counterexample.  Over the reals, on the disc `rayMesh`, where `P0 ≠ P2` and
the formula value is `0`, `compute_wij` with assertions compiled out returns `0`: the
non-positive value reaches the caller and no defect is signalled.  In `double` arithmetic,
on `axisMesh` with edges of length `2^-600`, the centre differs from its first neighbour
but the computed length is zero, whatever `std::tan` and `compute_angle_rad` return: with
assertions enabled a defect is signalled although the quotient of the formula is positive
as soon as the sum of the two tangents is, and with assertions compiled out the weight `0`
is returned in place of that quotient, which is not zero. -/
theorem compute_wij_unreported :
    ((fanTriangulation 3).is_disc = true ∧ (fanTriangulation 3).agrees (rayMesh ℝ) = true ∧
      (rayMesh ℝ).is_vertex_on_border 0 = false ∧
      (rayMesh ℝ).get_vertex_position 0 ≠
          (rayMesh ℝ).get_vertex_position ((rayMesh ℝ).neighbor 0 1) ∧
      mean_value_weight Real.sqrt Real.tan (compute_angle_rad Real.sqrt Real.arccos)
          (rayMesh ℝ) 0 1 ≤ 0 ∧
      compute_wij Real.sqrt Real.tan (compute_angle_rad Real.sqrt Real.arccos) true
          (rayMesh ℝ) 0 ((rayMesh ℝ).circulator 0 1) = Outcome.returned 0) ∧
    ((fanTriangulation 3).agrees (axisMesh (Double.finite ((2 : ℚ) ^ (-600 : ℤ)))) = true ∧
      (axisMesh (Double.finite ((2 : ℚ) ^ (-600 : ℤ)))).is_vertex_on_border 0 = false ∧
      (axisMesh (Double.finite ((2 : ℚ) ^ (-600 : ℤ)))).get_vertex_position 0 ≠
        (axisMesh (Double.finite ((2 : ℚ) ^ (-600 : ℤ)))).get_vertex_position
          ((axisMesh (Double.finite ((2 : ℚ) ^ (-600 : ℤ)))).neighbor 0 0) ∧
      ∀ (tan : Double → Double)
        (ang : Point_3 Double → Point_3 Double → Point_3 Double → Double),
        compute_wij Double.sqrt tan ang false
            (axisMesh (Double.finite ((2 : ℚ) ^ (-600 : ℤ)))) 0
            ((axisMesh (Double.finite ((2 : ℚ) ^ (-600 : ℤ)))).circulator 0 0) =
          Outcome.assertion_failed ∧
        compute_wij Double.sqrt tan ang true
            (axisMesh (Double.finite ((2 : ℚ) ^ (-600 : ℤ)))) 0
            ((axisMesh (Double.finite ((2 : ℚ) ^ (-600 : ℤ)))).circulator 0 0) =
          Outcome.returned 0 ∧
        computed_weight Double.sqrt tan ang
            (axisMesh (Double.finite ((2 : ℚ) ^ (-600 : ℤ)))) 0
            ((axisMesh (Double.finite ((2 : ℚ) ^ (-600 : ℤ)))).circulator 0 0) ≠ 0 ∧
        (0 < tan (0.5 * ang
              ((axisMesh (Double.finite ((2 : ℚ) ^ (-600 : ℤ)))).get_vertex_position 1)
              ((axisMesh (Double.finite ((2 : ℚ) ^ (-600 : ℤ)))).get_vertex_position 0)
              ((axisMesh (Double.finite ((2 : ℚ) ^ (-600 : ℤ)))).get_vertex_position 3)) +
            tan (0.5 * ang
              ((axisMesh (Double.finite ((2 : ℚ) ^ (-600 : ℤ)))).get_vertex_position 2)
              ((axisMesh (Double.finite ((2 : ℚ) ^ (-600 : ℤ)))).get_vertex_position 0)
              ((axisMesh (Double.finite ((2 : ℚ) ^ (-600 : ℤ)))).get_vertex_position 1)) →
          0 < computed_weight Double.sqrt tan ang
            (axisMesh (Double.finite ((2 : ℚ) ^ (-600 : ℤ)))) 0
            ((axisMesh (Double.finite ((2 : ℚ) ^ (-600 : ℤ)))).circulator 0 0))) := by
  refine ⟨⟨by decide, by decide, by simp [rayMesh], rayMesh_ne, le_of_eq rayMesh_weight, ?_⟩,
    ⟨by decide, rfl, axisMesh_ne _ (by positivity), fun tan ang => ⟨?_, ?_, ?_, ?_⟩⟩⟩
  · rw [compute_wij_of_ne _ true (rayMesh ℝ) 0 1 rayMesh_ne, rayMesh_weight]
    simp
  · rw [compute_wij_of_len_eq _ _ _ false _ _ _ tiny_len]; simp
  · rw [compute_wij_of_len_eq _ _ _ true _ _ _ tiny_len]; simp
  · rw [computed_weight_def, tiny_len]
    exact Double.div_zero_ne _
  · intro h
    rw [computed_weight_def, tiny_len]
    exact Double.div_zero_pos _ h

/-- Claim C10, counterexample, in `double` arithmetic.  On `axisMesh` with unit edges the
computed length is `1` and the call returns its quotient whenever that is positive (the
weight `2` when both tangents are `1`).  Scaled by `s = 2^600 > 0` the product `edge*edge`
overflows: the computed length is `+inf`, `assert(weight > 0)` fails and without assertions
a weight that is not positive is returned.  Translated by `2^54` along the first axis the
centre and its first neighbour receive the same coordinates: `assert(len != 0.0)` fails and
without assertions `0` is returned.  In both cases the outcome on the image is not the
original outcome with the weight divided by `s`. -/
theorem compute_wij_similarity_fails :
    (computed_len Double.sqrt (axisMesh (Double.finite 1)) 0
        ((axisMesh (Double.finite 1)).circulator 0 0) = Double.finite 1 ∧
      (∀ (ang : Point_3 Double → Point_3 Double → Point_3 Double → Double) (ndebug : Bool),
        compute_wij Double.sqrt (fun _ => Double.finite 1) ang ndebug
          (axisMesh (Double.finite 1)) 0 ((axisMesh (Double.finite 1)).circulator 0 0) =
            Outcome.returned (Double.finite 2)) ∧
      ∀ (tan : Double → Double)
        (ang : Point_3 Double → Point_3 Double → Point_3 Double → Double) (ndebug : Bool),
        0 < computed_weight Double.sqrt tan ang (axisMesh (Double.finite 1)) 0
            ((axisMesh (Double.finite 1)).circulator 0 0) →
          compute_wij Double.sqrt tan ang ndebug (axisMesh (Double.finite 1)) 0
              ((axisMesh (Double.finite 1)).circulator 0 0) =
            Outcome.returned (computed_weight Double.sqrt tan ang
              (axisMesh (Double.finite 1)) 0
              ((axisMesh (Double.finite 1)).circulator 0 0))) ∧
    ((0 : Double) < Double.finite ((2 : ℚ) ^ (600 : ℤ)) ∧
      ∀ (tan : Double → Double)
        (ang : Point_3 Double → Point_3 Double → Point_3 Double → Double),
        (compute_wij Double.sqrt tan ang false
            ((axisMesh (Double.finite 1)).similarity_image
              (Double.finite ((2 : ℚ) ^ (600 : ℤ))) ⟨0, 0, 0⟩) 0
            (((axisMesh (Double.finite 1)).similarity_image
              (Double.finite ((2 : ℚ) ^ (600 : ℤ))) ⟨0, 0, 0⟩).circulator 0 0) =
          Outcome.assertion_failed ∧
        ∃ w, compute_wij Double.sqrt tan ang true
              ((axisMesh (Double.finite 1)).similarity_image
                (Double.finite ((2 : ℚ) ^ (600 : ℤ))) ⟨0, 0, 0⟩) 0
              (((axisMesh (Double.finite 1)).similarity_image
                (Double.finite ((2 : ℚ) ^ (600 : ℤ))) ⟨0, 0, 0⟩).circulator 0 0) =
            Outcome.returned w ∧ ¬ (0 < w)) ∧
        (0 < computed_weight Double.sqrt tan ang (axisMesh (Double.finite 1)) 0
            ((axisMesh (Double.finite 1)).circulator 0 0) →
          compute_wij Double.sqrt tan ang false
              ((axisMesh (Double.finite 1)).similarity_image
                (Double.finite ((2 : ℚ) ^ (600 : ℤ))) ⟨0, 0, 0⟩) 0
              (((axisMesh (Double.finite 1)).similarity_image
                (Double.finite ((2 : ℚ) ^ (600 : ℤ))) ⟨0, 0, 0⟩).circulator 0 0) ≠
            Outcome.map (fun w => w / Double.finite ((2 : ℚ) ^ (600 : ℤ)))
              (compute_wij Double.sqrt tan ang false (axisMesh (Double.finite 1)) 0
                ((axisMesh (Double.finite 1)).circulator 0 0)))) ∧
    (∀ (tan : Double → Double)
        (ang : Point_3 Double → Point_3 Double → Point_3 Double → Double),
        (compute_wij Double.sqrt tan ang false
            ((axisMesh (Double.finite 1)).similarity_image (Double.finite 1)
              ⟨Double.finite (2 ^ 54), 0, 0⟩) 0
            (((axisMesh (Double.finite 1)).similarity_image (Double.finite 1)
              ⟨Double.finite (2 ^ 54), 0, 0⟩).circulator 0 0) =
          Outcome.assertion_failed ∧
        compute_wij Double.sqrt tan ang true
            ((axisMesh (Double.finite 1)).similarity_image (Double.finite 1)
              ⟨Double.finite (2 ^ 54), 0, 0⟩) 0
            (((axisMesh (Double.finite 1)).similarity_image (Double.finite 1)
              ⟨Double.finite (2 ^ 54), 0, 0⟩).circulator 0 0) =
          Outcome.returned 0) ∧
        (0 < computed_weight Double.sqrt tan ang (axisMesh (Double.finite 1)) 0
            ((axisMesh (Double.finite 1)).circulator 0 0) →
          compute_wij Double.sqrt tan ang false
              ((axisMesh (Double.finite 1)).similarity_image (Double.finite 1)
                ⟨Double.finite (2 ^ 54), 0, 0⟩) 0
              (((axisMesh (Double.finite 1)).similarity_image (Double.finite 1)
                ⟨Double.finite (2 ^ 54), 0, 0⟩).circulator 0 0) ≠
            compute_wij Double.sqrt tan ang false (axisMesh (Double.finite 1)) 0
              ((axisMesh (Double.finite 1)).circulator 0 0))) := by
  have hunit : computed_len Double.sqrt (axisMesh (Double.finite 1)) 0
      ((axisMesh (Double.finite 1)).circulator 0 0) ≠ 0 := by
    rw [unit_len]; exact Double.finite_ne_zero one_ne_zero
  have horig : ∀ (tan : Double → Double)
      (ang : Point_3 Double → Point_3 Double → Point_3 Double → Double) (ndebug : Bool),
      0 < computed_weight Double.sqrt tan ang (axisMesh (Double.finite 1)) 0
          ((axisMesh (Double.finite 1)).circulator 0 0) →
        compute_wij Double.sqrt tan ang ndebug (axisMesh (Double.finite 1)) 0
            ((axisMesh (Double.finite 1)).circulator 0 0) =
          Outcome.returned (computed_weight Double.sqrt tan ang
            (axisMesh (Double.finite 1)) 0
            ((axisMesh (Double.finite 1)).circulator 0 0)) := by
    intro tan ang ndebug h
    rw [compute_wij_of_len_ne _ _ _ ndebug _ _ _ hunit]
    simp [h]
  refine ⟨⟨unit_len, fun ang ndebug => ?_, horig⟩,
    ⟨Double.finite_pos (by positivity), fun tan ang =>
      ⟨compute_wij_of_len_inf tan ang _ _ _ scaled_len, fun h => ?_⟩⟩,
    fun tan ang => ⟨⟨?_, ?_⟩, fun h => ?_⟩⟩
  · have h2 := horig (fun _ => Double.finite 1) ang ndebug
      (by rw [unit_weight]; exact Double.finite_pos (by norm_num))
    rw [h2, unit_weight]
  · rw [(compute_wij_of_len_inf tan ang _ _ _ scaled_len).1, horig tan ang false h]
    exact fun e => Outcome.noConfusion e
  · rw [compute_wij_of_len_eq _ _ _ false _ _ _ translated_len]; simp
  · rw [compute_wij_of_len_eq _ _ _ true _ _ _ translated_len]; simp
  · rw [compute_wij_of_len_eq _ _ _ false _ _ _ translated_len, horig tan ang false h]
    exact fun e => Outcome.noConfusion e

end assertion_claims

end CGAL
